import Mathlib

/-!
# Access-gated secure reader (`src/App.jsx`)

A shallow embedding of the reader's access policy, navigation, zoom, watermark tiling,
leak-mitigation monitor, render effect and issue reporting.

JavaScript numbers are IEEE-754 binary64 values.  They are embedded as `JSNum`: the finite
values are carried by the exact rational they denote, and every arithmetic operation computes
the exact rational result and then rounds it to the nearest binary64 value, ties to even
(`round64`), overflowing to an infinity beyond the largest finite value.  The two zeros, the two
infinities and NaN are kept apart, so that division by zero behaves as it does in the browser.
-/

namespace RI2

/-! ## Binary64 rounding -/

/-- Round a rational to the nearest integer, a tie going to the even neighbour. -/
def roundHalfEven (x : ℚ) : ℤ :=
  let f := ⌊x⌋
  let r := x - f
  if r < 1 / 2 then f
  else if 1 / 2 < r then f + 1
  else if f % 2 = 0 then f else f + 1

/-- Position of the leading binary digit of `n` (`0` for `n < 2`), by recursion on `fuel`. -/
def log2Fuel : ℕ → ℕ → ℕ
  | 0, _ => 0
  | fuel + 1, n => if n < 2 then 0 else log2Fuel fuel (n / 2) + 1

/-- The exponent `e` with `2 ^ e ≤ |q| < 2 ^ (e + 1)`, for `q ≠ 0`. -/
def floorLog2 (q : ℚ) : ℤ :=
  let e0 : ℤ := (log2Fuel q.num.natAbs q.num.natAbs : ℤ) - (log2Fuel q.den q.den : ℤ)
  if (2 : ℚ) ^ e0 ≤ |q| then e0 else e0 - 1

/-- Exponent of the unit in the last place of the binary64 values around `q`: 53 significant
bits for normal numbers, the fixed spacing `2 ^ (-1074)` below `2 ^ (-1022)`. -/
def quantumExp (q : ℚ) : ℤ := max (floorLog2 q) (-1022) - 52

/-- Nearest binary64 value to `q`, ties to even, with an unbounded exponent range upwards
(overflow is decided by `JSNum.ofRat`). -/
def round64 (q : ℚ) : ℚ :=
  (roundHalfEven (q / (2 : ℚ) ^ quantumExp q) : ℚ) * (2 : ℚ) ^ quantumExp q

/-- The largest finite binary64 value, `Number.MAX_VALUE`. -/
def maxFinite : ℚ := (2 ^ 53 - 1) * 2 ^ 971

/-- The rational `q` is exactly a finite binary64 value. -/
def isDouble (q : ℚ) : Prop := round64 q = q ∧ |q| ≤ maxFinite

instance (q : ℚ) : Decidable (isDouble q) := by
  unfold isDouble; infer_instance

/-! ## JavaScript numbers -/

/-- A JavaScript Number: NaN, an infinity, negative zero, or a finite value (`fin 0` is `+0`). -/
inductive JSNum where
  | nan
  | inf (neg : Bool)
  | negZero
  | fin (q : ℚ)
  deriving DecidableEq

namespace JSNum

/-- The value is a finite binary64 number (always true of NaN, the infinities and `-0`). -/
def WF : JSNum → Prop
  | fin q => isDouble q
  | _ => True

instance (a : JSNum) : Decidable a.WF := by
  cases a <;> unfold WF <;> infer_instance

/-- The number is `+0` or `-0`. -/
def isZero : JSNum → Bool
  | negZero => true
  | fin q => decide (q = 0)
  | _ => false

/-- The sign bit (`false` for NaN). -/
def signBit : JSNum → Bool
  | inf s => s
  | negZero => true
  | fin q => decide (q < 0)
  | nan => false

/-- The rational denoted by a finite number (`0` for the other values). -/
def toRat : JSNum → ℚ
  | fin q => q
  | _ => 0

/-- Deliver the exact result `q` of an operation as a Number: round to nearest, overflow to the
infinity of the sign of `q`; a zero result takes the sign of `q`, or `zneg` when `q` is zero. -/
def ofRat (zneg : Bool) (q : ℚ) : JSNum :=
  let r := round64 q
  if maxFinite < |r| then inf (decide (q < 0))
  else if r = 0 then (if q < 0 ∨ (q = 0 ∧ zneg = true) then negZero else fin 0)
  else fin r

/-- A numeric literal of the source text, e.g. `0.2`: the nearest binary64 value. -/
def lit (q : ℚ) : JSNum := ofRat false q

/-- Unary minus. -/
def neg : JSNum → JSNum
  | nan => nan
  | inf s => inf (!s)
  | negZero => fin 0
  | fin q => if q = 0 then negZero else fin (-q)

/-- The operator `*`. -/
def mul : JSNum → JSNum → JSNum
  | nan, _ => nan
  | _, nan => nan
  | inf s, b => if b.isZero then nan else inf (xor s b.signBit)
  | a, inf s => if a.isZero then nan else inf (xor a.signBit s)
  | a, b => ofRat (xor a.signBit b.signBit) (a.toRat * b.toRat)

/-- The operator `/`. -/
def div : JSNum → JSNum → JSNum
  | nan, _ => nan
  | _, nan => nan
  | inf _, inf _ => nan
  | inf s, b => inf (xor s b.signBit)
  | a, inf s => if xor a.signBit s then negZero else fin 0
  | a, b =>
    if b.isZero then (if a.isZero then nan else inf (xor a.signBit b.signBit))
    else ofRat (xor a.signBit b.signBit) (a.toRat / b.toRat)

/-- The operator `+` on numbers. -/
def add : JSNum → JSNum → JSNum
  | nan, _ => nan
  | _, nan => nan
  | inf s, inf t => if s = t then inf s else nan
  | inf s, _ => inf s
  | _, inf t => inf t
  | a, b => ofRat (a.signBit && b.signBit) (a.toRat + b.toRat)

/-- The operator `-`. -/
def sub (a b : JSNum) : JSNum := add a (neg b)

/-- The comparison `a < b` (false whenever an operand is NaN). -/
def lt : JSNum → JSNum → Bool
  | nan, _ => false
  | _, nan => false
  | inf s, inf t => s && !t
  | inf s, _ => s
  | _, inf t => !t
  | a, b => decide (a.toRat < b.toRat)

/-- The comparison `a > b`. -/
def gt (a b : JSNum) : Bool := lt b a

/-- The comparison `a <= b` (false whenever an operand is NaN). -/
def le : JSNum → JSNum → Bool
  | nan, _ => false
  | _, nan => false
  | inf s, inf t => s || !t
  | inf s, _ => s
  | _, inf t => !t
  | a, b => decide (a.toRat ≤ b.toRat)

/-- Strict equality `a === b` on numbers (NaN differs from itself, `+0 === -0`). -/
def strictEq : JSNum → JSNum → Bool
  | nan, _ => false
  | _, nan => false
  | inf s, inf t => s == t
  | inf _, _ => false
  | _, inf _ => false
  | a, b => decide (a.toRat = b.toRat)

/-- The function `Math.floor`. -/
def floor : JSNum → JSNum
  | fin q => fin (⌊q⌋ : ℤ)
  | a => a

/-- The function `Math.max` of two arguments (`+0` is larger than `-0`). -/
def max (a b : JSNum) : JSNum :=
  match a, b with
  | nan, _ => nan
  | _, nan => nan
  | a, b =>
    if lt a b then b
    else if lt b a then a
    else if a = negZero then b else a

/-- The function `Math.min` of two arguments (`-0` is smaller than `+0`). -/
def min (a b : JSNum) : JSNum :=
  match a, b with
  | nan, _ => nan
  | _, nan => nan
  | a, b =>
    if lt a b then a
    else if lt b a then b
    else if a = negZero then a else b

end JSNum

/-- A property value read in a numeric context: missing (`undefined`), `null`, or a number. -/
inductive JSVal where
  | undefined
  | null
  | num (n : JSNum)
  deriving DecidableEq

/-- The conversion ToNumber: `undefined` is NaN and `null` is `+0`. -/
def JSVal.toNumber : JSVal → JSNum
  | .undefined => JSNum.nan
  | .null => JSNum.fin 0
  | .num n => n

/-! ## Data model -/

/-- An entry of the book list (`INITIAL_BOOKS`, `addBook`). -/
structure Book where
  id : String := ""
  title : String := ""
  totalPages : JSVal := JSVal.undefined
  hasFile : Bool := false
  content : Option String := none
  stock : JSVal := JSVal.undefined
  deriving DecidableEq

/-- A date-only string `YYYY-MM-DD`, as the admin form writes `validFrom` and `validUntil`. -/
structure DateOnly where
  year : ℤ
  month : ℤ
  day : ℤ
  deriving DecidableEq

/-- A record of the `physicalIssues` list of a user, as `issuePhysicalBook` writes it. -/
structure PhysicalIssue where
  bookId : String
  title : String
  date : String
  deriving DecidableEq

/-- An entry of the user list (`INITIAL_USERS`, `addUser`).  A date field is `none` when the
property is missing, `null` or the empty string, which is when `!user.validFrom` holds.  The
lists `access` and `physicalIssues` are arrays in every entry the program creates. -/
structure User where
  id : String := ""
  name : String := ""
  totalFee : JSVal := JSVal.undefined
  paidAmount : JSVal := JSVal.undefined
  validFrom : Option DateOnly := none
  validUntil : Option DateOnly := none
  password : String := ""
  access : List String := []
  physicalIssues : List PhysicalIssue := []
  deriving DecidableEq

/-- The portal settings read by the reader and by the login handler. -/
structure Settings where
  watermarkText : String := "CONFIDENTIAL - DO NOT SHARE"
  maintenanceMode : Bool := false
  deriving DecidableEq

/-! ## Dates -/

/-- Milliseconds in a day. -/
def msPerDay : ℤ := 86400000

/-- Milliseconds in a minute. -/
def msPerMinute : ℤ := 60000

/-- Days from 1970-01-01 to the given day of the proleptic Gregorian calendar. -/
def daysFromCivil (y m d : ℤ) : ℤ :=
  let y1 := if m ≤ 2 then y - 1 else y
  let era := y1 / 400
  let yoe := y1 - era * 400
  let mp := if 2 < m then m - 3 else m + 9
  let doy := (153 * mp + 2) / 5 + d - 1
  let doe := yoe * 365 + yoe / 4 - yoe / 100 + doy
  era * 146097 + doe - 719468

/-- Time value of `new Date(s)` for a date-only string `s`: midnight UTC of that day. -/
def dateOfString (s : DateOnly) : ℤ := daysFromCivil s.year s.month s.day * msPerDay

/-- Time value after `date.setHours(h, m, s, ms)`: the local day of `t` is kept and the local
time of day replaced.  Local time is UTC plus `tzOffsetMin` minutes. -/
def setHours (tzOffsetMin t h m s ms : ℤ) : ℤ :=
  let localT := t + tzOffsetMin * msPerMinute
  let localDay := localT / msPerDay
  localDay * msPerDay + (h * 3600000 + m * 60000 + s * 1000 + ms) - tzOffsetMin * msPerMinute

/-- The host clock: the time value `new Date()` returns and the offset of local time from UTC
in minutes (positive east of Greenwich). -/
structure Clock where
  now : ℤ
  tzOffsetMin : ℤ

/-- The function `isAccessValid` of the source. -/
def isAccessValid (clock : Clock) (user : User) : Bool :=
  match user.validFrom, user.validUntil with
  | some validFrom, some validUntil =>
    let start := dateOfString validFrom
    let endT := setHours clock.tzOffsetMin (dateOfString validUntil) 23 59 59 999
    decide (clock.now ≥ start) && decide (clock.now ≤ endT)
  | _, _ => true

/-! ## Book list -/

/-- What a render of `BookList` fixes for the click handlers it creates: the constant
`validAccess`. -/
structure BookList where
  validAccess : Bool
  deriving DecidableEq

/-- A render of `BookList`: `const validAccess = isAccessValid(user)`, with the clock as it
reads during that render.  The list is rendered again when props or state change, not when
time passes. -/
def renderBookList (clock : Clock) (user : User) : BookList :=
  { validAccess := isAccessValid clock user }

/-- The click handler of a book card of a rendered list, `() => validAccess && onOpen(book)`,
acting on the `activeBook` state of `StudentPortal`.  It closes over the `validAccess` of the
render that created it and reads no clock at the click. -/
def bookCardClick (list : BookList) (book : Book) (activeBook : Option Book) : Option Book :=
  if list.validAccess then some book else activeBook

/-! ## Reader: access policy -/

/-- The constant `accessRatio` of `SecureReader`. -/
def accessRatio (user : User) : JSNum :=
  JSNum.div user.paidAmount.toNumber user.totalFee.toNumber

/-- The constant `maxPage` of `SecureReader`. -/
def maxPage (book : Book) (user : User) : JSNum :=
  JSNum.floor (JSNum.mul book.totalPages.toNumber (accessRatio user))

/-- The constant `isLocked` of `SecureReader`, for the current page `pageNum`. -/
def isLocked (book : Book) (user : User) (pageNum : JSNum) : Bool :=
  JSNum.gt pageNum (maxPage book user)

/-! ## Reader: navigation and zoom -/

/-- The state kept by `SecureReader` in `useState` hooks; `pdfDoc` records whether the parsed
document has been set. -/
structure ReaderState where
  pageNum : JSNum := JSNum.fin 1
  pdfDoc : Bool := false
  zoom : JSNum := JSNum.lit 1
  isObscured : Bool := false
  securityWarning : String := ""
  isWindowFocused : Bool := true
  deriving DecidableEq

/-- The state of a freshly mounted reader. -/
def ReaderState.initial : ReaderState := {}

/-- Updater of the previous-page button, `p => Math.max(1, p - 1)`. -/
def prevPage (p : JSNum) : JSNum := JSNum.max (JSNum.fin 1) (JSNum.sub p (JSNum.fin 1))

/-- Updater of the next-page button, `p => Math.min(book.totalPages, p + 1)`. -/
def nextPage (book : Book) (p : JSNum) : JSNum :=
  JSNum.min book.totalPages.toNumber (JSNum.add p (JSNum.fin 1))

/-- Updater of the zoom-out button, `z => Math.max(0.5, z - 0.2)`. -/
def zoomOut (z : JSNum) : JSNum := JSNum.max (JSNum.lit (1 / 2)) (JSNum.sub z (JSNum.lit (2 / 10)))

/-- Updater of the zoom-in button, `z => Math.min(3.0, z + 0.2)`. -/
def zoomIn (z : JSNum) : JSNum := JSNum.min (JSNum.lit 3) (JSNum.add z (JSNum.lit (2 / 10)))

/-- A click on one of the two footer buttons. -/
inductive NavRequest where
  | previous
  | next
  deriving DecidableEq

/-- A click on one of the two zoom buttons. -/
inductive ZoomRequest where
  | zoomOut
  | zoomIn
  deriving DecidableEq

/-- Effect of a footer button on the reader; a disabled button (`pageNum === 1`, respectively
`pageNum === book.totalPages`) does not fire. -/
def navigate (book : Book) (s : ReaderState) : NavRequest → ReaderState
  | .previous =>
    if JSNum.strictEq s.pageNum (JSNum.fin 1) then s else { s with pageNum := prevPage s.pageNum }
  | .next =>
    if JSNum.strictEq s.pageNum book.totalPages.toNumber then s
    else { s with pageNum := nextPage book s.pageNum }

/-- Effect of a zoom button on the reader. -/
def adjustZoom (s : ReaderState) : ZoomRequest → ReaderState
  | .zoomOut => { s with zoom := zoomOut s.zoom }
  | .zoomIn => { s with zoom := zoomIn s.zoom }

/-! ## Reader: rendering -/

/-- What the page area of the reader shows (the ternary in the JSX of `SecureReader`). -/
inductive PageView where
  | contentLocked
  | canvas
  | text (s : String)
  deriving DecidableEq

/-- The expression `book.content || "No content found."`. -/
def contentOrDefault (book : Book) : String :=
  match book.content with
  | some s => if s = "" then "No content found." else s
  | none => "No content found."

/-- The page area rendered for the current state. -/
def pageView (book : Book) (user : User) (s : ReaderState) : PageView :=
  if isLocked book user s.pageNum then PageView.contentLocked
  else if book.hasFile then PageView.canvas
  else PageView.text (contentOrDefault book)

/-- A call made by the render effect of `SecureReader`. -/
inductive RenderCall where
  | getPage (pageNum : JSNum)
  | render (pageNum scale : JSNum)
  | watermark (text viewerId : String) (zoom : JSNum)
  deriving DecidableEq

/-- The calls the render effect issues for a state when every promise resolves and the canvas
is mounted: nothing unless `pdfDoc && !isLocked`. -/
def renderEffect (book : Book) (user : User) (settings : Settings) (s : ReaderState) :
    List RenderCall :=
  if s.pdfDoc && !isLocked book user s.pageNum then
    [RenderCall.getPage s.pageNum,
     RenderCall.render s.pageNum (JSNum.mul s.zoom (JSNum.lit (15 / 10))),
     RenderCall.watermark settings.watermarkText user.id s.zoom]
  else []

/-! ## Reader: watermark tiling -/

/-- A drawing call on the canvas context. -/
inductive DrawOp where
  | fillText (text : String) (x y : JSNum)
  deriving DecidableEq

/-- The inner loop `for (let y = ...; y < canvas.height * 2; y += stepY)` from the current `y`;
`none` when `fuel` iterations do not reach the exit. -/
def watermarkColumn (watermarkText userId : String) (zoom x yEnd stepY : JSNum) :
    ℕ → JSNum → Option (List DrawOp)
  | 0, _ => none
  | fuel + 1, y =>
    if JSNum.lt y yEnd then
      (watermarkColumn watermarkText userId zoom x yEnd stepY fuel (JSNum.add y stepY)).map
        fun rest =>
          DrawOp.fillText watermarkText x y ::
          DrawOp.fillText userId x (JSNum.add y (JSNum.mul (JSNum.fin 50) zoom)) :: rest
    else some []

/-- The outer loop `for (let x = ...; x < canvas.width * 2; x += stepX)` from the current `x`;
`none` when `fuel` iterations of either loop do not reach the exit. -/
def watermarkGrid (watermarkText userId : String) (zoom xEnd yStart yEnd stepX stepY : JSNum) :
    ℕ → JSNum → Option (List DrawOp)
  | 0, _ => none
  | fuel + 1, x =>
    if JSNum.lt x xEnd then
      match watermarkColumn watermarkText userId zoom x yEnd stepY fuel yStart,
        watermarkGrid watermarkText userId zoom xEnd yStart yEnd stepX stepY fuel
          (JSNum.add x stepX) with
      | some column, some rest => some (column ++ rest)
      | _, _ => none
    else some []

/-- The text drawn by the watermark block on a canvas of the given integer size. -/
def drawWatermark (fuel : ℕ) (settings : Settings) (user : User) (zoom : JSNum)
    (width height : ℕ) : Option (List DrawOp) :=
  let canvasWidth := JSNum.fin width
  let canvasHeight := JSNum.fin height
  let stepX := JSNum.mul (JSNum.fin 400) zoom
  let stepY := JSNum.mul (JSNum.fin 400) zoom
  watermarkGrid settings.watermarkText user.id zoom
    (JSNum.mul canvasWidth (JSNum.fin 2)) (JSNum.neg canvasHeight)
    (JSNum.mul canvasHeight (JSNum.fin 2)) stepX stepY fuel (JSNum.neg canvasWidth)

/-! ## Reader: leak-mitigation monitor -/

/-- An event delivered to the listeners that `SecureReader` registers on `window`. -/
inductive WindowEvent where
  | contextmenu
  | keydown (key : String) (metaKey shiftKey : Bool)
  | focus
  | blur
  deriving DecidableEq

/-- What a listener did: the reader state after its state setters, whether it called
`e.preventDefault()`, and the delay in milliseconds of a timer it set with `setTimeout`. -/
structure Handled where
  state : ReaderState
  defaultPrevented : Bool := false
  timeout : Option ℕ := none
  deriving DecidableEq

/-- The listener `handleContext`. -/
def handleContext (s : ReaderState) : Handled :=
  { state := s, defaultPrevented := true }

/-- The test of `handleKeyDown`:
`e.key === 'PrintScreen' || (e.metaKey && e.shiftKey && (e.key === '3' || e.key === '4'))`. -/
def isScreenshotKey (key : String) (metaKey shiftKey : Bool) : Bool :=
  key == "PrintScreen" || (metaKey && shiftKey && (key == "3" || key == "4"))

/-- The listener `handleKeyDown`. -/
def handleKeyDown (s : ReaderState) (key : String) (metaKey shiftKey : Bool) : Handled :=
  if isScreenshotKey key metaKey shiftKey then
    { state := { s with isObscured := true, securityWarning := "Screenshots disabled" },
      defaultPrevented := true,
      timeout := some 2000 }
  else { state := s }

/-- The callback handed to `setTimeout` by `handleKeyDown`:
`() => { setIsObscured(false); setSecurityWarning(''); }`. -/
def obscureTimeout (s : ReaderState) : ReaderState :=
  { s with isObscured := false, securityWarning := "" }

/-- The listener `handleFocus`. -/
def handleFocus (s : ReaderState) : Handled :=
  { state := { s with isWindowFocused := true } }

/-- The listener `handleBlur`. -/
def handleBlur (s : ReaderState) : Handled :=
  { state := { s with isWindowFocused := false,
                      securityWarning := "App backgrounded - Content Hidden" } }

/-- Dispatch of a window event to the listener registered for it. -/
def handleEvent (s : ReaderState) : WindowEvent → Handled
  | .contextmenu => handleContext s
  | .keydown key metaKey shiftKey => handleKeyDown s key metaKey shiftKey
  | .focus => handleFocus s
  | .blur => handleBlur s

/-- The reader together with the timers that are pending, each by the time in milliseconds at
which it is due, oldest first.  No timer is ever cleared. -/
structure Monitor where
  reader : ReaderState := ReaderState.initial
  timers : List ℕ := []
  deriving DecidableEq

/-- Run the callback of every timer due at `now` or before, in the order they were set. -/
def Monitor.fireDue (now : ℕ) (m : Monitor) : Monitor :=
  { reader := (m.timers.filter fun due => decide (due ≤ now)).foldl
      (fun s _ => obscureTimeout s) m.reader,
    timers := m.timers.filter fun due => decide (now < due) }

/-- A window event arriving at time `t`: the timers due by then have run, the listener runs,
and a timer it sets is due its delay later. -/
def Monitor.dispatch (m : Monitor) (t : ℕ) (e : WindowEvent) : Monitor :=
  let m1 := m.fireDue t
  let h := handleEvent m1.reader e
  { reader := h.state,
    timers := m1.timers ++ (h.timeout.map fun delay => t + delay).toList }

/-- The monitor after a list of window events, each with its time of arrival. -/
def Monitor.run (m : Monitor) (events : List (ℕ × WindowEvent)) : Monitor :=
  events.foldl (fun (m : Monitor) (te : ℕ × WindowEvent) => m.dispatch te.1 te.2) m

/-- The monitor at time `t` of a freshly mounted reader that receives the given events, each
with its time of arrival, in order of time. -/
def monitorAt (events : List (ℕ × WindowEvent)) (t : ℕ) : Monitor :=
  (Monitor.run {} (events.filter fun (te : ℕ × WindowEvent) => decide (te.1 ≤ t))).fireDue t

/-! ## Reader: screen -/

/-- The parts of the JSX of `SecureReader` that the monitor and the lock decide: the
full-surface "Security Violation" overlay, the warning chip of the header, whether the page
container carries `blur-3xl opacity-0`, and the page area inside it. -/
structure ReaderScreen where
  securityOverlay : Bool
  warningBanner : Option String
  pageAreaHidden : Bool
  pageArea : PageView
  deriving DecidableEq

/-- The screen rendered for a reader state. -/
def readerScreen (book : Book) (user : User) (s : ReaderState) : ReaderScreen :=
  { securityOverlay := s.isObscured,
    warningBanner := if s.securityWarning = "" then none else some s.securityWarning,
    pageAreaHidden := !s.isWindowFocused,
    pageArea := pageView book user s }

/-- Screenshot triggers: a `PrintScreen` keydown at each of the given times. -/
def screenshotTriggers (times : List ℕ) : List (ℕ × WindowEvent) :=
  times.map fun t => (t, WindowEvent.keydown "PrintScreen" false false)

/-! ## Number to string -/

/-- Number of decimal digits of `n` minus one (`0` for `n < 10`), by recursion on `fuel`. -/
def log10Fuel : ℕ → ℕ → ℕ
  | 0, _ => 0
  | fuel + 1, n => if n < 10 then 0 else log10Fuel fuel (n / 10) + 1

/-- The exponent `e` with `10 ^ e ≤ |q| < 10 ^ (e + 1)`, for `q ≠ 0`. -/
def floorLog10 (q : ℚ) : ℤ :=
  let e0 : ℤ := (log10Fuel q.num.natAbs q.num.natAbs : ℤ) - (log10Fuel q.den q.den : ℤ)
  if (10 : ℚ) ^ e0 ≤ |q| then e0 else e0 - 1

/-- The pairs `(s, n)` with `s` of exactly `k` digits and `s * 10 ^ (n - k)` rounding to `x`,
for `x > 0`. -/
def digitCandidates (x : ℚ) (k : ℕ) : List (ℕ × ℤ) :=
  let n0 := floorLog10 x + 1
  [n0, n0 + 1].flatMap fun (n : ℤ) =>
    let lo := ⌊x / (10 : ℚ) ^ (n - k)⌋.toNat
    ([lo, lo + 1].filter fun (s : ℕ) =>
      decide (10 ^ (k - 1) ≤ s) && decide (s < 10 ^ k) &&
        decide (round64 ((s : ℚ) * (10 : ℚ) ^ (n - k)) = x)).map fun (s : ℕ) => (s, n)

/-- The candidate nearest to `x`, the even one of two equally near ones. -/
def nearestCandidate (x : ℚ) (k : ℕ) : List (ℕ × ℤ) → Option (ℕ × ℤ)
  | [] => none
  | c :: cs =>
    match nearestCandidate x k cs with
    | none => some c
    | some d =>
      let distC := |(c.1 : ℚ) * (10 : ℚ) ^ (c.2 - k) - x|
      let distD := |(d.1 : ℚ) * (10 : ℚ) ^ (d.2 - k) - x|
      if distC < distD then some c
      else if distD < distC then some d
      else if c.1 % 2 = 0 then some c else some d

/-- Step 5 of Number::toString: digits `s`, their count `k` and the exponent `n` with `k` as
small as possible, searched for `k` from `k` upwards through `fuel` values. -/
def shortestDigits (x : ℚ) : ℕ → ℕ → Option (ℕ × ℕ × ℤ)
  | 0, _ => none
  | fuel + 1, k =>
    match nearestCandidate x k (digitCandidates x k) with
    | some c => some (c.1, k, c.2)
    | none => shortestDigits x fuel (k + 1)

/-- Steps 6 to 10 of Number::toString: the text for digits `s` (there are `k`) and
exponent `n`. -/
def formatDigits (s k : ℕ) (n : ℤ) : List Char :=
  let digits := Nat.toDigits 10 s
  if (k : ℤ) ≤ n ∧ n ≤ 21 then digits ++ List.replicate (n.toNat - k) '0'
  else if 0 < n ∧ n ≤ 21 then digits.take n.toNat ++ '.' :: digits.drop n.toNat
  else if -6 < n ∧ n ≤ 0 then '0' :: '.' :: (List.replicate (-n).toNat '0' ++ digits)
  else
    let e := n - 1
    let expo := (if e < 0 then '-' else '+') :: Nat.toDigits 10 e.natAbs
    if k = 1 then digits ++ 'e' :: expo
    else digits.take 1 ++ '.' :: (digits.drop 1 ++ 'e' :: expo)

/-- Number::toString for a positive finite value (binary64 values need at most 17 digits). -/
def positiveToStr (x : ℚ) : List Char :=
  match shortestDigits x 17 1 with
  | some (s, k, n) => formatDigits s k n
  | none => formatDigits ⌊x / (10 : ℚ) ^ (floorLog10 x - 16)⌋.toNat 17 (floorLog10 x + 1)

/-- The conversion of a Number to a String, as a template literal applies it. -/
def JSNum.toStr : JSNum → String
  | .nan => "NaN"
  | .inf false => "Infinity"
  | .inf true => "-Infinity"
  | .negZero => "0"
  | .fin q =>
    if q = 0 then "0"
    else if q < 0 then String.mk ('-' :: positiveToStr (-q))
    else String.mk (positiveToStr q)

/-! ## Reader: asynchronous rendering -/

/-- One run of the render effect of `SecureReader`: the page and zoom it ran for. -/
structure RenderRequest where
  pageNum : JSNum
  zoom : JSNum
  deriving DecidableEq

/-- The render effect over time.  A run of the effect is named by its index in `requests`.
`fetching` lists the runs whose `pdfDoc.getPage` promise has not resolved, `rendering` the
render tasks that are started and neither finished nor cancelled, `renderTaskRef` is
`renderTaskRef.current`, and `canvas` is the run whose page and watermark the canvas shows
(`none`: a cleared canvas). -/
structure RenderPipeline where
  requests : List RenderRequest := []
  fetching : List ℕ := []
  rendering : List ℕ := []
  renderTaskRef : Option ℕ := none
  canvas : Option ℕ := none
  deriving DecidableEq

/-- A step of the render effect. -/
inductive RenderStep where
  | effect (r : RenderRequest)
  | pageResolved (run : ℕ)
  | renderFinished (run : ℕ)
  deriving DecidableEq

/-- Cancelling the task held by `renderTaskRef.current`, if there is one. -/
def cancelCurrent (p : RenderPipeline) : List ℕ :=
  match p.renderTaskRef with
  | some task => p.rendering.erase task
  | none => p.rendering

/-- One step.  `effect r`: the effect runs for `r` (document set, page unlocked) and calls
`getPage`.  `pageResolved i`: the `then` callback of run `i` cancels the task in
`renderTaskRef.current`, sizes the canvas, which clears it, starts its own render task and
stores it in `renderTaskRef.current`.  `renderFinished i`: the render task of run `i`, not
cancelled, completes: the page is on the canvas and the watermark is drawn over it. -/
def RenderPipeline.step (p : RenderPipeline) : RenderStep → RenderPipeline
  | .effect r =>
    { p with requests := p.requests ++ [r], fetching := p.fetching ++ [p.requests.length] }
  | .pageResolved i =>
    if i ∈ p.fetching then
      { p with fetching := p.fetching.erase i,
               rendering := cancelCurrent p ++ [i],
               renderTaskRef := some i,
               canvas := none }
    else p
  | .renderFinished i =>
    if i ∈ p.rendering then { p with rendering := p.rendering.erase i, canvas := some i }
    else p

/-- The pipeline after a list of steps. -/
def RenderPipeline.run (p : RenderPipeline) (steps : List RenderStep) : RenderPipeline :=
  steps.foldl RenderPipeline.step p

/-- The page and zoom the canvas shows. -/
def RenderPipeline.shown (p : RenderPipeline) : Option RenderRequest :=
  p.canvas.bind fun i => p.requests.get? i

/-! ## Reporting -/

/-- An entry of the `reports` state of `App`. -/
structure Report where
  id : ℤ
  userId : String
  context : String
  issue : String
  status : String
  time : String
  deriving DecidableEq

/-- An entry of the `logs` state of `App`. -/
structure LogEntry where
  time : String
  action : String
  details : String
  deriving DecidableEq

/-- The value of the `view` state of `App`. -/
inductive View where
  | login
  | admin
  | student
  deriving DecidableEq

/-- The state of `App` that its handlers and those of the admin panel read and write. -/
structure AppState where
  reports : List Report := []
  logs : List LogEntry := []
  view : View := View.login
  currentUser : Option User := none
  users : List User := []
  books : List Book := []
  settings : Settings := {}
  deriving DecidableEq

/-- The function `addLog` of `App`; `time` is the text `toLocaleTimeString` gives. -/
def addLog (time : String) (app : AppState) (action details : String) : AppState :=
  { app with logs := { time := time, action := action, details := details } :: app.logs }

/-- The function `handleReportIssue` of `App`; `now` is `Date.now()` and `reportTime`,
`logTime` are the texts `toLocaleTimeString` gives for the report and for the log entry. -/
def handleReportIssue (now : ℤ) (reportTime logTime : String) (app : AppState)
    (userId context issue : String) : AppState :=
  let newReport : Report :=
    { id := now, userId := userId, context := context, issue := issue,
      status := "Pending", time := reportTime }
  addLog logTime { app with reports := newReport :: app.reports }
    "User Report" ("New report from " ++ userId)

/-- The arguments of a call of `onReportIssue`. -/
structure ReportCall where
  userId : String
  context : String
  issue : String
  deriving DecidableEq

/-- What the flag button of the reader did: the reader state afterwards and the call of
`onReportIssue` it made, if any. -/
structure Flagged where
  state : ReaderState
  call : Option ReportCall
  deriving DecidableEq

/-- The click handler of the flag button of the reader; `answer` is what `prompt` returned
(`none` for `null`). -/
def reportIssueClick (book : Book) (user : User) (s : ReaderState) (answer : Option String) :
    Flagged :=
  match answer with
  | some issue =>
    if issue = "" then { state := s, call := none }
    else
      { state := s,
        call := some
          { userId := user.id, context := book.title,
            issue := "Page " ++ s.pageNum.toStr ++ ": " ++ issue } }
  | none => { state := s, call := none }

/-- The flag button wired to `handleReportIssue`, as `App` passes it down. -/
def reportFromReader (now : ℤ) (reportTime logTime : String) (app : AppState) (book : Book)
    (user : User) (s : ReaderState) (answer : Option String) : AppState × ReaderState :=
  match (reportIssueClick book user s answer).call with
  | some c =>
    (handleReportIssue now reportTime logTime app c.userId c.context c.issue,
      (reportIssueClick book user s answer).state)
  | none => (app, (reportIssueClick book user s answer).state)

/-! ## Login -/

/-- What a handler left behind: the state, the text of the `alert` it raised, and whether it
stopped on a `TypeError` (a property read on `undefined`) before writing anything. -/
structure Handler where
  app : AppState
  alert : Option String := none
  threw : Bool := false
  deriving DecidableEq

/-- The function `handleLogin` of `App`; `logTime` is the text `toLocaleTimeString` gives. -/
def handleLogin (logTime : String) (app : AppState) (id pass : String) : Handler :=
  if id = "admin" ∧ pass = "admin" then { app := { app with view := View.admin } }
  else if app.settings.maintenanceMode then
    { app := app, alert := some "System is currently under maintenance. Please contact Admin." }
  else
    match app.users.find? fun u => decide (u.id = id ∧ u.password = pass) with
    | some user =>
      { app := addLog logTime { app with currentUser := some user, view := View.student }
          "User Login" (user.name ++ " (" ++ user.id ++ ") logged in") }
    | none => { app := app, alert := some "Invalid Credentials! (Try: NGO-2025-01 / 123)" }

/-! ## Physical library -/

/-- The function `issuePhysicalBook` of the admin panel; `confirmAnswer` is what `confirm`
returns if it is asked, `issueDate` is the date part of `toISOString`. -/
def issuePhysicalBook (issueDate logTime : String) (confirmAnswer : Bool) (app : AppState)
    (userId bookId : String) : Handler :=
  match app.books.find? fun b => decide (b.id = bookId) with
  | none => { app := app, threw := true }
  | some book =>
    if JSNum.lt book.stock.toNumber (.fin 1) then { app := app, alert := some "Out of Stock!" }
    else
      match app.users.find? fun u => decide (u.id = userId) with
      | none => { app := app, threw := true }
      | some user =>
        if JSNum.lt user.paidAmount.toNumber
            (JSNum.mul user.totalFee.toNumber (JSNum.lit (1 / 2))) ∧ confirmAnswer = false then
          { app := app }
        else
          { app := addLog logTime
              { app with
                books := app.books.map fun b =>
                  if b.id = bookId then
                    { b with stock := JSVal.num (JSNum.sub b.stock.toNumber (.fin 1)) }
                  else b
                users := app.users.map fun u =>
                  if u.id = userId then
                    { u with
                      physicalIssues := u.physicalIssues ++
                        [{ bookId := bookId, title := book.title, date := issueDate }] }
                  else u }
              "Physical Issue" ("Issued \"" ++ book.title ++ "\" to " ++ userId) }

/-- The function `returnPhysicalBook` of the admin panel; `confirmAnswer` is what `confirm`
returns. -/
def returnPhysicalBook (logTime : String) (confirmAnswer : Bool) (app : AppState)
    (userId bookId : String) : Handler :=
  if confirmAnswer = false then { app := app }
  else
    { app := addLog logTime
        { app with
          books := app.books.map fun b =>
            if b.id = bookId then
              { b with stock := JSVal.num (JSNum.add b.stock.toNumber (.fin 1)) }
            else b
          users := app.users.map fun u =>
            if u.id = userId then
              { u with
                physicalIssues := u.physicalIssues.filter fun i => decide (i.bookId ≠ bookId) }
            else u }
        "Physical Return" ("Returned book from " ++ userId) }

/-- A click of the admin at the physical library, with the clock readings and the answer
`confirm` would give. -/
inductive LibraryRequest where
  | issue (userId bookId issueDate logTime : String) (confirmAnswer : Bool)
  | giveBack (userId bookId logTime : String) (confirmAnswer : Bool)
  deriving DecidableEq

/-- The state after one click at the physical library. -/
def libraryStep (app : AppState) : LibraryRequest → AppState
  | .issue userId bookId issueDate logTime confirmAnswer =>
    (issuePhysicalBook issueDate logTime confirmAnswer app userId bookId).app
  | .giveBack userId bookId logTime confirmAnswer =>
    (returnPhysicalBook logTime confirmAnswer app userId bookId).app

/-- The issue records for `bookId` that `users` hold. -/
def outstanding (users : List User) (bookId : String) : ℕ :=
  (users.map fun u => (u.physicalIssues.filter fun i => decide (i.bookId = bookId)).length).sum

/-! ## Book deletion and the student portal -/

/-- The function `deleteBook` of the admin panel; `confirmAnswer` is what `window.confirm`
returns, `fileDeleted` tells whether the promise of `LibraryDB.deleteFile` resolved (when it
rejects, the function stops there). -/
def deleteBook (logTime : String) (confirmAnswer fileDeleted : Bool) (app : AppState)
    (bookId title : String) : AppState :=
  if confirmAnswer = true then
    if fileDeleted = true then
      addLog logTime
        { app with
          books := app.books.filter fun b => decide (b.id ≠ bookId)
          users := app.users.map fun u =>
            { u with access := u.access.filter fun aid => decide (aid ≠ bookId) } }
        "Delete Book" ("Deleted book \"" ++ title ++ "\"")
    else app
  else app

/-- The list `filteredBooks` of the student portal; `titleMatches title searchTerm` stands for
`title.toLowerCase().includes(searchTerm.toLowerCase())`. -/
def filteredBooks (titleMatches : String → String → Bool) (user : User) (allBooks : List Book)
    (searchTerm : String) : List Book :=
  allBooks.filter fun book => user.access.contains book.id && titleMatches book.title searchTerm

/-! ## Formulas of the specification -/

/-- The unlock formula as the specification words it, in exact arithmetic:
`floor(totalPageCount * amountPaid / amountDue)`. -/
def specMaxPage (totalPageCount amountPaid amountDue : ℚ) : ℤ :=
  ⌊totalPageCount * amountPaid / amountDue⌋

/-- The end of the validity window as the specification words it: the final instant,
23:59:59.999 local time, of the calendar day `d`. -/
def endOfLocalDay (tzOffsetMin : ℤ) (d : DateOnly) : ℤ :=
  dateOfString d - tzOffsetMin * msPerMinute + (msPerDay - 1)

/-- The anchors as the specification words them, in exact arithmetic: `x = -W + i * step` for
the naturals `i` with `x < 2 * W`, of which there are `ceil(3 * W / step)`, and the same for
`y` with the height, columns first. -/
def specAnchors (width height : ℕ) (step : ℚ) : List (ℚ × ℚ) :=
  (List.range ⌈3 * (width : ℚ) / step⌉₊).flatMap fun (i : ℕ) =>
    (List.range ⌈3 * (height : ℚ) / step⌉₊).map fun (j : ℕ) =>
      (-(width : ℚ) + (i : ℚ) * step, -(height : ℚ) + (j : ℚ) * step)

/-- The drawing calls as the specification words them: at every anchor the watermark text,
and the viewer id `50 * zoom` below it. -/
def specWatermark (watermarkText userId : String) (width height : ℕ) (zoom : ℚ) :
    List DrawOp :=
  (specAnchors width height (400 * zoom)).flatMap fun a =>
    [DrawOp.fillText watermarkText (JSNum.fin a.1) (JSNum.fin a.2),
     DrawOp.fillText userId (JSNum.fin a.1) (JSNum.fin (a.2 + 50 * zoom))]

/-! ## Invariants and closed forms used in the proofs -/

/-- Both bounds of the page invariant. -/
def pageInRange (book : Book) (p : JSNum) : Prop :=
  JSNum.le (.fin 1) p = true ∧ JSNum.le p book.totalPages.toNumber = true

/-- Both bounds of the zoom invariant. -/
def zoomInRange (z : JSNum) : Prop :=
  JSNum.le (.fin (1 / 2)) z = true ∧ JSNum.le z (.fin 3) = true

/-- The drawing calls of one column in closed form. -/
def columnOps (watermarkText userId : String) (z : ℚ) (x : JSNum) (y0 : ℚ) (s : ℚ) (n : ℕ) :
    List DrawOp :=
  (List.range n).flatMap fun j =>
    [DrawOp.fillText watermarkText x (JSNum.fin (y0 + j * s)),
     DrawOp.fillText userId x (JSNum.fin (y0 + j * s + 50 * z))]

/-- The drawing calls of the whole grid in closed form. -/
def gridOps (watermarkText userId : String) (z : ℚ) (x0 y0 s : ℚ) (rows m : ℕ) : List DrawOp :=
  (List.range m).flatMap fun i =>
    columnOps watermarkText userId z (JSNum.fin (x0 + i * s)) y0 s rows

/-- At most the task in `renderTaskRef.current` is running: either no task runs and the
canvas shows the run of that task (nothing before the first one), or exactly that task runs
on a cleared canvas. -/
def singleTask (p : RenderPipeline) : Prop :=
  (p.rendering = [] ∧ p.canvas = p.renderTaskRef) ∨
    ∃ i, p.renderTaskRef = some i ∧ p.rendering = [i] ∧ p.canvas = none

/-- The zoom values that the two zoom buttons reach from 1.0, in increasing order, each with
the multiple of 0.1 next to it, counted in tenths. -/
def zoomTable : List (ℕ × ℚ) :=
  [(5, 1 / 2),
   (6, 337769972052787 / 562949953421312),
   (6, 1351079888211149 / 2251799813685248),
   (7, 3152519739159347 / 4503599627370496),
   (8, 3602879701896395 / 4503599627370496),
   (8, 3602879701896397 / 4503599627370496),
   (9, 2026619832316723 / 2251799813685248),
   (10, 2251799813685247 / 2251799813685248),
   (10, 1),
   (11, 4953959590107545 / 4503599627370496),
   (12, 5404319552844593 / 4503599627370496),
   (12, 5404319552844595 / 4503599627370496),
   (13, 1463669878895411 / 1125899906842624),
   (14, 1576259869579673 / 1125899906842624),
   (14, 3152519739159347 / 2251799813685248),
   (15, 6755399441055743 / 4503599627370496),
   (16, 7205759403792791 / 4503599627370496),
   (16, 7205759403792793 / 4503599627370496),
   (17, 3828059683264921 / 2251799813685248),
   (18, 4053239664633445 / 2251799813685248),
   (18, 2026619832316723 / 1125899906842624),
   (19, 8556839292003941 / 4503599627370496),
   (20, 9007199254740989 / 4503599627370496),
   (20, 9007199254740991 / 4503599627370496),
   (21, 1182194902184755 / 562949953421312),
   (22, 619244948763443 / 281474976710656),
   (22, 4953959590107545 / 2251799813685248),
   (23, 2589569785738035 / 1125899906842624),
   (24, 2702159776422297 / 1125899906842624),
   (24, 5404319552844595 / 2251799813685248),
   (25, 5 / 2),
   (26, 1463669878895411 / 562949953421312),
   (26, 5854679515581645 / 2251799813685248),
   (27, 3039929748475085 / 1125899906842624),
   (28, 3152519739159347 / 1125899906842624),
   (28, 6305039478318695 / 2251799813685248),
   (29, 1632554864921805 / 562949953421312),
   (30, 3)]

/-! ## Rounding lemmas -/

theorem roundHalfEven_intCast (n : ℤ) : roundHalfEven (n : ℚ) = n := by
  simp [roundHalfEven]

theorem roundHalfEven_floor_le (x : ℚ) : ⌊x⌋ ≤ roundHalfEven x := by
  unfold roundHalfEven
  simp only
  split_ifs <;> omega

theorem roundHalfEven_le_floor_succ (x : ℚ) : roundHalfEven x ≤ ⌊x⌋ + 1 := by
  unfold roundHalfEven
  simp only
  split_ifs <;> omega

theorem roundHalfEven_mono {x y : ℚ} (h : x ≤ y) : roundHalfEven x ≤ roundHalfEven y := by
  have hfl : ⌊x⌋ ≤ ⌊y⌋ := Int.floor_mono h
  rcases lt_or_eq_of_le hfl with hlt | heq
  · calc roundHalfEven x ≤ ⌊x⌋ + 1 := roundHalfEven_le_floor_succ x
      _ ≤ ⌊y⌋ := hlt
      _ ≤ roundHalfEven y := roundHalfEven_floor_le y
  · have hxy : x - ⌊x⌋ ≤ y - ⌊y⌋ := by rw [heq]; linarith
    unfold roundHalfEven
    simp only
    rw [heq] at hxy ⊢
    split_ifs <;> first | omega | linarith

theorem log2Fuel_spec (fuel n : ℕ) (hn : 1 ≤ n) (hf : n ≤ fuel) :
    2 ^ log2Fuel fuel n ≤ n ∧ n < 2 ^ (log2Fuel fuel n + 1) := by
  induction fuel generalizing n with
  | zero => omega
  | succ fuel ih =>
    unfold log2Fuel
    split_ifs with h2
    · constructor <;> simp <;> omega
    · have h := ih (n / 2) (by omega) (by omega)
      constructor
      · rw [pow_succ]; omega
      · rw [pow_succ]; omega

theorem abs_eq_natAbs_div_den (q : ℚ) : |q| = (q.num.natAbs : ℚ) / (q.den : ℚ) := by
  conv_lhs => rw [← Rat.num_div_den q]
  rw [abs_div, Nat.cast_natAbs, Int.cast_abs, abs_of_pos (a := (q.den : ℚ))]
  exact_mod_cast q.den_pos

theorem floorLog2_spec (q : ℚ) (hq : q ≠ 0) :
    (2 : ℚ) ^ floorLog2 q ≤ |q| ∧ |q| < (2 : ℚ) ^ (floorLog2 q + 1) := by
  have hnum : 1 ≤ q.num.natAbs := by
    have : q.num ≠ 0 := Rat.num_ne_zero.mpr hq
    omega
  have hden : 1 ≤ q.den := q.den_pos
  obtain ⟨ha1, ha2⟩ := log2Fuel_spec _ _ hnum le_rfl
  obtain ⟨hb1, hb2⟩ := log2Fuel_spec _ _ hden le_rfl
  have habs := abs_eq_natAbs_div_den q
  unfold floorLog2
  simp only
  generalize log2Fuel q.num.natAbs q.num.natAbs = a at ha1 ha2 ⊢
  generalize log2Fuel q.den q.den = b at hb1 hb2 ⊢
  generalize (q.num.natAbs : ℕ) = n at ha1 ha2 habs
  generalize q.den = d at hb1 hb2 habs hden
  have hA1 : (2 : ℚ) ^ a ≤ (n : ℚ) := by exact_mod_cast ha1
  have hA2 : (n : ℚ) < (2 : ℚ) ^ (a + 1) := by exact_mod_cast ha2
  have hD1 : (2 : ℚ) ^ b ≤ (d : ℚ) := by exact_mod_cast hb1
  have hD2 : (d : ℚ) < (2 : ℚ) ^ (b + 1) := by exact_mod_cast hb2
  have hDpos : (0 : ℚ) < d := by exact_mod_cast hden
  have h2a : (0 : ℚ) < 2 ^ a := by positivity
  have h2b : (0 : ℚ) < 2 ^ b := by positivity
  have two_ne : (2 : ℚ) ≠ 0 := by norm_num
  split_ifs with h
  · refine ⟨h, ?_⟩
    have : (2 : ℚ) ^ ((a : ℤ) - (b : ℤ) + 1) = 2 ^ (a + 1) / 2 ^ b := by
      rw [show ((a : ℤ) - (b : ℤ) + 1) = ((a + 1 : ℕ) : ℤ) - ((b : ℕ) : ℤ) by push_cast; ring,
        zpow_sub₀ two_ne, zpow_natCast, zpow_natCast]
    rw [this, habs, div_lt_div_iff₀ hDpos h2b]
    calc (n : ℚ) * 2 ^ b < 2 ^ (a + 1) * 2 ^ b := by
          apply mul_lt_mul_of_pos_right hA2 h2b
      _ ≤ 2 ^ (a + 1) * d := by
          apply mul_le_mul_of_nonneg_left hD1 (by positivity)
  · constructor
    · have : (2 : ℚ) ^ ((a : ℤ) - (b : ℤ) - 1) = 2 ^ a / 2 ^ (b + 1) := by
        rw [show ((a : ℤ) - (b : ℤ) - 1) = ((a : ℕ) : ℤ) - ((b + 1 : ℕ) : ℤ) by push_cast; ring,
          zpow_sub₀ two_ne, zpow_natCast, zpow_natCast]
      rw [this, habs, div_le_div_iff₀ (by positivity) hDpos]
      calc (2 : ℚ) ^ a * d ≤ 2 ^ a * 2 ^ (b + 1) := by
            apply mul_le_mul_of_nonneg_left hD2.le (by positivity)
        _ ≤ n * 2 ^ (b + 1) := by
            apply mul_le_mul_of_nonneg_right hA1 (by positivity)
    · rw [sub_add_cancel]
      exact not_le.mp h

theorem floorLog2_unique (q : ℚ) (e : ℤ) (h1 : (2 : ℚ) ^ e ≤ |q|) (h2 : |q| < (2 : ℚ) ^ (e + 1)) :
    floorLog2 q = e := by
  have hq : q ≠ 0 := by
    rintro rfl
    have : (0 : ℚ) < 2 ^ e := by positivity
    simp at h1
    linarith
  obtain ⟨s1, s2⟩ := floorLog2_spec q hq
  have one_lt : (1 : ℚ) < 2 := by norm_num
  have a1 : floorLog2 q < e + 1 := (zpow_lt_zpow_iff_right₀ one_lt).mp (lt_of_le_of_lt s1 h2)
  have a2 : e < floorLog2 q + 1 := (zpow_lt_zpow_iff_right₀ one_lt).mp (lt_of_le_of_lt h1 s2)
  omega

theorem two_zpow_pos (e : ℤ) : (0 : ℚ) < (2 : ℚ) ^ e := by positivity

theorem round64_le_grid (q : ℚ) (m : ℤ) (h : q ≤ (m : ℚ) * (2 : ℚ) ^ quantumExp q) :
    round64 q ≤ (m : ℚ) * (2 : ℚ) ^ quantumExp q := by
  unfold round64
  have hpos := two_zpow_pos (quantumExp q)
  have h1 : q / (2 : ℚ) ^ quantumExp q ≤ (m : ℚ) := by
    rw [div_le_iff₀ hpos]; exact h
  have h2 := roundHalfEven_mono h1
  rw [roundHalfEven_intCast] at h2
  have h3 : (roundHalfEven (q / (2 : ℚ) ^ quantumExp q) : ℚ) ≤ (m : ℚ) := by exact_mod_cast h2
  exact mul_le_mul_of_nonneg_right h3 hpos.le

theorem round64_ge_grid (q : ℚ) (m : ℤ) (h : (m : ℚ) * (2 : ℚ) ^ quantumExp q ≤ q) :
    (m : ℚ) * (2 : ℚ) ^ quantumExp q ≤ round64 q := by
  unfold round64
  have hpos := two_zpow_pos (quantumExp q)
  have h1 : (m : ℚ) ≤ q / (2 : ℚ) ^ quantumExp q := by
    rw [le_div_iff₀ hpos]; exact h
  have h2 := roundHalfEven_mono h1
  rw [roundHalfEven_intCast] at h2
  have h3 : (m : ℚ) ≤ (roundHalfEven (q / (2 : ℚ) ^ quantumExp q) : ℚ) := by exact_mod_cast h2
  exact mul_le_mul_of_nonneg_right h3 hpos.le

theorem round64_nonneg {q : ℚ} (h : 0 ≤ q) : 0 ≤ round64 q := by
  have := round64_ge_grid q 0 (by simpa using h)
  simpa using this

theorem round64_nonpos {q : ℚ} (h : q ≤ 0) : round64 q ≤ 0 := by
  have := round64_le_grid q 0 (by simpa using h)
  simpa using this

theorem two_zpow_53 (e : ℤ) : ((2 ^ 53 : ℤ) : ℚ) * (2 : ℚ) ^ e = (2 : ℚ) ^ (e + 53) := by
  rw [zpow_add₀ (by norm_num : (2 : ℚ) ≠ 0)]
  norm_num
  ring

theorem two_zpow_52 (e : ℤ) : ((2 ^ 52 : ℤ) : ℚ) * (2 : ℚ) ^ e = (2 : ℚ) ^ (e + 52) := by
  rw [zpow_add₀ (by norm_num : (2 : ℚ) ≠ 0)]
  norm_num
  ring

theorem abs_lt_top (q : ℚ) (hq : q ≠ 0) : |q| < (2 : ℚ) ^ (quantumExp q + 53) := by
  obtain ⟨_, s2⟩ := floorLog2_spec q hq
  refine lt_of_lt_of_le s2 ?_
  apply zpow_le_zpow_right₀ (by norm_num)
  unfold quantumExp
  omega

theorem abs_ge_bottom (q : ℚ) (hq : q ≠ 0) (hn : -1022 < floorLog2 q) :
    (2 : ℚ) ^ (quantumExp q + 52) ≤ |q| := by
  obtain ⟨s1, _⟩ := floorLog2_spec q hq
  have : quantumExp q + 52 = floorLog2 q := by unfold quantumExp; omega
  rw [this]; exact s1

theorem round64_abs_le_top (q : ℚ) :
    |round64 q| ≤ (2 : ℚ) ^ (quantumExp q + 53) := by
  by_cases hq : q = 0
  · subst hq
    have h0 : round64 0 = 0 := le_antisymm (round64_nonpos le_rfl) (round64_nonneg le_rfl)
    rw [h0]; simp; positivity
  have h := abs_lt_top q hq
  rw [abs_lt] at h
  rw [abs_le]
  constructor
  · have := round64_ge_grid q (-(2 ^ 53)) (by
      push_cast
      have := two_zpow_53 (quantumExp q)
      push_cast at this
      rw [neg_mul, this]; exact h.1.le)
    push_cast at this
    have e := two_zpow_53 (quantumExp q)
    push_cast at e
    rw [neg_mul, e] at this
    exact this
  · have := round64_le_grid q (2 ^ 53) (by
      have := two_zpow_53 (quantumExp q)
      rw [this]; exact h.2.le)
    rw [two_zpow_53] at this
    exact this

theorem round64_ge_bottom (q : ℚ) (hq : 0 < q) (hn : -1022 < floorLog2 q) :
    (2 : ℚ) ^ (quantumExp q + 52) ≤ round64 q := by
  have h := abs_ge_bottom q hq.ne' hn
  rw [abs_of_pos hq] at h
  have := round64_ge_grid q (2 ^ 52) (by rw [two_zpow_52]; exact h)
  rw [two_zpow_52] at this
  exact this

theorem round64_le_neg_bottom (q : ℚ) (hq : q < 0) (hn : -1022 < floorLog2 q) :
    round64 q ≤ -(2 : ℚ) ^ (quantumExp q + 52) := by
  have h := abs_ge_bottom q hq.ne hn
  rw [abs_of_neg hq] at h
  have e := two_zpow_52 (quantumExp q)
  have := round64_le_grid q (-(2 ^ 52)) (by
    push_cast at e ⊢
    rw [neg_mul, e]; linarith)
  push_cast at this e
  rw [neg_mul, e] at this
  exact this

theorem floorLog2_mono_abs {x y : ℚ} (hx : x ≠ 0) (hy : y ≠ 0) (h : |x| ≤ |y|) :
    floorLog2 x ≤ floorLog2 y := by
  obtain ⟨x1, _⟩ := floorLog2_spec x hx
  obtain ⟨_, y2⟩ := floorLog2_spec y hy
  have : (2 : ℚ) ^ floorLog2 x < (2 : ℚ) ^ (floorLog2 y + 1) :=
    lt_of_le_of_lt x1 (lt_of_le_of_lt h y2)
  have := (zpow_lt_zpow_iff_right₀ (by norm_num : (1 : ℚ) < 2)).mp this
  omega

/-- Rounding to binary64 is monotone. -/
theorem round64_mono {x y : ℚ} (h : x ≤ y) : round64 x ≤ round64 y := by
  by_cases he : quantumExp x = quantumExp y
  · unfold round64
    rw [he]
    have hpos := two_zpow_pos (quantumExp y)
    have h1 : x / (2 : ℚ) ^ quantumExp y ≤ y / (2 : ℚ) ^ quantumExp y :=
      div_le_div_of_nonneg_right h hpos.le
    have h2 := roundHalfEven_mono h1
    have h3 : (roundHalfEven (x / (2 : ℚ) ^ quantumExp y) : ℚ) ≤
        (roundHalfEven (y / (2 : ℚ) ^ quantumExp y) : ℚ) := by exact_mod_cast h2
    exact mul_le_mul_of_nonneg_right h3 hpos.le
  · rcases lt_trichotomy 0 x with hx | hx | hx
    · -- both positive
      have hy : 0 < y := lt_of_lt_of_le hx h
      have hfl := floorLog2_mono_abs hx.ne' hy.ne' (by rw [abs_of_pos hx, abs_of_pos hy]; exact h)
      have hlt : quantumExp x < quantumExp y := by
        unfold quantumExp at he ⊢; omega
      have hn : -1022 < floorLog2 y := by unfold quantumExp at hlt; omega
      calc round64 x ≤ |round64 x| := le_abs_self _
        _ ≤ (2 : ℚ) ^ (quantumExp x + 53) := round64_abs_le_top x
        _ ≤ (2 : ℚ) ^ (quantumExp y + 52) := by
            apply zpow_le_zpow_right₀ (by norm_num); omega
        _ ≤ round64 y := round64_ge_bottom y hy hn
    · subst hx
      exact le_trans (round64_nonpos le_rfl) (round64_nonneg h)
    · rcases le_or_lt 0 y with hy | hy
      · exact le_trans (round64_nonpos hx.le) (round64_nonneg hy)
      · have hfl := floorLog2_mono_abs hy.ne hx.ne
          (by rw [abs_of_neg hx, abs_of_neg hy]; linarith)
        have hlt : quantumExp y < quantumExp x := by
          unfold quantumExp at he ⊢; omega
        have hn : -1022 < floorLog2 x := by unfold quantumExp at hlt; omega
        have hb := round64_abs_le_top y
        rw [abs_le] at hb
        calc round64 x ≤ -(2 : ℚ) ^ (quantumExp x + 52) := round64_le_neg_bottom x hx hn
          _ ≤ -(2 : ℚ) ^ (quantumExp y + 53) := by
              apply neg_le_neg
              apply zpow_le_zpow_right₀ (by norm_num); omega
          _ ≤ round64 y := hb.1

/-! ## Order lemmas on JavaScript numbers -/

namespace JSNum

theorem round64_of_isDouble {c : ℚ} (hc : isDouble c) : round64 c = c := hc.1

theorem ofRat_ne_nan (z : Bool) (q : ℚ) : ofRat z q ≠ nan := by
  unfold ofRat
  simp only
  split_ifs <;> simp

theorem le_ofRat {c q : ℚ} (z : Bool) (hc : isDouble c) (h : c ≤ q) :
    le (fin c) (ofRat z q) = true := by
  have hr : c ≤ round64 q := by
    have := round64_mono h
    rwa [hc.1] at this
  have hcb := abs_le.mp hc.2
  unfold ofRat
  simp only
  split_ifs with h1 h2 h3
  · have hq : ¬ q < 0 := by
      intro hq
      have := round64_nonpos hq.le
      rw [abs_of_nonpos this] at h1
      linarith
    simp [le, hq]
  · simp [le, toRat]; linarith
  · simp [le, toRat]; linarith
  · simp [le, toRat]; exact hr

theorem ofRat_le {c q : ℚ} (z : Bool) (hc : isDouble c) (h : q ≤ c) :
    le (ofRat z q) (fin c) = true := by
  have hr : round64 q ≤ c := by
    have := round64_mono h
    rwa [hc.1] at this
  have hcb := abs_le.mp hc.2
  unfold ofRat
  simp only
  split_ifs with h1 h2 h3
  · have hq : q < 0 := by
      by_contra hq
      have := round64_nonneg (not_lt.mp hq)
      rw [abs_of_nonneg this] at h1
      linarith
    simp [le, hq]
  · simp [le, toRat]; linarith
  · simp [le, toRat]; linarith
  · simp [le, toRat]; exact hr

theorem le_trans {a b c : JSNum} (h1 : le a b = true) (h2 : le b c = true) : le a c = true := by
  rcases a with _ | (_ | _) | _ | _ <;> rcases b with _ | (_ | _) | _ | _ <;>
    rcases c with _ | (_ | _) | _ | _ <;> simp_all [le, toRat] <;> linarith

theorem lt_eq_false_of_le {a b : JSNum} (h : le a b = true) : lt b a = false := by
  rcases a with _ | (_ | _) | _ | _ <;> rcases b with _ | (_ | _) | _ | _ <;>
    simp_all [le, lt, toRat]

theorem le_min {a b c : JSNum} (h1 : le a b = true) (h2 : le a c = true) :
    le a (min b c) = true := by
  unfold min
  rcases b with _ | (_ | _) | _ | _ <;> rcases c with _ | (_ | _) | _ | _ <;>
    simp_all [le] <;> split_ifs <;> simp_all [le]

theorem min_le_left {b c : JSNum} (hb : le b b = true) (hc : le c c = true) :
    le (min b c) b = true := by
  unfold min
  rcases b with _ | (_ | _) | _ | _ <;> rcases c with _ | (_ | _) | _ | _ <;>
    simp_all [le, lt, toRat] <;> split_ifs <;> simp_all [le, toRat]

theorem le_max_left {b c : JSNum} (hb : le b b = true) (hc : le c c = true) :
    le b (max b c) = true := by
  unfold max
  rcases b with _ | (_ | _) | _ | _ <;> rcases c with _ | (_ | _) | _ | _ <;>
    simp_all [le, lt, toRat] <;> split_ifs <;> simp_all [le, toRat] <;>
    linarith

theorem max_le {a b c : JSNum} (h1 : le b a = true) (h2 : le c a = true) :
    le (max b c) a = true := by
  unfold max
  rcases b with _ | (_ | _) | _ | _ <;> rcases c with _ | (_ | _) | _ | _ <;>
    simp_all [le] <;> split_ifs <;> simp_all [le]

theorem le_refl_of_le_left {a b : JSNum} (h : le a b = true) : le a a = true := by
  rcases a with _ | (_ | _) | _ | _ <;> rcases b with _ | (_ | _) | _ | _ <;> simp_all [le]

theorem le_refl_of_le_right {a b : JSNum} (h : le a b = true) : le b b = true := by
  rcases a with _ | (_ | _) | _ | _ <;> rcases b with _ | (_ | _) | _ | _ <;> simp_all [le]

theorem mul_fin_inf (x : ℚ) (s : Bool) :
    mul (fin x) (inf s) = if decide (x = 0) then nan else inf (xor (decide (x < 0)) s) := rfl

theorem mul_fin_fin (x y : ℚ) :
    mul (fin x) (fin y) = ofRat (xor (decide (x < 0)) (decide (y < 0))) (x * y) := rfl

theorem div_fin_fin (x y : ℚ) :
    div (fin x) (fin y) =
      if decide (y = 0) then
        (if decide (x = 0) then nan else inf (xor (decide (x < 0)) (decide (y < 0))))
      else ofRat (xor (decide (x < 0)) (decide (y < 0))) (x / y) := rfl

theorem div_inf_fin (s : Bool) (y : ℚ) : div (inf s) (fin y) = inf (xor s (decide (y < 0))) := rfl

theorem add_fin_fin (x y : ℚ) :
    add (fin x) (fin y) = ofRat (decide (x < 0) && decide (y < 0)) (x + y) := rfl

theorem add_inf_fin (s : Bool) (y : ℚ) : add (inf s) (fin y) = inf s := rfl

theorem mul_nan_right (a : JSNum) : mul a nan = nan := by
  cases a <;> rfl

theorem lt_nan_left (p : JSNum) : lt nan p = false := by
  cases p <;> rfl

theorem lt_inf_false_left (p : JSNum) : lt (inf false) p = false := by
  cases p <;> rfl

theorem mul_inf_false_of_not_neg {a : JSNum} (h : lt a (fin 0) = false) :
    mul a (inf false) = nan ∨ mul a (inf false) = inf false := by
  rcases a with _ | (_ | _) | _ | t
  · exact Or.inl rfl
  · exact Or.inr rfl
  · cases h
  · exact Or.inl rfl
  · have ht : ¬ t < 0 := by simpa [lt, toRat] using h
    rw [mul_fin_inf]
    by_cases h0 : t = 0
    · left; simp [h0]
    · right; simp [h0, ht]

theorem div_pos_zero_of_not_neg {a : JSNum} (h : lt a (fin 0) = false) :
    div a (fin 0) = nan ∨ div a (fin 0) = inf false := by
  rcases a with _ | (_ | _) | _ | t
  · exact Or.inl rfl
  · exact Or.inr (by rw [div_inf_fin]; simp)
  · cases h
  · exact Or.inl rfl
  · have ht : ¬ t < 0 := by simpa [lt, toRat] using h
    rw [div_fin_fin]
    by_cases h0 : t = 0
    · left; simp [h0]
    · right; simp [h0, ht]

end JSNum

/-! ## Access policy -/

/-- C1 (fails on the code): the product `totalPages * (paidAmount / totalFee)` is rounded twice
before `Math.floor`.  For the 50-page book and a student who paid 5800 of 10000 the reader
computes `maxPage = 28`, while `floor(50 * 5800 / 10000)` is 29, so page 29 is locked.  The
example of the specification (20 pages, 5000 of 10000) does give 10. -/
theorem maxPage_below_exact_quotient :
    maxPage { totalPages := .num (.fin 50) }
        { totalFee := .num (.fin 10000), paidAmount := .num (.fin 5800) } = .fin 28 ∧
      specMaxPage 50 5800 10000 = 29 ∧
      isLocked { totalPages := .num (.fin 50) }
        { totalFee := .num (.fin 10000), paidAmount := .num (.fin 5800) } (.fin 29) = true ∧
      maxPage { totalPages := .num (.fin 20) }
        { totalFee := .num (.fin 10000), paidAmount := .num (.fin 5000) } = .fin 10 := by
  decide!

/-- C2 (counterexample): one second after the validity window has closed, the reader of a fully
paid student still shows page 1 unlocked. -/
theorem isLocked_false_outside_validity_window :
    isAccessValid { now := 1767225601000, tzOffsetMin := 0 }
        { totalFee := .num (.fin 10000), paidAmount := .num (.fin 10000),
          validFrom := some ⟨2025, 1, 1⟩, validUntil := some ⟨2025, 12, 31⟩ } = false ∧
      isLocked { totalPages := .num (.fin 20) }
        { totalFee := .num (.fin 10000), paidAmount := .num (.fin 10000),
          validFrom := some ⟨2025, 1, 1⟩, validUntil := some ⟨2025, 12, 31⟩ } (.fin 1) = false := by
  decide!

/-- C2 (amended): when `isAccessValid` was false at the render of the book list, a click on a
book card of that list leaves `activeBook` as it was, so the list opens no reader; the handler
uses the value of that render and no clock of its own, so a list rendered one second before the
window closes still opens the reader two seconds later; and the reader's own lock test does not
read the validity window. -/
theorem bookCardClick_blocked_outside_validity_window (clock : Clock) (user : User) (book : Book)
    (activeBook : Option Book) (h : isAccessValid clock user = false) :
    bookCardClick (renderBookList clock user) book activeBook = activeBook ∧
      (∀ (validFrom validUntil : Option DateOnly) (pageNum : JSNum),
        isLocked book { user with validFrom := validFrom, validUntil := validUntil } pageNum =
          isLocked book user pageNum) ∧
      (isAccessValid { now := 1767225599000, tzOffsetMin := 0 }
          { validFrom := some ⟨2025, 1, 1⟩, validUntil := some ⟨2025, 12, 31⟩ } = true ∧
        isAccessValid { now := 1767225601000, tzOffsetMin := 0 }
          { validFrom := some ⟨2025, 1, 1⟩, validUntil := some ⟨2025, 12, 31⟩ } = false ∧
        bookCardClick
          (renderBookList { now := 1767225599000, tzOffsetMin := 0 }
            { validFrom := some ⟨2025, 1, 1⟩, validUntil := some ⟨2025, 12, 31⟩ })
          { id := "b1" } none = some { id := "b1" }) := by
  refine ⟨?_, ?_, by decide⟩
  · simp [bookCardClick, renderBookList, h]
  · intro validFrom validUntil pageNum
    rfl

/-- Instance: the list of a user whose window 2025-01-01 to 2025-12-31 has closed is rendered
and book `b1` is clicked. -/
theorem bookCardClick_blocked_outside_validity_window_witness :
    isAccessValid { now := 1767225601000, tzOffsetMin := 0 }
        { validFrom := some ⟨2025, 1, 1⟩, validUntil := some ⟨2025, 12, 31⟩ } = false ∧
      bookCardClick
        (renderBookList { now := 1767225601000, tzOffsetMin := 0 }
          { validFrom := some ⟨2025, 1, 1⟩, validUntil := some ⟨2025, 12, 31⟩ })
        { id := "b1" } none = none :=
  ⟨by decide,
    (bookCardClick_blocked_outside_validity_window { now := 1767225601000, tzOffsetMin := 0 }
      { validFrom := some ⟨2025, 1, 1⟩, validUntil := some ⟨2025, 12, 31⟩ } { id := "b1" } none
      (by decide)).1⟩

/-- At or east of Greenwich (offset from 0 up to a day) `isAccessValid` is the window from
midnight UTC of `validFrom` through the last instant of the local `validUntil` day. -/
theorem isAccessValid_iff_east_of_utc (clock : Clock) (user : User) (validFrom validUntil : DateOnly)
    (hf : user.validFrom = some validFrom) (hu : user.validUntil = some validUntil)
    (h0 : 0 ≤ clock.tzOffsetMin) (h1 : clock.tzOffsetMin < 1440) :
    isAccessValid clock user = true ↔
      dateOfString validFrom ≤ clock.now ∧
        clock.now ≤ endOfLocalDay clock.tzOffsetMin validUntil := by
  unfold isAccessValid endOfLocalDay setHours dateOfString
  rw [hf, hu]
  simp only [msPerDay, msPerMinute, Bool.and_eq_true, decide_eq_true_eq, ge_iff_le]
  generalize daysFromCivil validUntil.year validUntil.month validUntil.day = d
  have hday : (d * 86400000 + clock.tzOffsetMin * 60000) / 86400000 = d := by omega
  rw [hday]
  constructor <;> rintro ⟨a, b⟩ <;> exact ⟨a, by omega⟩

/-- C3 (fails on the code): five hours west of Greenwich, at 23:00 local time on the last day
`2025-12-31`, the current time lies between `validFrom` and the last instant of the
`validUntil` day, and `isAccessValid` is false: the date-only string is read as midnight UTC,
which is still 30 December local time, and `setHours` then ends that day. -/
theorem isAccessValid_false_on_last_day_west_of_utc :
    dateOfString ⟨2025, 1, 1⟩ ≤ 1767240000000 ∧
      1767240000000 ≤ endOfLocalDay (-300) ⟨2025, 12, 31⟩ ∧
      1767240000000 = dateOfString ⟨2025, 12, 31⟩ + 23 * 3600000 - (-300) * msPerMinute ∧
      isAccessValid { now := 1767240000000, tzOffsetMin := -300 }
        { validFrom := some ⟨2025, 1, 1⟩, validUntil := some ⟨2025, 12, 31⟩ } = false := by
  decide

/-- C4: a user without `validFrom` or without `validUntil` has access at every time. -/
theorem isAccessValid_of_missing_bound (clock : Clock) (user : User)
    (h : user.validFrom = none ∨ user.validUntil = none) : isAccessValid clock user = true := by
  unfold isAccessValid
  rcases h with h | h
  · rw [h]
  · rw [h]
    cases user.validFrom <;> rfl

/-- Instance: a user with `validFrom` set and `validUntil` missing. -/
theorem isAccessValid_of_missing_bound_witness :
    isAccessValid { now := 1767240000000, tzOffsetMin := 330 }
      { validFrom := some ⟨2025, 1, 1⟩, validUntil := none } = true :=
  isAccessValid_of_missing_bound _ _ (Or.inr rfl)

/-- C5 (counterexample): with a zero fee and a negative paid amount the ratio is `-Infinity`
and page 1 of a 20-page book is locked. -/
theorem isLocked_zero_fee_negative_paid :
    accessRatio { totalFee := .num (.fin 0), paidAmount := .num (.fin (-100)) } = .inf true ∧
      isLocked { totalPages := .num (.fin 20) }
        { totalFee := .num (.fin 0), paidAmount := .num (.fin (-100)) } (.fin 1) = true := by
  decide!

/-- C5 (amended): when the fee is unset (NaN after ToNumber), or is `+0` while neither the paid
amount nor the page count is negative, the division is still performed, gives NaN or
`+Infinity`, and no page number is locked. -/
theorem not_isLocked_of_zero_or_unset_fee (book : Book) (user : User)
    (h : user.totalFee.toNumber = .nan ∨
      (user.totalFee.toNumber = .fin 0 ∧
        JSNum.lt user.paidAmount.toNumber (.fin 0) = false ∧
        JSNum.lt book.totalPages.toNumber (.fin 0) = false)) :
    (accessRatio user = .nan ∨ accessRatio user = .inf false) ∧
      ∀ pageNum : JSNum, isLocked book user pageNum = false := by
  have key : ∀ r : JSNum, (r = .nan ∨ r = .inf false) →
      JSNum.lt book.totalPages.toNumber (.fin 0) = false ∨ r = .nan →
      ∀ p : JSNum, JSNum.gt p (JSNum.floor (JSNum.mul book.totalPages.toNumber r)) = false := by
    intro r hr hT p
    have hm : JSNum.mul book.totalPages.toNumber r = .nan ∨
        JSNum.mul book.totalPages.toNumber r = .inf false := by
      rcases hr with rfl | rfl
      · exact Or.inl (JSNum.mul_nan_right _)
      · rcases hT with hT | hT
        · exact JSNum.mul_inf_false_of_not_neg hT
        · cases hT
    rcases hm with hm | hm <;> rw [hm]
    · exact JSNum.lt_nan_left p
    · exact JSNum.lt_inf_false_left p
  unfold isLocked maxPage
  rcases h with h | ⟨hf, hp, hT⟩
  · have hr : accessRatio user = .nan := by
      unfold accessRatio
      rw [h]
      cases user.paidAmount.toNumber <;> rfl
    exact ⟨Or.inl hr, key _ (Or.inl hr) (Or.inr hr)⟩
  · have hr : accessRatio user = .nan ∨ accessRatio user = .inf false := by
      unfold accessRatio
      rw [hf]
      exact JSNum.div_pos_zero_of_not_neg hp
    exact ⟨hr, key _ hr (Or.inl hT)⟩

/-- Instance: fee `+0`, 5000 paid, a 20-page book. -/
theorem not_isLocked_of_zero_or_unset_fee_witness :
    (accessRatio { totalFee := .num (.fin 0), paidAmount := .num (.fin 5000) } = .nan ∨
        accessRatio { totalFee := .num (.fin 0), paidAmount := .num (.fin 5000) } = .inf false) ∧
      ∀ pageNum : JSNum,
        isLocked { totalPages := .num (.fin 20) }
          { totalFee := .num (.fin 0), paidAmount := .num (.fin 5000) } pageNum = false :=
  not_isLocked_of_zero_or_unset_fee _ _ (Or.inr ⟨rfl, by decide!, by decide!⟩)

/-- C7: when the current page is locked the render effect issues no call (no page fetch, no
raster, no watermark) and the page area is the "Content Locked" placeholder, with or without
an uploaded file. -/
theorem locked_page_skips_render (book : Book) (user : User) (settings : Settings)
    (s : ReaderState) (h : isLocked book user s.pageNum = true) :
    renderEffect book user settings s = [] ∧ pageView book user s = PageView.contentLocked := by
  simp [renderEffect, pageView, h]

/-- Instance: page 11 of a 20-page uploaded book with half of the fee paid. -/
theorem locked_page_skips_render_witness :
    renderEffect { totalPages := .num (.fin 20), hasFile := true }
        { totalFee := .num (.fin 10000), paidAmount := .num (.fin 5000) } {}
        { pageNum := .fin 11, pdfDoc := true } = [] ∧
      pageView { totalPages := .num (.fin 20), hasFile := true }
        { totalFee := .num (.fin 10000), paidAmount := .num (.fin 5000) }
        { pageNum := .fin 11, pdfDoc := true } = PageView.contentLocked :=
  locked_page_skips_render _ _ _ _ (by decide!)

/-! ## Navigation, zoom and the unclamped ratio -/

namespace JSNum

theorem le_fin_left_cases {c : ℚ} {p : JSNum} (h : le (fin c) p = true) :
    p = inf false ∨ (p = negZero ∧ c ≤ 0) ∨ ∃ x, p = fin x ∧ c ≤ x := by
  rcases p with _ | (_ | _) | _ | x <;> simp_all [le, toRat]

theorem le_fin_right_cases {c : ℚ} {p : JSNum} (h : le p (fin c) = true) :
    p = inf true ∨ (p = negZero ∧ 0 ≤ c) ∨ ∃ x, p = fin x ∧ x ≤ c := by
  rcases p with _ | (_ | _) | _ | x <;> simp_all [le, toRat]

theorem lt_fin_left_cases {c : ℚ} {p : JSNum} (h : lt (fin c) p = true) :
    p = inf false ∨ (p = negZero ∧ c < 0) ∨ ∃ x, p = fin x ∧ c < x := by
  rcases p with _ | (_ | _) | _ | x <;> simp_all [lt, toRat]

theorem le_inf_false {a : JSNum} (h : a ≠ nan) : le a (inf false) = true := by
  rcases a with _ | (_ | _) | _ | x <;> simp_all [le]

theorem le_fin_fin {x y : ℚ} (h : x ≤ y) : le (fin x) (fin y) = true := by
  simp [le, toRat, h]

theorem le_floor {n : ℤ} {a : JSNum} (h : le (fin (n : ℚ)) a = true) :
    le (fin (n : ℚ)) (floor a) = true := by
  rcases a with _ | (_ | _) | _ | x <;> simp_all [le, toRat, floor]
  exact Int.le_floor.mpr h

theorem neg_fin_of_ne_zero {q : ℚ} (h : q ≠ 0) : neg (fin q) = fin (-q) := by
  simp [neg, h]

theorem isDouble_one : isDouble 1 := by decide!

theorem isDouble_half : isDouble (1 / 2) := by decide!

theorem isDouble_three : isDouble 3 := by decide!

theorem lit_one : lit 1 = fin 1 := by decide!

theorem lit_half : lit (1 / 2) = fin (1 / 2) := by decide!

theorem lit_three : lit 3 = fin 3 := by decide!

theorem lit_fifth : lit (2 / 10) = fin (3602879701896397 / 18014398509481984) := by decide!

end JSNum

theorem pageInRange_prevPage (book : Book) (hwf : book.totalPages.toNumber.WF) (p : JSNum)
    (h : pageInRange book p) : pageInRange book (prevPage p) := by
  obtain ⟨h1, h2⟩ := h
  have hT1 : JSNum.le (.fin 1) book.totalPages.toNumber = true := JSNum.le_trans h1 h2
  have hX : JSNum.le (JSNum.sub p (.fin 1)) book.totalPages.toNumber = true := by
    unfold JSNum.sub
    rw [JSNum.neg_fin_of_ne_zero one_ne_zero]
    rcases JSNum.le_fin_left_cases h1 with rfl | ⟨_, h0⟩ | ⟨x, rfl, hx⟩
    · rw [JSNum.add_inf_fin]; exact h2
    · norm_num at h0
    · rw [JSNum.add_fin_fin]
      generalize book.totalPages.toNumber = T at hwf h2
      rcases JSNum.le_fin_left_cases (JSNum.le_trans h1 h2) with rfl | ⟨_, h0⟩ | ⟨t, rfl, _⟩
      · exact JSNum.le_inf_false (JSNum.ofRat_ne_nan _ _)
      · norm_num at h0
      · have hxt : x ≤ t := by simpa [JSNum.le, JSNum.toRat] using h2
        exact JSNum.ofRat_le _ hwf (by linarith)
  unfold prevPage
  exact ⟨JSNum.le_max_left (JSNum.le_refl_of_le_left h1) (JSNum.le_refl_of_le_left hX),
    JSNum.max_le hT1 hX⟩

theorem pageInRange_nextPage (book : Book) (p : JSNum) (h : pageInRange book p) :
    pageInRange book (nextPage book p) := by
  obtain ⟨h1, h2⟩ := h
  have hT1 : JSNum.le (.fin 1) book.totalPages.toNumber = true := JSNum.le_trans h1 h2
  have hY : JSNum.le (.fin 1) (JSNum.add p (.fin 1)) = true := by
    rcases JSNum.le_fin_left_cases h1 with rfl | ⟨_, h0⟩ | ⟨x, rfl, hx⟩
    · rfl
    · norm_num at h0
    · rw [JSNum.add_fin_fin]
      exact JSNum.le_ofRat _ JSNum.isDouble_one (by linarith)
  unfold nextPage
  exact ⟨JSNum.le_min hT1 hY,
    JSNum.min_le_left (JSNum.le_refl_of_le_right hT1) (JSNum.le_refl_of_le_right hY)⟩

theorem pageInRange_navigate (book : Book) (hwf : book.totalPages.toNumber.WF) (s : ReaderState)
    (r : NavRequest) (h : pageInRange book s.pageNum) :
    pageInRange book (navigate book s r).pageNum := by
  cases r
  · show pageInRange book (if JSNum.strictEq s.pageNum (.fin 1) then s
      else { s with pageNum := prevPage s.pageNum }).pageNum
    split_ifs
    · exact h
    · exact pageInRange_prevPage book hwf _ h
  · show pageInRange book (if JSNum.strictEq s.pageNum book.totalPages.toNumber then s
      else { s with pageNum := nextPage book s.pageNum }).pageNum
    split_ifs
    · exact h
    · exact pageInRange_nextPage book _ h

theorem pageInRange_foldl (book : Book) (hwf : book.totalPages.toNumber.WF)
    (reqs : List NavRequest) (s : ReaderState) (h : pageInRange book s.pageNum) :
    pageInRange book (reqs.foldl (navigate book) s).pageNum := by
  induction reqs generalizing s with
  | nil => exact h
  | cons r rest ih => exact ih _ (pageInRange_navigate book hwf s r h)

/-- C8: for a book whose page count is a number at least 1, after every finite sequence of
next-page and previous-page clicks from the initial page 1, `1 <= pageNum <= totalPages`. -/
theorem pageNum_within_bounds (book : Book) (hwf : book.totalPages.toNumber.WF)
    (hT : JSNum.le (.fin 1) book.totalPages.toNumber = true) (reqs : List NavRequest) :
    JSNum.le (.fin 1) (reqs.foldl (navigate book) ReaderState.initial).pageNum = true ∧
      JSNum.le (reqs.foldl (navigate book) ReaderState.initial).pageNum
        book.totalPages.toNumber = true :=
  pageInRange_foldl book hwf reqs ReaderState.initial ⟨JSNum.le_fin_fin le_rfl, hT⟩

/-- Instance: next, next, previous, next on a 2-page book. -/
theorem pageNum_within_bounds_witness :
    JSNum.le (.fin 1)
        ([NavRequest.next, NavRequest.next, NavRequest.previous, NavRequest.next].foldl
          (navigate { totalPages := .num (.fin 2) }) ReaderState.initial).pageNum = true ∧
      JSNum.le
        ([NavRequest.next, NavRequest.next, NavRequest.previous, NavRequest.next].foldl
          (navigate { totalPages := .num (.fin 2) }) ReaderState.initial).pageNum
        (Book.totalPages { totalPages := .num (.fin 2) }).toNumber = true :=
  pageNum_within_bounds { totalPages := .num (.fin 2) } (by decide!) (by decide!) _

theorem zoomInRange_fin {z : JSNum} (h : zoomInRange z) : ∃ x, z = .fin x ∧ 1 / 2 ≤ x ∧ x ≤ 3 := by
  obtain ⟨h1, h2⟩ := h
  rcases JSNum.le_fin_left_cases h1 with rfl | ⟨_, h0⟩ | ⟨x, rfl, hx⟩
  · cases h2
  · norm_num at h0
  · exact ⟨x, rfl, hx, by simpa [JSNum.le, JSNum.toRat] using h2⟩

theorem zoomInRange_zoomIn {z : JSNum} (h : zoomInRange z) : zoomInRange (zoomIn z) := by
  obtain ⟨x, rfl, hx1, hx2⟩ := zoomInRange_fin h
  have hY : JSNum.le (.fin (1 / 2)) (JSNum.add (.fin x) (JSNum.lit (2 / 10))) = true := by
    rw [JSNum.lit_fifth, JSNum.add_fin_fin]
    exact JSNum.le_ofRat _ JSNum.isDouble_half (by linarith)
  unfold zoomIn
  rw [JSNum.lit_three]
  exact ⟨JSNum.le_min (JSNum.le_fin_fin (by norm_num)) hY,
    JSNum.min_le_left (JSNum.le_fin_fin le_rfl) (JSNum.le_refl_of_le_right hY)⟩

theorem zoomInRange_zoomOut {z : JSNum} (h : zoomInRange z) : zoomInRange (zoomOut z) := by
  obtain ⟨x, rfl, hx1, hx2⟩ := zoomInRange_fin h
  have hX : JSNum.le (JSNum.sub (.fin x) (JSNum.lit (2 / 10))) (.fin 3) = true := by
    unfold JSNum.sub
    rw [JSNum.lit_fifth, JSNum.neg_fin_of_ne_zero (by norm_num), JSNum.add_fin_fin]
    exact JSNum.ofRat_le _ JSNum.isDouble_three (by linarith)
  unfold zoomOut
  rw [JSNum.lit_half]
  exact ⟨JSNum.le_max_left (JSNum.le_fin_fin le_rfl) (JSNum.le_refl_of_le_left hX),
    JSNum.max_le (JSNum.le_fin_fin (by norm_num)) hX⟩

theorem zoomInRange_foldl (reqs : List ZoomRequest) (s : ReaderState) (h : zoomInRange s.zoom) :
    zoomInRange (reqs.foldl adjustZoom s).zoom := by
  induction reqs generalizing s with
  | nil => exact h
  | cons r rest ih =>
    apply ih
    cases r
    · exact zoomInRange_zoomOut h
    · exact zoomInRange_zoomIn h

/-- C9: after every finite sequence of zoom-in and zoom-out clicks from the initial zoom 1.0,
`0.5 <= zoom <= 3.0`; twelve zoom-in clicks from 1.0 end at exactly 3.0. -/
theorem zoom_within_bounds :
    (∀ reqs : List ZoomRequest,
      JSNum.le (JSNum.lit (1 / 2)) (reqs.foldl adjustZoom ReaderState.initial).zoom = true ∧
        JSNum.le (reqs.foldl adjustZoom ReaderState.initial).zoom (JSNum.lit 3) = true) ∧
      ((List.replicate 12 ZoomRequest.zoomIn).foldl adjustZoom ReaderState.initial).zoom =
        JSNum.lit 3 := by
  constructor
  · intro reqs
    rw [JSNum.lit_half, JSNum.lit_three]
    apply zoomInRange_foldl
    show zoomInRange (JSNum.lit 1)
    rw [JSNum.lit_one]
    exact ⟨JSNum.le_fin_fin (by norm_num), JSNum.le_fin_fin (by norm_num)⟩
  · decide!

theorem le_accessRatio_of_overpaid {P F : JSNum} (hF : JSNum.gt F (.fin 0) = true)
    (hP : JSNum.gt P F = true) : JSNum.le (.fin 1) (JSNum.div P F) = true := by
  unfold JSNum.gt at hF hP
  rcases JSNum.lt_fin_left_cases hF with rfl | ⟨rfl, h0⟩ | ⟨f, rfl, hf⟩
  · rw [JSNum.lt_inf_false_left] at hP
    cases hP
  · exact absurd h0 (lt_irrefl 0)
  · rcases JSNum.lt_fin_left_cases hP with rfl | ⟨rfl, h0⟩ | ⟨p, rfl, hp⟩
    · rw [JSNum.div_inf_fin]
      simp [not_lt.mpr hf.le, JSNum.le]
    · linarith
    · rw [JSNum.div_fin_fin]
      simp only [decide_eq_true_eq, if_neg hf.ne']
      exact JSNum.le_ofRat _ JSNum.isDouble_one ((one_le_div hf).mpr hp.le)

theorem le_mul_of_one_le {t : ℚ} {R : JSNum} (ht : 1 ≤ t) (hd : isDouble t)
    (hR : JSNum.le (.fin 1) R = true) : JSNum.le (.fin t) (JSNum.mul (.fin t) R) = true := by
  rcases JSNum.le_fin_left_cases hR with rfl | ⟨_, h0⟩ | ⟨r, rfl, hr⟩
  · rw [JSNum.mul_fin_inf]
    have h0 : t ≠ 0 := by linarith
    have hneg : ¬ t < 0 := by linarith
    simp [h0, hneg, JSNum.le]
  · norm_num at h0
  · rw [JSNum.mul_fin_fin]
    apply JSNum.le_ofRat _ hd
    nlinarith

/-- C6: the ratio is not clamped.  For a whole page count of at least 1, a fee above zero
and a paid amount above the fee, `maxPage >= totalPages` and no page from 1 to `totalPages` is
locked; for 20 pages and 20000 paid of 10000, `maxPage` is 40. -/
theorem maxPage_not_clamped (book : Book) (user : User) (n : ℕ)
    (hT : book.totalPages.toNumber = .fin (n : ℚ)) (hn : 1 ≤ n) (hd : isDouble (n : ℚ))
    (hF : JSNum.gt user.totalFee.toNumber (.fin 0) = true)
    (hP : JSNum.gt user.paidAmount.toNumber user.totalFee.toNumber = true) :
    JSNum.le book.totalPages.toNumber (maxPage book user) = true ∧
      (∀ pageNum : JSNum, JSNum.le (.fin 1) pageNum = true →
        JSNum.le pageNum book.totalPages.toNumber = true → isLocked book user pageNum = false) ∧
      JSNum.gt
        (maxPage { totalPages := .num (.fin 20) }
          { totalFee := .num (.fin 10000), paidAmount := .num (.fin 20000) })
        (.fin 20) = true := by
  have hmax : JSNum.le book.totalPages.toNumber (maxPage book user) = true := by
    unfold maxPage accessRatio
    rw [hT]
    have h1 : (1 : ℚ) ≤ (n : ℚ) := by exact_mod_cast hn
    have := le_mul_of_one_le h1 hd (le_accessRatio_of_overpaid hF hP)
    have hc : ((n : ℤ) : ℚ) = (n : ℚ) := by push_cast; rfl
    rw [← hc] at this ⊢
    exact JSNum.le_floor this
  refine ⟨hmax, ?_, by decide!⟩
  intro pageNum _ h2
  unfold isLocked JSNum.gt
  exact JSNum.lt_eq_false_of_le (JSNum.le_trans h2 hmax)

/-- Instance: a 20-page book with 20000 paid of 10000. -/
theorem maxPage_not_clamped_witness :
    JSNum.le (Book.totalPages { totalPages := .num (.fin 20) }).toNumber
        (maxPage { totalPages := .num (.fin 20) }
          { totalFee := .num (.fin 10000), paidAmount := .num (.fin 20000) }) = true ∧
      (∀ pageNum : JSNum, JSNum.le (.fin 1) pageNum = true →
        JSNum.le pageNum (Book.totalPages { totalPages := .num (.fin 20) }).toNumber = true →
        isLocked { totalPages := .num (.fin 20) }
          { totalFee := .num (.fin 10000), paidAmount := .num (.fin 20000) } pageNum = false) ∧
      JSNum.gt
        (maxPage { totalPages := .num (.fin 20) }
          { totalFee := .num (.fin 10000), paidAmount := .num (.fin 20000) })
        (.fin 20) = true :=
  maxPage_not_clamped { totalPages := .num (.fin 20) }
    { totalFee := .num (.fin 10000), paidAmount := .num (.fin 20000) } 20
    (by decide!) (by decide) (by decide!) (by decide!) (by decide!)

/-! ## Exactly representable values -/

theorem round64_zero : round64 0 = 0 :=
  le_antisymm (round64_nonpos le_rfl) (round64_nonneg le_rfl)

/-- A dyadic rational with a numerator below `2 ^ 53` in absolute value is a binary64 value. -/
theorem round64_dyadic (m : ℤ) (k : ℕ) (hm : |m| < 2 ^ 53) (hk : k ≤ 1074) :
    round64 ((m : ℚ) / 2 ^ k) = (m : ℚ) / 2 ^ k := by
  by_cases hm0 : m = 0
  · subst hm0; simp [round64_zero]
  set q : ℚ := (m : ℚ) / 2 ^ k with hq
  have two_ne : (2 : ℚ) ≠ 0 := by norm_num
  have hqne : q ≠ 0 := by
    rw [hq]; exact div_ne_zero (by exact_mod_cast hm0) (by positivity)
  have habs : |q| < (2 : ℚ) ^ ((53 : ℤ) - k) := by
    rw [hq, abs_div, abs_of_pos (by positivity : (0 : ℚ) < 2 ^ k), zpow_sub₀ two_ne, zpow_natCast]
    apply div_lt_div_of_pos_right _ (by positivity)
    have : ((|m| : ℤ) : ℚ) < ((2 ^ 53 : ℤ) : ℚ) := by exact_mod_cast hm
    rw [Int.cast_abs] at this
    norm_num at this ⊢
    exact this
  obtain ⟨s1, _⟩ := floorLog2_spec q hqne
  have he : floorLog2 q < 53 - k :=
    (zpow_lt_zpow_iff_right₀ (by norm_num : (1 : ℚ) < 2)).mp (lt_of_le_of_lt s1 habs)
  have hqe : quantumExp q ≤ -(k : ℤ) := by
    unfold quantumExp
    have : (k : ℤ) ≤ 1074 := by exact_mod_cast hk
    omega
  unfold round64
  generalize quantumExp q = E at hqe
  obtain ⟨d, hd⟩ := Int.eq_ofNat_of_zero_le (by omega : 0 ≤ -(k : ℤ) - E)
  have h2k : (2 : ℚ) ^ k = (2 : ℚ) ^ (k : ℤ) := (zpow_natCast 2 k).symm
  have h2d : (2 : ℚ) ^ d = (2 : ℚ) ^ (d : ℤ) := (zpow_natCast 2 d).symm
  have hscaled : q / (2 : ℚ) ^ E = ((m * 2 ^ d : ℤ) : ℚ) := by
    push_cast
    rw [hq, h2k, h2d, ← hd, div_div, ← zpow_add₀ two_ne, div_eq_mul_inv, ← zpow_neg]
    congr 2
    omega
  rw [hscaled, roundHalfEven_intCast]
  push_cast
  rw [h2d, ← hd, mul_assoc, ← zpow_add₀ two_ne, hq, div_eq_mul_inv, h2k, ← zpow_neg]
  congr 2
  omega

theorem isDouble_dyadic (m : ℤ) (k : ℕ) (hm : |m| < 2 ^ 53) (hk : k ≤ 1074) :
    isDouble ((m : ℚ) / 2 ^ k) := by
  refine ⟨round64_dyadic m k hm hk, ?_⟩
  rw [abs_div, abs_of_pos (by positivity : (0 : ℚ) < 2 ^ k)]
  have h1 : |(m : ℚ)| ≤ 2 ^ 53 := by
    have : ((|m| : ℤ) : ℚ) < ((2 ^ 53 : ℤ) : ℚ) := by exact_mod_cast hm
    rw [Int.cast_abs] at this
    norm_num at this ⊢
    exact this.le
  have h2 : (1 : ℚ) ≤ 2 ^ k := one_le_pow₀ (by norm_num)
  calc |(m : ℚ)| / 2 ^ k ≤ |(m : ℚ)| := div_le_self (abs_nonneg _) h2
    _ ≤ 2 ^ 53 := h1
    _ ≤ maxFinite := by unfold maxFinite; norm_num

theorem isDouble_intCast (m : ℤ) (hm : |m| < 2 ^ 53) : isDouble (m : ℚ) := by
  have := isDouble_dyadic m 0 hm (by norm_num)
  simpa using this

namespace JSNum

/-- An exactly representable result is delivered unchanged. -/
theorem ofRat_of_isDouble {q : ℚ} (z : Bool) (hd : isDouble q) (h : q ≠ 0 ∨ z = false) :
    ofRat z q = fin q := by
  unfold ofRat
  simp only
  rw [hd.1, if_neg (not_lt.mpr hd.2)]
  by_cases h0 : q = 0
  · subst h0
    rcases h with h | h
    · exact absurd rfl h
    · simp [h]
  · rw [if_neg h0]

end JSNum

/-! ## Watermark tiling -/

theorem range_flatMap_succ {α : Type} (f : ℕ → List α) (n : ℕ) :
    (List.range (n + 1)).flatMap f = f 0 ++ (List.range n).flatMap (fun j => f (j + 1)) := by
  rw [List.range_succ_eq_map]
  simp [List.flatMap_map]

namespace JSNum

theorem add_int_nat (y : ℤ) (s : ℕ) (hy : |y + s| < 2 ^ 53) :
    add (fin (y : ℚ)) (fin (s : ℚ)) = fin ((y + s : ℤ) : ℚ) := by
  rw [add_fin_fin]
  have hs : ¬ (s : ℚ) < 0 := not_lt.mpr (Nat.cast_nonneg s)
  simp only [hs, decide_False, Bool.and_false]
  have := ofRat_of_isDouble false (isDouble_intCast (y + s) hy) (Or.inr rfl)
  push_cast at this ⊢
  exact this

theorem mul_fifty_zoom (z : ℚ) (s : ℕ) (hz : 400 * z = s) (hs1 : 1 ≤ s) (hs : s < 2 ^ 32) :
    mul (fin 50) (fin z) = fin (50 * z) := by
  rw [mul_fin_fin]
  have h50 : 50 * z = ((s : ℤ) : ℚ) / 2 ^ 3 := by push_cast; linarith
  have hne : 50 * z ≠ 0 := by
    rw [h50]
    have : (0 : ℚ) < (s : ℚ) := by exact_mod_cast hs1
    push_cast
    positivity
  apply ofRat_of_isDouble _ _ (Or.inl hne)
  rw [h50]
  exact isDouble_dyadic _ 3 (by rw [abs_of_nonneg (by positivity)]; omega) (by norm_num)

theorem add_int_offset (y : ℤ) (z : ℚ) (s : ℕ) (hz : 400 * z = s) (hs : s < 2 ^ 32)
    (hy : |y| < 2 ^ 40) : add (fin (y : ℚ)) (fin (50 * z)) = fin ((y : ℚ) + 50 * z) := by
  rw [add_fin_fin]
  have h50 : 50 * z = (s : ℚ) / 2 ^ 3 := by linarith
  have hpos : ¬ 50 * z < 0 := by
    rw [h50]; exact not_lt.mpr (by positivity)
  simp only [hpos, decide_False, Bool.and_false]
  apply ofRat_of_isDouble _ _ (Or.inr rfl)
  have : (y : ℚ) + 50 * z = ((8 * y + s : ℤ) : ℚ) / 2 ^ 3 := by
    rw [h50]; push_cast; ring
  rw [this]
  refine isDouble_dyadic _ 3 ?_ (by norm_num)
  rw [abs_lt] at hy ⊢
  constructor <;> omega

end JSNum

theorem columnOps_succ (watermarkText userId : String) (z : ℚ) (x : JSNum) (y0 s : ℚ) (n : ℕ) :
    columnOps watermarkText userId z x y0 s (n + 1) =
      DrawOp.fillText watermarkText x (JSNum.fin y0) ::
        DrawOp.fillText userId x (JSNum.fin (y0 + 50 * z)) ::
        columnOps watermarkText userId z x (y0 + s) s n := by
  unfold columnOps
  rw [range_flatMap_succ]
  simp only [Nat.cast_zero, zero_mul, add_zero, List.cons_append, List.nil_append]
  have hfun : (fun j : ℕ =>
      [DrawOp.fillText watermarkText x (JSNum.fin (y0 + ((j + 1 : ℕ) : ℚ) * s)),
       DrawOp.fillText userId x (JSNum.fin (y0 + ((j + 1 : ℕ) : ℚ) * s + 50 * z))]) =
      (fun j : ℕ =>
      [DrawOp.fillText watermarkText x (JSNum.fin (y0 + s + (j : ℚ) * s)),
       DrawOp.fillText userId x (JSNum.fin (y0 + s + (j : ℚ) * s + 50 * z))]) := by
    funext j
    have : y0 + ((j + 1 : ℕ) : ℚ) * s = y0 + s + (j : ℚ) * s := by push_cast; ring
    rw [this]
  rw [hfun]

theorem watermarkColumn_exact (watermarkText userId : String) (z : ℚ) (s H : ℕ) (x : JSNum)
    (hz : 400 * z = s) (hs1 : 1 ≤ s) (hs : s < 2 ^ 32) (hH : H < 2 ^ 32) :
    ∀ (n fuel : ℕ) (y : ℤ), n < fuel → -(2 ^ 32) ≤ y → (∀ j : ℕ, j < n → y + j * s < 2 * H) →
      2 * (H : ℤ) ≤ y + n * s →
      watermarkColumn watermarkText userId (.fin z) x (.fin ((H : ℚ) * 2)) (.fin (s : ℚ))
          fuel (.fin (y : ℚ)) =
        some (columnOps watermarkText userId z x y s n) := by
  intro n
  induction n with
  | zero =>
    intro fuel y hf _ _ hend
    obtain ⟨f, rfl⟩ := Nat.exists_eq_succ_of_ne_zero (by omega : fuel ≠ 0)
    have hlt : JSNum.lt (.fin (y : ℚ)) (.fin ((H : ℚ) * 2)) = false := by
      simp only [JSNum.lt, JSNum.toRat, decide_eq_false_iff_not, not_lt]
      have : ((H : ℤ) : ℚ) * 2 ≤ ((y : ℤ) : ℚ) := by exact_mod_cast (by omega : (H : ℤ) * 2 ≤ y)
      simpa using this
    simp [watermarkColumn, hlt, columnOps]
  | succ n ih =>
    intro fuel y hf hy hlt hend
    obtain ⟨f, rfl⟩ := Nat.exists_eq_succ_of_ne_zero (by omega : fuel ≠ 0)
    have h0 := hlt 0 (by omega)
    have hcond : JSNum.lt (.fin (y : ℚ)) (.fin ((H : ℚ) * 2)) = true := by
      simp only [JSNum.lt, JSNum.toRat, decide_eq_true_eq]
      have : ((y : ℤ) : ℚ) < ((H : ℤ) : ℚ) * 2 := by exact_mod_cast (by omega : y < (H : ℤ) * 2)
      simpa using this
    have hstep := JSNum.add_int_nat y s (by rw [abs_lt]; constructor <;> omega)
    have hoff := JSNum.add_int_offset y z s hz hs (by rw [abs_lt]; constructor <;> omega)
    have hrec := ih f (y + s) (by omega) (by omega)
      (fun j hj => by have := hlt (j + 1) (by omega); push_cast at this; linarith)
      (by push_cast at hend; linarith)
    rw [watermarkColumn, if_pos hcond, hstep, hrec, JSNum.mul_fifty_zoom z s hz hs1 hs, hoff,
      columnOps_succ]
    simp

namespace JSNum

theorem mul_step_zoom (z : ℚ) (s : ℕ) (hz : 400 * z = s) (hs1 : 1 ≤ s) (hs : s < 2 ^ 32) :
    mul (fin 400) (fin z) = fin (s : ℚ) := by
  rw [mul_fin_fin, hz]
  have hne : (s : ℚ) ≠ 0 := by
    have : (0 : ℚ) < (s : ℚ) := by exact_mod_cast hs1
    exact this.ne'
  apply ofRat_of_isDouble _ _ (Or.inl hne)
  have := isDouble_intCast (s : ℤ) (by rw [abs_of_nonneg (by positivity)]; omega)
  simpa using this

theorem mul_nat_two (n : ℕ) (hn1 : 1 ≤ n) (hn : n < 2 ^ 32) :
    mul (fin (n : ℚ)) (fin 2) = fin ((n : ℚ) * 2) := by
  rw [mul_fin_fin]
  have hne : (n : ℚ) * 2 ≠ 0 := by
    have : (0 : ℚ) < (n : ℚ) := by exact_mod_cast hn1
    positivity
  apply ofRat_of_isDouble _ _ (Or.inl hne)
  have := isDouble_intCast ((n : ℤ) * 2) (by rw [abs_of_nonneg (by positivity)]; omega)
  simpa using this

theorem neg_nat (n : ℕ) (hn1 : 1 ≤ n) : neg (fin (n : ℚ)) = fin ((-(n : ℤ) : ℤ) : ℚ) := by
  have hne : (n : ℚ) ≠ 0 := by
    have : (0 : ℚ) < (n : ℚ) := by exact_mod_cast hn1
    exact this.ne'
  rw [neg_fin_of_ne_zero hne]
  simp

end JSNum

theorem gridOps_succ (watermarkText userId : String) (z : ℚ) (x0 y0 s : ℚ) (rows m : ℕ) :
    gridOps watermarkText userId z x0 y0 s rows (m + 1) =
      columnOps watermarkText userId z (JSNum.fin x0) y0 s rows ++
        gridOps watermarkText userId z (x0 + s) y0 s rows m := by
  unfold gridOps
  rw [range_flatMap_succ]
  simp only [Nat.cast_zero, zero_mul, add_zero]
  have hfun : (fun i : ℕ =>
      columnOps watermarkText userId z (JSNum.fin (x0 + ((i + 1 : ℕ) : ℚ) * s)) y0 s rows) =
      (fun i : ℕ =>
      columnOps watermarkText userId z (JSNum.fin (x0 + s + (i : ℚ) * s)) y0 s rows) := by
    funext i
    have : x0 + ((i + 1 : ℕ) : ℚ) * s = x0 + s + (i : ℚ) * s := by push_cast; ring
    rw [this]
  rw [hfun]

theorem watermarkGrid_exact (watermarkText userId : String) (z : ℚ) (s W H rows : ℕ)
    (hz : 400 * z = s) (hs1 : 1 ≤ s) (hs : s < 2 ^ 32) (hW : W < 2 ^ 32) (hH : H < 2 ^ 32)
    (hrows : ∀ j : ℕ, j < rows → -(H : ℤ) + j * s < 2 * H)
    (hrowsEnd : 2 * (H : ℤ) ≤ -(H : ℤ) + rows * s) :
    ∀ (m fuel : ℕ) (x : ℤ), m + rows < fuel → -(2 ^ 32) ≤ x →
      (∀ i : ℕ, i < m → x + i * s < 2 * W) → 2 * (W : ℤ) ≤ x + m * s →
      watermarkGrid watermarkText userId (.fin z) (.fin ((W : ℚ) * 2))
          (.fin ((-(H : ℤ) : ℤ) : ℚ)) (.fin ((H : ℚ) * 2)) (.fin (s : ℚ)) (.fin (s : ℚ))
          fuel (.fin (x : ℚ)) =
        some (gridOps watermarkText userId z x (-(H : ℤ) : ℤ) s rows m) := by
  intro m
  induction m with
  | zero =>
    intro fuel x hf _ _ hend
    obtain ⟨f, rfl⟩ := Nat.exists_eq_succ_of_ne_zero (by omega : fuel ≠ 0)
    have hlt : JSNum.lt (.fin (x : ℚ)) (.fin ((W : ℚ) * 2)) = false := by
      simp only [JSNum.lt, JSNum.toRat, decide_eq_false_iff_not, not_lt]
      have : ((W : ℤ) : ℚ) * 2 ≤ ((x : ℤ) : ℚ) := by exact_mod_cast (by omega : (W : ℤ) * 2 ≤ x)
      simpa using this
    simp [watermarkGrid, hlt, gridOps]
  | succ m ih =>
    intro fuel x hf hx hlt hend
    obtain ⟨f, rfl⟩ := Nat.exists_eq_succ_of_ne_zero (by omega : fuel ≠ 0)
    have h0 := hlt 0 (by omega)
    have hcond : JSNum.lt (.fin (x : ℚ)) (.fin ((W : ℚ) * 2)) = true := by
      simp only [JSNum.lt, JSNum.toRat, decide_eq_true_eq]
      have : ((x : ℤ) : ℚ) < ((W : ℤ) : ℚ) * 2 := by exact_mod_cast (by omega : x < (W : ℤ) * 2)
      simpa using this
    have hstep := JSNum.add_int_nat x s (by rw [abs_lt]; constructor <;> omega)
    have hcol := watermarkColumn_exact watermarkText userId z s H (.fin (x : ℚ)) hz hs1 hs hH
      rows f (-(H : ℤ)) (by omega) (by omega) hrows hrowsEnd
    have hrec := ih f (x + s) (by omega) (by omega)
      (fun i hi => by have := hlt (i + 1) (by omega); push_cast at this; linarith)
      (by push_cast at hend; linarith)
    rw [watermarkGrid, if_pos hcond, hstep, hrec, hcol, gridOps_succ]
    simp

theorem gridOps_eq_specWatermark (watermarkText userId : String) (z : ℚ) (W H : ℕ) :
    gridOps watermarkText userId z (-(W : ℤ) : ℤ) (-(H : ℤ) : ℤ) (400 * z)
        ⌈3 * (H : ℚ) / (400 * z)⌉₊ ⌈3 * (W : ℚ) / (400 * z)⌉₊ =
      specWatermark watermarkText userId W H z := by
  unfold gridOps columnOps specWatermark specAnchors
  simp [List.flatMap_assoc, List.flatMap_map]

theorem drawWatermark_eq_specWatermark (settings : Settings) (user : User) (z : ℚ)
    (s W H fuel : ℕ) (hz : 400 * z = s) (hs1 : 1 ≤ s) (hs : s < 2 ^ 32)
    (hW1 : 1 ≤ W) (hW : W < 2 ^ 32) (hH1 : 1 ≤ H) (hH : H < 2 ^ 32)
    (hfuel : ⌈3 * (W : ℚ) / (400 * z)⌉₊ + ⌈3 * (H : ℚ) / (400 * z)⌉₊ < fuel) :
    drawWatermark fuel settings user (.fin z) W H =
      some (specWatermark settings.watermarkText user.id W H z) := by
  have hspos : (0 : ℚ) < (s : ℚ) := by exact_mod_cast hs1
  have bound : ∀ (n : ℕ), (∀ j : ℕ, j < ⌈3 * (n : ℚ) / (s : ℚ)⌉₊ → -(n : ℤ) + j * s < 2 * n) ∧
      2 * (n : ℤ) ≤ -(n : ℤ) + ⌈3 * (n : ℚ) / (s : ℚ)⌉₊ * s := by
    intro n
    constructor
    · intro j hj
      have h1 : (j : ℚ) < 3 * (n : ℚ) / (s : ℚ) := Nat.lt_ceil.mp hj
      rw [lt_div_iff₀ hspos] at h1
      have h2 : ((j : ℤ) : ℚ) * ((s : ℤ) : ℚ) < 3 * ((n : ℤ) : ℚ) := by simpa using h1
      have h3 : (j : ℤ) * (s : ℤ) < 3 * (n : ℤ) := by exact_mod_cast h2
      linarith
    · have h1 : 3 * (n : ℚ) / (s : ℚ) ≤ (⌈3 * (n : ℚ) / (s : ℚ)⌉₊ : ℚ) := Nat.le_ceil _
      rw [div_le_iff₀ hspos] at h1
      have h2 : 3 * ((n : ℤ) : ℚ) ≤
          ((⌈3 * (n : ℚ) / (s : ℚ)⌉₊ : ℤ) : ℚ) * ((s : ℤ) : ℚ) := by simpa using h1
      have h3 : 3 * (n : ℤ) ≤ (⌈3 * (n : ℚ) / (s : ℚ)⌉₊ : ℤ) * (s : ℤ) := by exact_mod_cast h2
      linarith
  rw [← gridOps_eq_specWatermark]
  unfold drawWatermark
  simp only
  rw [JSNum.mul_step_zoom z s hz hs1 hs, JSNum.mul_nat_two W hW1 hW, JSNum.mul_nat_two H hH1 hH,
    JSNum.neg_nat W hW1, JSNum.neg_nat H hH1, hz]
  rw [hz] at hfuel
  exact watermarkGrid_exact settings.watermarkText user.id z s W H _ hz hs1 hs hW hH
    (bound H).1 (bound H).2 _ fuel (-(W : ℤ)) hfuel (by omega) (bound W).1 (bound W).2

/-- C10 (amended): when `400 * zoom` is a whole number `s`, on a canvas of whole width and
height the watermark block, given enough fuel, draws exactly the texts of the anchors
`x = -W + i * s < 2 * W`, `y = -H + j * s < 2 * H`: the watermark text at `(x, y)` and the
viewer id at `(x, y + 50 * zoom)`; there are `ceil(3 * W / s) * ceil(3 * H / s)` anchors. -/
theorem drawWatermark_exact_step (settings : Settings) (user : User) (z : ℚ)
    (s W H fuel : ℕ) (hz : 400 * z = s) (hs1 : 1 ≤ s) (hs : s < 2 ^ 32)
    (hW1 : 1 ≤ W) (hW : W < 2 ^ 32) (hH1 : 1 ≤ H) (hH : H < 2 ^ 32)
    (hfuel : ⌈3 * (W : ℚ) / (400 * z)⌉₊ + ⌈3 * (H : ℚ) / (400 * z)⌉₊ < fuel) :
    drawWatermark fuel settings user (.fin z) W H =
        some (specWatermark settings.watermarkText user.id W H z) ∧
      (specAnchors W H (400 * z)).length =
        ⌈3 * (W : ℚ) / (400 * z)⌉₊ * ⌈3 * (H : ℚ) / (400 * z)⌉₊ := by
  refine ⟨drawWatermark_eq_specWatermark settings user z s W H fuel hz hs1 hs hW1 hW hH1 hH
    hfuel, ?_⟩
  unfold specAnchors
  simp [List.length_flatMap, Function.comp_def]

/-- C10 (counterexample): after three zoom-in clicks the zoom is the binary64 value just below
1.6, and `400 * zoom` rounds to 640.  On a 640 by 640 canvas the loops then visit 3 columns and
3 rows (9 anchors, 18 texts), while the anchors `x = -W + i * 400 * zoom < 2 * W` of the claim
number 4 by 4. -/
theorem watermark_grid_after_three_zoom_ins :
    ((List.replicate 3 ZoomRequest.zoomIn).foldl adjustZoom ReaderState.initial).zoom =
        .fin (7205759403792793 / 4503599627370496) ∧
      JSNum.mul (.fin 400) (.fin (7205759403792793 / 4503599627370496)) = .fin 640 ∧
      (drawWatermark 20 {} { id := "NGO-2025-01" }
        (.fin (7205759403792793 / 4503599627370496)) 640 640).map List.length = some 18 ∧
      (specAnchors 640 640 (400 * (7205759403792793 / 4503599627370496))).length = 16 ∧
      drawWatermark 20 {} { id := "NGO-2025-01" }
          (.fin (7205759403792793 / 4503599627370496)) 640 640 ≠
        some (specWatermark "CONFIDENTIAL - DO NOT SHARE" "NGO-2025-01" 640 640
          (7205759403792793 / 4503599627370496)) := by
  decide!

/-- Instance: zoom 1 on a 300 by 200 canvas, step 400. -/
theorem drawWatermark_exact_step_witness :
    drawWatermark 10 {} { id := "NGO-2025-01" } (.fin 1) 300 200 =
        some (specWatermark (Settings.watermarkText {}) (User.id { id := "NGO-2025-01" })
          300 200 1) ∧
      (specAnchors 300 200 (400 * 1)).length =
        ⌈3 * ((300 : ℕ) : ℚ) / (400 * 1)⌉₊ * ⌈3 * ((200 : ℕ) : ℚ) / (400 * 1)⌉₊ :=
  drawWatermark_exact_step {} { id := "NGO-2025-01" } 1 400 300 200 10 (by norm_num)
    (by norm_num) (by norm_num) (by norm_num) (by norm_num) (by norm_num) (by norm_num)
    (by decide!)

/-! ## Leak-mitigation monitor -/

/-- C11: from every reader state, a keydown of `PrintScreen`, or of `3` or `4` with meta and
shift held, sets `isObscured` (the black-out overlay is shown) and the message
"Screenshots disabled", prevents the default and sets the 2000 ms timer; any other keydown
leaves the state as it was, sets no timer and prevents nothing. -/
theorem handleKeyDown_screenshot_keys (book : Book) (user : User) (s : ReaderState)
    (key : String) (metaKey shiftKey : Bool) :
    ((key = "PrintScreen" ∨ (metaKey = true ∧ shiftKey = true ∧ (key = "3" ∨ key = "4"))) →
        (handleEvent s (.keydown key metaKey shiftKey)).state =
            { s with isObscured := true, securityWarning := "Screenshots disabled" } ∧
          (readerScreen book user
            (handleEvent s (.keydown key metaKey shiftKey)).state).securityOverlay = true ∧
          (readerScreen book user
            (handleEvent s (.keydown key metaKey shiftKey)).state).warningBanner =
              some "Screenshots disabled" ∧
          (handleEvent s (.keydown key metaKey shiftKey)).timeout = some 2000) ∧
      (¬ (key = "PrintScreen" ∨ (metaKey = true ∧ shiftKey = true ∧ (key = "3" ∨ key = "4"))) →
        handleEvent s (.keydown key metaKey shiftKey) = { state := s }) := by
  have hiff : isScreenshotKey key metaKey shiftKey = true ↔
      (key = "PrintScreen" ∨ (metaKey = true ∧ shiftKey = true ∧ (key = "3" ∨ key = "4"))) := by
    simp [isScreenshotKey, and_assoc]
  constructor
  · intro h
    have hk := hiff.mpr h
    simp [handleEvent, handleKeyDown, hk, readerScreen]
  · intro h
    have hk : isScreenshotKey key metaKey shiftKey = false := by
      rw [← Bool.not_eq_true]
      exact fun hk => h (hiff.mp hk)
    simp [handleEvent, handleKeyDown, hk]

/-- C13 (counterexample): a screenshot trigger at 0 ms, a window blur at 1000 ms; when the
timer has fired at 2000 ms the window is still not focused and the page area is hidden. -/
theorem timer_leaves_window_blurred :
    (monitorAt [(0, .keydown "PrintScreen" false false), (1000, .blur)] 2000).timers = [] ∧
      (monitorAt [(0, .keydown "PrintScreen" false false), (1000, .blur)]
        2000).reader.isWindowFocused = false ∧
      (readerScreen {} {}
        (monitorAt [(0, .keydown "PrintScreen" false false), (1000, .blur)]
          2000).reader).pageAreaHidden = true := by
  decide

/-- C13 (amended): when the timer fires, whatever the state, afterwards `isObscured` is false
and the message is empty, so the black-out and the banner are gone, while `isWindowFocused`
and with it the hiding of the page area are as they were at fire time. -/
theorem obscureTimeout_clears_overlay_only (book : Book) (user : User) (s : ReaderState) :
    (obscureTimeout s).isObscured = false ∧
      (obscureTimeout s).securityWarning = "" ∧
      (obscureTimeout s).isWindowFocused = s.isWindowFocused ∧
      (readerScreen book user (obscureTimeout s)).securityOverlay = false ∧
      (readerScreen book user (obscureTimeout s)).warningBanner = none ∧
      (readerScreen book user (obscureTimeout s)).pageAreaHidden =
        (readerScreen book user s).pageAreaHidden := by
  simp [obscureTimeout, readerScreen]

/-- C14 (counterexample): the message set by a blur is not the string of the claim. -/
theorem handleBlur_message_differs :
    (handleEvent ReaderState.initial .blur).state.securityWarning ≠
      "App backgrounded — content hidden" := by
  decide

/-- C14 (amended): from every reader state a blur sets `isWindowFocused` to false, so the
page area is hidden, and sets the message to exactly "App backgrounded - Content Hidden";
`isObscured` is left as it was. -/
theorem handleBlur_hides_page (book : Book) (user : User) (s : ReaderState) :
    (handleEvent s .blur).state.isWindowFocused = false ∧
      (handleEvent s .blur).state.securityWarning = "App backgrounded - Content Hidden" ∧
      (handleEvent s .blur).state.isObscured = s.isObscured ∧
      (readerScreen book user (handleEvent s .blur).state).pageAreaHidden = true ∧
      (readerScreen book user (handleEvent s .blur).state).warningBanner =
        some "App backgrounded - Content Hidden" := by
  simp [handleEvent, handleBlur, readerScreen]

/-- C15 (fails on the code): a focus event sets `isWindowFocused` and leaves the message as
it was; after a blur followed by a focus the banner "App backgrounded - Content Hidden" is
still shown over the visible page. -/
theorem handleFocus_keeps_message :
    (∀ s : ReaderState,
      (handleEvent s .focus).state.isWindowFocused = true ∧
        (handleEvent s .focus).state.securityWarning = s.securityWarning) ∧
      (readerScreen {} {}
        (handleEvent (handleEvent ReaderState.initial .blur).state .focus).state).warningBanner =
          some "App backgrounded - Content Hidden" ∧
      (readerScreen {} {}
        (handleEvent (handleEvent ReaderState.initial .blur).state .focus).state).pageAreaHidden =
          false := by
  refine ⟨fun s => ⟨rfl, rfl⟩, by decide, by decide⟩

/-- C16: the hiding of the page area and the black-out are decided by the monitor alone.  Two
readers that agree on `isWindowFocused` and `isObscured` agree on both, whatever their book,
user, page and lock state; the page area is hidden exactly when the window is not focused and
the overlay is shown exactly when `isObscured` holds. -/
theorem leak_gating_independent_of_lock (book1 book2 : Book) (user1 user2 : User)
    (s1 s2 : ReaderState) (hf : s1.isWindowFocused = s2.isWindowFocused)
    (ho : s1.isObscured = s2.isObscured) :
    (readerScreen book1 user1 s1).pageAreaHidden = (readerScreen book2 user2 s2).pageAreaHidden ∧
      (readerScreen book1 user1 s1).securityOverlay =
        (readerScreen book2 user2 s2).securityOverlay ∧
      ((readerScreen book1 user1 s1).pageAreaHidden = true ↔ s1.isWindowFocused = false) ∧
      ((readerScreen book1 user1 s1).securityOverlay = true ↔ s1.isObscured = true) := by
  simp [readerScreen, hf, ho]

/-- Instance: a locked page and an unlocked page of different books, both blurred. -/
theorem leak_gating_independent_of_lock_witness :
    (readerScreen { totalPages := .num (.fin 20) }
          { totalFee := .num (.fin 10000), paidAmount := .num (.fin 5000) }
          { pageNum := .fin 11, isWindowFocused := false }).pageAreaHidden =
        (readerScreen { totalPages := .num (.fin 50), hasFile := true }
          { totalFee := .num (.fin 10000), paidAmount := .num (.fin 10000) }
          { pageNum := .fin 3, isWindowFocused := false }).pageAreaHidden ∧
      (readerScreen { totalPages := .num (.fin 20) }
          { totalFee := .num (.fin 10000), paidAmount := .num (.fin 5000) }
          { pageNum := .fin 11, isWindowFocused := false }).securityOverlay =
        (readerScreen { totalPages := .num (.fin 50), hasFile := true }
          { totalFee := .num (.fin 10000), paidAmount := .num (.fin 10000) }
          { pageNum := .fin 3, isWindowFocused := false }).securityOverlay ∧
      ((readerScreen { totalPages := .num (.fin 20) }
          { totalFee := .num (.fin 10000), paidAmount := .num (.fin 5000) }
          { pageNum := .fin 11, isWindowFocused := false }).pageAreaHidden = true ↔
        ReaderState.isWindowFocused { pageNum := .fin 11, isWindowFocused := false } = false) ∧
      ((readerScreen { totalPages := .num (.fin 20) }
          { totalFee := .num (.fin 10000), paidAmount := .num (.fin 5000) }
          { pageNum := .fin 11, isWindowFocused := false }).securityOverlay = true ↔
        ReaderState.isObscured { pageNum := .fin 11, isWindowFocused := false } = true) :=
  leak_gating_independent_of_lock _ _ _ _ _ _ rfl rfl

/-- C17: from every reader state a context-menu event has its default action prevented, sets
no timer and leaves the whole reader state, so `isWindowFocused`, `isObscured` and the
message, as it was. -/
theorem handleContext_suppresses_only (s : ReaderState) :
    (handleEvent s .contextmenu).defaultPrevented = true ∧
      (handleEvent s .contextmenu).state = s ∧
      (handleEvent s .contextmenu).timeout = none ∧
      (handleEvent s .contextmenu).state.isWindowFocused = s.isWindowFocused ∧
      (handleEvent s .contextmenu).state.isObscured = s.isObscured ∧
      (handleEvent s .contextmenu).state.securityWarning = s.securityWarning := by
  simp [handleEvent, handleContext]

/-! ## Timers of the monitor -/

theorem foldl_obscureTimeout (l : List ℕ) (r : ReaderState) :
    l.foldl (fun s _ => obscureTimeout s) r = if l = [] then r else obscureTimeout r := by
  induction l generalizing r with
  | nil => rfl
  | cons a l ih =>
    rw [List.foldl_cons, ih, if_neg (List.cons_ne_nil _ _)]
    split_ifs <;> rfl

theorem fireDue_reader (m : Monitor) (t : ℕ) :
    (m.fireDue t).reader =
      if (m.timers.filter fun due => decide (due ≤ t)) = [] then m.reader
      else obscureTimeout m.reader := by
  unfold Monitor.fireDue
  exact foldl_obscureTimeout _ _

theorem dispatch_trigger_timers (m : Monitor) (u : ℕ) :
    (m.dispatch u (.keydown "PrintScreen" false false)).timers =
      (m.timers.filter fun due => decide (u < due)) ++ [u + 2000] := by
  simp [Monitor.dispatch, Monitor.fireDue, handleEvent, handleKeyDown, isScreenshotKey]

theorem dispatch_trigger_reader (m : Monitor) (u : ℕ) :
    (m.dispatch u (.keydown "PrintScreen" false false)).reader =
      { m.reader with isObscured := true, securityWarning := "Screenshots disabled" } := by
  have h := fireDue_reader m u
  simp only [Monitor.dispatch, handleEvent, handleKeyDown, isScreenshotKey]
  simp only [beq_self_eq_true, Bool.true_or, if_true]
  rw [h]
  split_ifs <;> rfl

theorem run_triggers_cons (m : Monitor) (u : ℕ) (ts : List ℕ) :
    m.run (screenshotTriggers (u :: ts)) =
      (m.dispatch u (.keydown "PrintScreen" false false)).run (screenshotTriggers ts) := rfl

theorem run_triggers_timers_origin (ts : List ℕ) :
    ∀ (m : Monitor) (d : ℕ), d ∈ (m.run (screenshotTriggers ts)).timers →
      d ∈ m.timers ∨ ∃ u ∈ ts, d = u + 2000 := by
  induction ts with
  | nil => intro m d h; exact Or.inl h
  | cons w ts ih =>
    intro m d h
    rw [run_triggers_cons] at h
    rcases ih _ d h with h1 | ⟨u, hu, rfl⟩
    · rw [dispatch_trigger_timers] at h1
      rcases List.mem_append.mp h1 with h2 | h2
      · exact Or.inl (List.mem_filter.mp h2).1
      · exact Or.inr ⟨w, List.mem_cons_self _ _, by simpa using h2⟩
    · exact Or.inr ⟨u, List.mem_cons_of_mem _ hu, rfl⟩

theorem run_triggers_timer_kept (ts : List ℕ) :
    ∀ (m : Monitor) (d : ℕ), d ∈ m.timers → (∀ v ∈ ts, v < d) →
      d ∈ (m.run (screenshotTriggers ts)).timers := by
  induction ts with
  | nil => intro m d h _; exact h
  | cons w ts ih =>
    intro m d h hlt
    rw [run_triggers_cons]
    apply ih
    · rw [dispatch_trigger_timers]
      apply List.mem_append_left
      exact List.mem_filter.mpr ⟨h, by simpa using hlt w (List.mem_cons_self _ _)⟩
    · exact fun v hv => hlt v (List.mem_cons_of_mem _ hv)

theorem run_triggers_own_timer (ts : List ℕ) :
    ∀ (m : Monitor) (u : ℕ), u ∈ ts → (∀ v ∈ ts, v < u + 2000) →
      u + 2000 ∈ (m.run (screenshotTriggers ts)).timers := by
  induction ts with
  | nil => intro m u h; cases h
  | cons w ts ih =>
    intro m u hu hlt
    rw [run_triggers_cons]
    rcases List.mem_cons.mp hu with rfl | hu'
    · apply run_triggers_timer_kept
      · rw [dispatch_trigger_timers]
        exact List.mem_append_right _ (List.mem_singleton_self _)
      · exact fun v hv => hlt v (List.mem_cons_of_mem _ hv)
    · exact ih _ u hu' (fun v hv => hlt v (List.mem_cons_of_mem _ hv))

theorem run_triggers_reader (ts : List ℕ) :
    ∀ (m : Monitor), ts ≠ [] →
      (m.run (screenshotTriggers ts)).reader =
        { m.reader with isObscured := true, securityWarning := "Screenshots disabled" } := by
  induction ts with
  | nil => intro m h; exact absurd rfl h
  | cons w ts ih =>
    intro m _
    rw [run_triggers_cons]
    by_cases hts : ts = []
    · subst hts
      exact dispatch_trigger_reader m w
    · rw [ih _ hts, dispatch_trigger_reader]

theorem run_triggers_timers_ne_nil (ts : List ℕ) :
    ∀ (m : Monitor), ts ≠ [] → (m.run (screenshotTriggers ts)).timers ≠ [] := by
  induction ts with
  | nil => intro m h; exact absurd rfl h
  | cons w ts ih =>
    intro m _
    rw [run_triggers_cons]
    by_cases hts : ts = []
    · subst hts
      show (m.dispatch w (.keydown "PrintScreen" false false)).timers ≠ []
      rw [dispatch_trigger_timers]
      simp
    · exact ih _ hts

theorem filter_screenshotTriggers (ts : List ℕ) (t : ℕ) :
    ((screenshotTriggers ts).filter fun (te : ℕ × WindowEvent) => decide (te.1 ≤ t)) =
      screenshotTriggers (ts.filter fun u => decide (u ≤ t)) := by
  unfold screenshotTriggers
  rw [List.filter_map]
  rfl

/-- C12 (amended): for screenshot triggers at times `t1 <= ... <= tn` and no other event, the
black-out with the message "Screenshots disabled" is shown from `t1` until just before
`t1 + 2000`; at `t1 + 2000` the timer of the first trigger clears both, also when later
triggers arrived in between, and they stay cleared until the next trigger; once every
trigger is 2000 ms old the reader is back in its initial monitor state with no timer left. -/
theorem blackout_ends_with_first_timer (t1 : ℕ) (rest : List ℕ)
    (hsorted : List.Pairwise (fun a b => a ≤ b) (t1 :: rest)) :
    (∀ t, t1 ≤ t → t < t1 + 2000 →
        (monitorAt (screenshotTriggers (t1 :: rest)) t).reader.isObscured = true ∧
          (monitorAt (screenshotTriggers (t1 :: rest)) t).reader.securityWarning =
            "Screenshots disabled") ∧
      (∀ t, t1 + 2000 ≤ t → (∀ u ∈ rest, u < t1 + 2000 ∨ t < u) →
        (monitorAt (screenshotTriggers (t1 :: rest)) t).reader.isObscured = false ∧
          (monitorAt (screenshotTriggers (t1 :: rest)) t).reader.securityWarning = "") ∧
      (∀ t, (∀ u ∈ t1 :: rest, u + 2000 ≤ t) →
        monitorAt (screenshotTriggers (t1 :: rest)) t = {}) := by
  have hmin : ∀ u ∈ rest, t1 ≤ u := (List.pairwise_cons.mp hsorted).1
  refine ⟨?_, ?_, ?_⟩
  · intro t h1 h2
    unfold monitorAt
    rw [filter_screenshotTriggers, fireDue_reader]
    have hP : (List.filter (fun u => decide (u ≤ t)) (t1 :: rest)) ≠ [] := by
      simp [List.filter_cons, h1]
    have hnone : ((Monitor.run {} (screenshotTriggers
        (List.filter (fun u => decide (u ≤ t)) (t1 :: rest)))).timers.filter
          fun due => decide (due ≤ t)) = [] := by
      rw [List.filter_eq_nil_iff]
      intro d hd
      rcases run_triggers_timers_origin _ _ d hd with h | ⟨u, hu, rfl⟩
      · cases h
      · have hu' := (List.mem_filter.mp hu).1
        have : t1 ≤ u := by
          rcases List.mem_cons.mp hu' with rfl | hr
          · exact le_rfl
          · exact hmin u hr
        simp only [decide_eq_true_eq, not_le]
        omega
    rw [if_pos hnone, run_triggers_reader _ _ hP]
    exact ⟨rfl, rfl⟩
  · intro t h1 hgap
    unfold monitorAt
    rw [filter_screenshotTriggers, fireDue_reader]
    have hmem : t1 ∈ List.filter (fun u => decide (u ≤ t)) (t1 :: rest) :=
      List.mem_filter.mpr ⟨List.mem_cons_self _ _, by simp; omega⟩
    have hown := run_triggers_own_timer _ {} t1 hmem (by
      intro v hv
      obtain ⟨hv1, hv2⟩ := List.mem_filter.mp hv
      have hv2' : v ≤ t := by simpa using hv2
      rcases List.mem_cons.mp hv1 with rfl | hr
      · omega
      · rcases hgap v hr with h | h
        · exact h
        · omega)
    have hsome : ((Monitor.run {} (screenshotTriggers
        (List.filter (fun u => decide (u ≤ t)) (t1 :: rest)))).timers.filter
          fun due => decide (due ≤ t)) ≠ [] := by
      intro h
      have := List.filter_eq_nil_iff.mp h (t1 + 2000) hown
      simp at this
      omega
    rw [if_neg hsome]
    exact ⟨rfl, rfl⟩
  · intro t hall
    have hfilter : List.filter (fun u => decide (u ≤ t)) (t1 :: rest) = t1 :: rest := by
      rw [List.filter_eq_self]
      intro u hu
      have := hall u hu
      simp only [decide_eq_true_eq]
      omega
    have hdue : ∀ d ∈ (Monitor.run {} (screenshotTriggers (t1 :: rest))).timers, d ≤ t := by
      intro d hd
      rcases run_triggers_timers_origin _ _ d hd with h | ⟨u, hu, rfl⟩
      · cases h
      · exact hall u hu
    have hne := run_triggers_timers_ne_nil (t1 :: rest) {} (List.cons_ne_nil _ _)
    have hreader := run_triggers_reader (t1 :: rest) {} (List.cons_ne_nil _ _)
    unfold monitorAt
    rw [filter_screenshotTriggers, hfilter]
    have h1 : ((Monitor.run {} (screenshotTriggers (t1 :: rest))).fireDue t).reader =
        ReaderState.initial := by
      rw [fireDue_reader, if_neg, hreader]
      · rfl
      · intro h
        obtain ⟨d, hd⟩ := List.exists_mem_of_ne_nil _ hne
        have := List.filter_eq_nil_iff.mp h d hd
        simp only [decide_eq_true_eq, not_le] at this
        have := hdue d hd
        omega
    have h2 : ((Monitor.run {} (screenshotTriggers (t1 :: rest))).fireDue t).timers = [] := by
      unfold Monitor.fireDue
      simp only
      rw [List.filter_eq_nil_iff]
      intro d hd
      have := hdue d hd
      simp only [decide_eq_true_eq, not_lt]
      exact this
    calc (Monitor.run {} (screenshotTriggers (t1 :: rest))).fireDue t
        = { reader := ((Monitor.run {} (screenshotTriggers (t1 :: rest))).fireDue t).reader,
            timers := ((Monitor.run {} (screenshotTriggers (t1 :: rest))).fireDue t).timers } :=
          rfl
      _ = {} := by rw [h1, h2]

/-- Instance: triggers at 0 ms and 1000 ms. -/
theorem blackout_ends_with_first_timer_witness :
    (∀ t, 0 ≤ t → t < 0 + 2000 →
        (monitorAt (screenshotTriggers (0 :: [1000])) t).reader.isObscured = true ∧
          (monitorAt (screenshotTriggers (0 :: [1000])) t).reader.securityWarning =
            "Screenshots disabled") ∧
      (∀ t, 0 + 2000 ≤ t → (∀ u ∈ [1000], u < 0 + 2000 ∨ t < u) →
        (monitorAt (screenshotTriggers (0 :: [1000])) t).reader.isObscured = false ∧
          (monitorAt (screenshotTriggers (0 :: [1000])) t).reader.securityWarning = "") ∧
      (∀ t, (∀ u ∈ 0 :: [1000], u + 2000 ≤ t) →
        monitorAt (screenshotTriggers (0 :: [1000])) t = {}) :=
  blackout_ends_with_first_timer 0 [1000] (by decide)

/-- C12 (counterexample): triggers at 0 ms and 1000 ms.  At 2500 ms, less than 2000 ms after
the last trigger, the black-out is gone and the message is empty, while the timer of the
second trigger is still pending. -/
theorem blackout_gone_before_last_timer :
    (monitorAt (screenshotTriggers [0, 1000]) 1999).reader.isObscured = true ∧
      (monitorAt (screenshotTriggers [0, 1000]) 2500).reader.isObscured = false ∧
      (monitorAt (screenshotTriggers [0, 1000]) 2500).reader.securityWarning = "" ∧
      (monitorAt (screenshotTriggers [0, 1000]) 2500).timers = [3000] := by
  decide

/-! ## Asynchronous rendering -/

theorem singleTask_step (p : RenderPipeline) (st : RenderStep) (h : singleTask p) :
    singleTask (p.step st) := by
  cases st with
  | effect r => exact h
  | pageResolved i =>
    simp only [RenderPipeline.step]
    split_ifs with hi
    · refine Or.inr ⟨i, rfl, ?_, rfl⟩
      have hc : cancelCurrent p = [] := by
        unfold cancelCurrent
        rcases h with ⟨h1, _⟩ | ⟨j, h1, h2, _⟩
        · rw [h1]; cases p.renderTaskRef <;> simp
        · rw [h1, h2]; simp
      show cancelCurrent p ++ [i] = [i]
      rw [hc]; rfl
    · exact h
  | renderFinished i =>
    simp only [RenderPipeline.step]
    split_ifs with hi
    · rcases h with ⟨h1, _⟩ | ⟨j, h1, h2, _⟩
      · rw [h1] at hi; cases hi
      · rw [h2] at hi
        have hij : i = j := by simpa using hi
        subst hij
        refine Or.inl ⟨?_, ?_⟩
        · show p.rendering.erase i = []
          rw [h2]; simp
        · show some i = p.renderTaskRef
          exact h1.symm
    · exact h

/-- Whatever the steps, at most one render task runs, and once it has finished the canvas
shows the run whose page resolved last. -/
theorem singleTask_run (steps : List RenderStep) : singleTask (RenderPipeline.run {} steps) := by
  have key : ∀ (p : RenderPipeline), singleTask p → singleTask (p.run steps) := by
    induction steps with
    | nil => exact fun p h => h
    | cons st steps ih => exact fun p h => ih _ (singleTask_step p st h)
  exact key {} (Or.inl ⟨rfl, rfl⟩)

/-- C18 (fails on the code): the effect runs for page 2 and then for page 1.  When the page
of the later run resolves first, the callback of the earlier run cancels the render task of
the later one and draws page 2: with nothing left to run the canvas shows the earlier
request.  When the pages resolve in the order of the runs, it shows the later one. -/
theorem stale_render_overwrites_newer :
    RenderPipeline.run {}
        [.effect ⟨.fin 2, .fin 1⟩, .effect ⟨.fin 1, .fin 1⟩,
          .pageResolved 1, .pageResolved 0, .renderFinished 0] =
      { requests := [⟨.fin 2, .fin 1⟩, ⟨.fin 1, .fin 1⟩], fetching := [], rendering := [],
        renderTaskRef := some 0, canvas := some 0 } ∧
      (RenderPipeline.run {}
        [.effect ⟨.fin 2, .fin 1⟩, .effect ⟨.fin 1, .fin 1⟩,
          .pageResolved 1, .pageResolved 0, .renderFinished 0]).shown =
        some ⟨.fin 2, .fin 1⟩ ∧
      (RenderPipeline.run {}
        [.effect ⟨.fin 2, .fin 1⟩, .effect ⟨.fin 1, .fin 1⟩,
          .pageResolved 1, .renderFinished 1, .pageResolved 0, .renderFinished 0]).shown =
        some ⟨.fin 2, .fin 1⟩ ∧
      (RenderPipeline.run {}
        [.effect ⟨.fin 2, .fin 1⟩, .effect ⟨.fin 1, .fin 1⟩,
          .pageResolved 0, .pageResolved 1, .renderFinished 1]).shown =
        some ⟨.fin 1, .fin 1⟩ := by
  decide

/-! ## Text-only books -/

/-- C19 (counterexample): a text-only book whose stored text is the empty string shows the
placeholder on an unlocked page, not the stored text. -/
theorem empty_text_shows_placeholder :
    isLocked { totalPages := .num (.fin 20), content := some "" }
        { totalFee := .num (.fin 10000), paidAmount := .num (.fin 10000) } (.fin 1) = false ∧
      pageView { totalPages := .num (.fin 20), content := some "" }
        { totalFee := .num (.fin 10000), paidAmount := .num (.fin 10000) } {} =
          PageView.text "No content found." ∧
      pageView { totalPages := .num (.fin 20), content := some "" }
        { totalFee := .num (.fin 10000), paidAmount := .num (.fin 10000) } {} ≠
          PageView.text "" := by
  decide!

/-- C19 (amended): on an unlocked page of a book without an uploaded file the reader shows
the stored text verbatim when it is present and not empty, and the literal
"No content found." when it is absent or empty. -/
theorem text_only_page_view (book : Book) (user : User) (s : ReaderState)
    (hfile : book.hasFile = false) (hunlocked : isLocked book user s.pageNum = false) :
    (∀ t : String, book.content = some t → t ≠ "" → pageView book user s = PageView.text t) ∧
      (book.content = none ∨ book.content = some "" →
        pageView book user s = PageView.text "No content found.") := by
  constructor
  · intro t ht hne
    simp [pageView, hunlocked, hfile, contentOrDefault, ht, hne]
  · rintro (h | h) <;> simp [pageView, hunlocked, hfile, contentOrDefault, h]

/-- Instance: page 1 of the fully paid text-only book with text "Unit 1". -/
theorem text_only_page_view_witness :
    (∀ t : String,
        Book.content { totalPages := .num (.fin 135), content := some "Unit 1" } = some t →
        t ≠ "" →
        pageView { totalPages := .num (.fin 135), content := some "Unit 1" }
          { totalFee := .num (.fin 10000), paidAmount := .num (.fin 10000) } {} =
            PageView.text t) ∧
      (Book.content { totalPages := .num (.fin 135), content := some "Unit 1" } = none ∨
          Book.content { totalPages := .num (.fin 135), content := some "Unit 1" } = some "" →
        pageView { totalPages := .num (.fin 135), content := some "Unit 1" }
          { totalFee := .num (.fin 10000), paidAmount := .num (.fin 10000) } {} =
            PageView.text "No content found.") :=
  text_only_page_view _ _ _ rfl (by decide!)

/-! ## Reporting -/

/-- C20 (counterexample): on page 3 the text "blurry" is forwarded as "Page 3: blurry", with
a capital letter, not as "page 3: blurry". -/
theorem report_issue_text_capitalised :
    (reportIssueClick { title := "Rural Development Strategies" }
        { id := "NGO-2025-01" } { pageNum := .fin 3 } (some "blurry")).call =
        some { userId := "NGO-2025-01", context := "Rural Development Strategies",
               issue := "Page 3: blurry" } ∧
      (reportIssueClick { title := "Rural Development Strategies" }
        { id := "NGO-2025-01" } { pageNum := .fin 3 } (some "blurry")).call ≠
        some { userId := "NGO-2025-01", context := "Rural Development Strategies",
               issue := "page 3: blurry" } := by
  decide!

/-- C20 (amended): for a non-empty answer `t` the flag button calls `onReportIssue` with the
viewer id, the book title and "Page N: " followed by `t`, where `N` is the page number as
text; `handleReportIssue` puts these three unchanged into a new report with status
"Pending" at the head of the reports; the reader state is as it was. -/
theorem report_issue_forwarded (now : ℤ) (reportTime logTime : String) (app : AppState)
    (book : Book) (user : User) (s : ReaderState) (t : String) (ht : t ≠ "") :
    (reportIssueClick book user s (some t)).call =
        some { userId := user.id, context := book.title,
               issue := "Page " ++ s.pageNum.toStr ++ ": " ++ t } ∧
      (reportFromReader now reportTime logTime app book user s (some t)).1.reports =
        { id := now, userId := user.id, context := book.title,
          issue := "Page " ++ s.pageNum.toStr ++ ": " ++ t,
          status := "Pending", time := reportTime } :: app.reports ∧
      (reportFromReader now reportTime logTime app book user s (some t)).2 = s := by
  simp [reportFromReader, reportIssueClick, ht, handleReportIssue, addLog]

/-- Instance: the text "blurry" on page 3. -/
theorem report_issue_forwarded_witness :
    (reportIssueClick { title := "Rural Development Strategies" }
        { id := "NGO-2025-01" } { pageNum := .fin 3 } (some "blurry")).call =
        some { userId := User.id { id := "NGO-2025-01" },
               context := Book.title { title := "Rural Development Strategies" },
               issue := "Page " ++ (ReaderState.pageNum { pageNum := .fin 3 }).toStr ++ ": " ++
                 "blurry" } ∧
      (reportFromReader 1767240000000 "10:05 AM" "10:05 AM" {}
        { title := "Rural Development Strategies" }
        { id := "NGO-2025-01" } { pageNum := .fin 3 } (some "blurry")).1.reports =
        { id := 1767240000000, userId := User.id { id := "NGO-2025-01" },
          context := Book.title { title := "Rural Development Strategies" },
          issue := "Page " ++ (ReaderState.pageNum { pageNum := .fin 3 }).toStr ++ ": " ++
            "blurry",
          status := "Pending", time := "10:05 AM" } :: AppState.reports {} ∧
      (reportFromReader 1767240000000 "10:05 AM" "10:05 AM" {}
        { title := "Rural Development Strategies" }
        { id := "NGO-2025-01" } { pageNum := .fin 3 } (some "blurry")).2 =
        { pageNum := .fin 3 } :=
  report_issue_forwarded _ _ _ _ _ _ _ _ (by decide)

/-! ## Login -/

theorem addLog_view (t : String) (app : AppState) (a d : String) :
    (addLog t app a d).view = app.view := rfl

/-- C21: from the login screen, `handleLogin` with id `admin` and password `admin` opens the
admin view whatever the maintenance mode is; while `maintenanceMode` is enabled no id and
password open the student view; and with `maintenanceMode` disabled a login other than
`admin`/`admin` opens the student view if and only if some user has exactly that id and that
password. -/
theorem handleLogin_maintenance_and_credentials (logTime : String) (app : AppState)
    (id pass : String) (hview : app.view = View.login) :
    (handleLogin logTime app "admin" "admin").app.view = View.admin ∧
    (app.settings.maintenanceMode = true →
      (handleLogin logTime app id pass).app.view ≠ View.student) ∧
    (app.settings.maintenanceMode = false → ¬ (id = "admin" ∧ pass = "admin") →
      ((handleLogin logTime app id pass).app.view = View.student ↔
        ∃ u ∈ app.users, u.id = id ∧ u.password = pass)) := by
  refine ⟨by simp [handleLogin], ?_, ?_⟩
  · intro hm
    unfold handleLogin
    by_cases ha : id = "admin" ∧ pass = "admin"
    · rw [if_pos ha]; simp
    · rw [if_neg ha, if_pos hm]; simp [hview]
  · intro hm ha
    unfold handleLogin
    rw [if_neg ha, if_neg (by simp [hm])]
    cases hf : app.users.find? fun u => decide (u.id = id ∧ u.password = pass) with
    | none =>
      simp only [hview]
      constructor
      · intro h; cases h
      · rintro ⟨u, hu, h1, h2⟩
        have := List.find?_eq_none.mp hf u hu
        simp [h1, h2] at this
    | some user =>
      simp only [addLog_view]
      refine ⟨fun _ => ⟨user, List.mem_of_find?_eq_some hf, ?_⟩, fun _ => trivial⟩
      simpa using List.find?_some hf

/-- The student of the initial user list cannot log in under maintenance, the admin can, and
without maintenance the student can. -/
theorem handleLogin_maintenance_and_credentials_witness :
    (handleLogin "10:00"
      { users := [{ id := "NGO-2025-01", password := "123" }],
        settings := { maintenanceMode := true } } "admin" "admin").app.view = View.admin ∧
    (handleLogin "10:00"
      { users := [{ id := "NGO-2025-01", password := "123" }],
        settings := { maintenanceMode := true } } "NGO-2025-01" "123").app.view ≠
      View.student ∧
    (handleLogin "10:00" { users := [{ id := "NGO-2025-01", password := "123" }] }
      "NGO-2025-01" "123").app.view = View.student :=
  ⟨(handleLogin_maintenance_and_credentials "10:00"
      { users := [{ id := "NGO-2025-01", password := "123" }],
        settings := { maintenanceMode := true } } "NGO-2025-01" "123" rfl).1,
    (handleLogin_maintenance_and_credentials "10:00"
      { users := [{ id := "NGO-2025-01", password := "123" }],
        settings := { maintenanceMode := true } } "NGO-2025-01" "123" rfl).2.1 rfl,
    ((handleLogin_maintenance_and_credentials "10:00"
      { users := [{ id := "NGO-2025-01", password := "123" }] } "NGO-2025-01" "123" rfl).2.2 rfl
        (by decide)).mpr ⟨{ id := "NGO-2025-01", password := "123" }, by simp, rfl, rfl⟩⟩

/-! ## Physical library -/

theorem addLog_books (t : String) (app : AppState) (a d : String) :
    (addLog t app a d).books = app.books := rfl

theorem addLog_users (t : String) (app : AppState) (a d : String) :
    (addLog t app a d).users = app.users := rfl

theorem isDouble_zero : isDouble 0 := by decide!

theorem JSNum.le_zero_sub_one {s : JSNum} (h0 : JSNum.le (.fin 0) s = true)
    (h1 : JSNum.lt s (.fin 1) = false) : JSNum.le (.fin 0) (JSNum.sub s (.fin 1)) = true := by
  have hneg : JSNum.neg (.fin 1) = .fin (-1) := by simp [JSNum.neg]
  rw [JSNum.sub, hneg]
  rcases JSNum.le_fin_left_cases h0 with rfl | ⟨rfl, -⟩ | ⟨x, rfl, -⟩
  · rfl
  · revert h1; decide
  · have hx : (1 : ℚ) ≤ x := by
      simpa [JSNum.lt, JSNum.toRat] using h1
    rw [JSNum.add_fin_fin]
    exact JSNum.le_ofRat _ isDouble_zero (by linarith)

theorem JSNum.le_zero_add_one {s : JSNum} (h0 : JSNum.le (.fin 0) s = true) :
    JSNum.le (.fin 0) (JSNum.add s (.fin 1)) = true := by
  rcases JSNum.le_fin_left_cases h0 with rfl | ⟨rfl, -⟩ | ⟨x, rfl, hx⟩
  · rfl
  · decide!
  · rw [JSNum.add_fin_fin]
    exact JSNum.le_ofRat _ isDouble_zero (by linarith)

theorem map_stock_id (f : Book → JSVal) (bookId : String) (books : List Book) :
    (books.map fun b => if b.id = bookId then { b with stock := f b } else b).map Book.id =
      books.map Book.id := by
  rw [List.map_map]
  apply List.map_congr_left
  intro b _
  simp only [Function.comp]
  split_ifs <;> rfl

theorem eq_of_nodup_id {books : List Book} (h : (books.map Book.id).Nodup) {a b : Book}
    (ha : a ∈ books) (hb : b ∈ books) (hab : a.id = b.id) : a = b :=
  List.inj_on_of_nodup_map h ha hb hab

theorem find_book_of_mem {books : List Book} (h : (books.map Book.id).Nodup) {book : Book}
    (hb : book ∈ books) : (books.find? fun b => decide (b.id = book.id)) = some book := by
  cases hf : books.find? fun b => decide (b.id = book.id) with
  | none =>
    have := List.find?_eq_none.mp hf book hb
    simp at this
  | some b =>
    have h1 : b.id = book.id := by simpa using List.find?_some hf
    rw [eq_of_nodup_id h (List.mem_of_find?_eq_some hf) hb h1]

theorem issuePhysicalBook_stock (issueDate logTime : String) (confirmAnswer : Bool)
    (app : AppState) (userId bookId : String) (hid : (app.books.map Book.id).Nodup)
    (h0 : ∀ b ∈ app.books, JSNum.le (.fin 0) b.stock.toNumber = true) :
    (issuePhysicalBook issueDate logTime confirmAnswer app userId bookId).app.books.map Book.id =
        app.books.map Book.id ∧
      ∀ b ∈ (issuePhysicalBook issueDate logTime confirmAnswer app userId bookId).app.books,
        JSNum.le (.fin 0) b.stock.toNumber = true := by
  unfold issuePhysicalBook
  cases hf : app.books.find? fun b => decide (b.id = bookId) with
  | none => exact ⟨rfl, h0⟩
  | some book =>
    have hmem := List.mem_of_find?_eq_some hf
    have hbid : book.id = bookId := by simpa using List.find?_some hf
    dsimp only
    by_cases hlt : JSNum.lt book.stock.toNumber (.fin 1) = true
    · rw [if_pos hlt]; exact ⟨rfl, h0⟩
    · rw [if_neg hlt]
      cases hu : app.users.find? fun u => decide (u.id = userId) with
      | none => exact ⟨rfl, h0⟩
      | some user =>
        dsimp only
        by_cases hc : JSNum.lt user.paidAmount.toNumber
            (JSNum.mul user.totalFee.toNumber (JSNum.lit (1 / 2))) = true ∧ confirmAnswer = false
        · rw [if_pos hc]; exact ⟨rfl, h0⟩
        · rw [if_neg hc]
          simp only [addLog_books]
          refine ⟨map_stock_id _ _ _, ?_⟩
          intro b hb
          obtain ⟨a, ha, rfl⟩ := List.mem_map.mp hb
          by_cases hab : a.id = bookId
          · rw [if_pos hab]
            have : a = book := eq_of_nodup_id hid ha hmem (hab.trans hbid.symm)
            subst this
            exact JSNum.le_zero_sub_one (h0 a ha) (by simpa using hlt)
          · rw [if_neg hab]; exact h0 a ha

theorem returnPhysicalBook_stock (logTime : String) (confirmAnswer : Bool)
    (app : AppState) (userId bookId : String)
    (h0 : ∀ b ∈ app.books, JSNum.le (.fin 0) b.stock.toNumber = true) :
    (returnPhysicalBook logTime confirmAnswer app userId bookId).app.books.map Book.id =
        app.books.map Book.id ∧
      ∀ b ∈ (returnPhysicalBook logTime confirmAnswer app userId bookId).app.books,
        JSNum.le (.fin 0) b.stock.toNumber = true := by
  unfold returnPhysicalBook
  by_cases hc : confirmAnswer = false
  · rw [if_pos hc]; exact ⟨rfl, h0⟩
  · rw [if_neg hc]
    simp only [addLog_books]
    refine ⟨map_stock_id _ _ _, ?_⟩
    intro b hb
    obtain ⟨a, ha, rfl⟩ := List.mem_map.mp hb
    by_cases hab : a.id = bookId
    · rw [if_pos hab]; exact JSNum.le_zero_add_one (h0 a ha)
    · rw [if_neg hab]; exact h0 a ha

theorem libraryStep_stock (app : AppState) (req : LibraryRequest)
    (hid : (app.books.map Book.id).Nodup)
    (h0 : ∀ b ∈ app.books, JSNum.le (.fin 0) b.stock.toNumber = true) :
    ((libraryStep app req).books.map Book.id).Nodup ∧
      ∀ b ∈ (libraryStep app req).books, JSNum.le (.fin 0) b.stock.toNumber = true := by
  cases req with
  | issue userId bookId issueDate logTime confirmAnswer =>
    have h := issuePhysicalBook_stock issueDate logTime confirmAnswer app userId bookId hid h0
    exact ⟨by simpa only [libraryStep, h.1] using hid, h.2⟩
  | giveBack userId bookId logTime confirmAnswer =>
    have h := returnPhysicalBook_stock logTime confirmAnswer app userId bookId h0
    exact ⟨by simpa only [libraryStep, h.1] using hid, h.2⟩

theorem foldl_libraryStep_stock (reqs : List LibraryRequest) (app : AppState)
    (hid : (app.books.map Book.id).Nodup)
    (h0 : ∀ b ∈ app.books, JSNum.le (.fin 0) b.stock.toNumber = true) :
    ∀ b ∈ (reqs.foldl libraryStep app).books, JSNum.le (.fin 0) b.stock.toNumber = true := by
  induction reqs generalizing app with
  | nil => exact h0
  | cons r rs ih =>
    have h := libraryStep_stock app r hid h0
    exact ih (libraryStep app r) h.1 h.2

/-- C24: with book ids that are pairwise distinct and stocks that are not negative,
`issuePhysicalBook` on a book whose stock is below 1 raises "Out of Stock!" and leaves the whole
state as it was, and after every finite sequence of issue and return clicks the stock of every
book is still at least 0. -/
theorem stock_never_negative (app : AppState) (hid : (app.books.map Book.id).Nodup)
    (h0 : ∀ b ∈ app.books, JSNum.le (.fin 0) b.stock.toNumber = true) :
    (∀ (issueDate logTime userId : String) (confirmAnswer : Bool) (book : Book),
      book ∈ app.books → JSNum.lt book.stock.toNumber (.fin 1) = true →
        issuePhysicalBook issueDate logTime confirmAnswer app userId book.id =
          { app := app, alert := some "Out of Stock!" }) ∧
      ∀ reqs : List LibraryRequest, ∀ b ∈ (reqs.foldl libraryStep app).books,
        JSNum.le (.fin 0) b.stock.toNumber = true := by
  refine ⟨?_, fun reqs => foldl_libraryStep_stock reqs app hid h0⟩
  intro issueDate logTime userId confirmAnswer book hb hlt
  unfold issuePhysicalBook
  rw [find_book_of_mem hid hb]
  dsimp only
  rw [if_pos hlt]

/-- A book without stock is refused; with one copy in stock the first issue takes it, the
second is refused, the return brings it back, and the stock ends at 1. -/
theorem stock_never_negative_witness :
    issuePhysicalBook "2025-06-01" "10:00" true
        { books := [{ id := "b1", stock := .num (.fin 0) }], users := [{ id := "u1" }] }
        "u1" "b1" =
      { app := { books := [{ id := "b1", stock := .num (.fin 0) }], users := [{ id := "u1" }] },
        alert := some "Out of Stock!" } ∧
    (([LibraryRequest.issue "u1" "b1" "2025-06-01" "10:00" true,
        LibraryRequest.issue "u1" "b1" "2025-06-01" "10:01" true,
        LibraryRequest.giveBack "u1" "b1" "10:02" true].foldl libraryStep
          { books := [{ id := "b1", stock := .num (.fin 1) }],
            users := [{ id := "u1" }] }).books = [{ id := "b1", stock := .num (.fin 1) }] ∧
      JSNum.le (.fin 0) (Book.stock { id := "b1", stock := .num (.fin 1) }).toNumber = true) :=
  ⟨(stock_never_negative
      { books := [{ id := "b1", stock := .num (.fin 0) }], users := [{ id := "u1" }] }
      (by decide) (by decide!)).1 "2025-06-01" "10:00" "u1" true
      { id := "b1", stock := .num (.fin 0) } (by decide!) (by decide!),
    by decide!,
    (stock_never_negative
      { books := [{ id := "b1", stock := .num (.fin 1) }], users := [{ id := "u1" }] }
      (by decide) (by decide!)).2
      [LibraryRequest.issue "u1" "b1" "2025-06-01" "10:00" true,
        LibraryRequest.issue "u1" "b1" "2025-06-01" "10:01" true,
        LibraryRequest.giveBack "u1" "b1" "10:02" true]
      { id := "b1", stock := .num (.fin 1) } (by decide!)⟩

/-- C27: copies are not conserved when a book is out twice with the same user.  With ten copies
of `b1` in stock and no record, two issues to `NGO-2025-01` leave stock 8 and two records, and
one confirmed return then leaves stock 9 and no record: `filter` drops both records while the
stock grows by one, so stock plus outstanding records falls from 10 to 9. -/
theorem return_drops_every_record_of_book :
    (([LibraryRequest.issue "NGO-2025-01" "b1" "2025-06-01" "10:00" true,
        LibraryRequest.issue "NGO-2025-01" "b1" "2025-06-02" "10:01" true].foldl libraryStep
          { books := [{ id := "b1", title := "Advanced Agriculture Vol. 1",
                        totalPages := .num (.fin 20), stock := .num (.fin 10) }],
            users := [{ id := "NGO-2025-01", name := "Ravi Kumar", password := "123",
                        totalFee := .num (.fin 10000), paidAmount := .num (.fin 5000) }] }).books.map
        Book.stock = [.num (.fin 8)] ∧
      outstanding ([LibraryRequest.issue "NGO-2025-01" "b1" "2025-06-01" "10:00" true,
        LibraryRequest.issue "NGO-2025-01" "b1" "2025-06-02" "10:01" true].foldl libraryStep
          { books := [{ id := "b1", title := "Advanced Agriculture Vol. 1",
                        totalPages := .num (.fin 20), stock := .num (.fin 10) }],
            users := [{ id := "NGO-2025-01", name := "Ravi Kumar", password := "123",
                        totalFee := .num (.fin 10000), paidAmount := .num (.fin 5000) }] }).users
        "b1" = 2) ∧
    (([LibraryRequest.issue "NGO-2025-01" "b1" "2025-06-01" "10:00" true,
        LibraryRequest.issue "NGO-2025-01" "b1" "2025-06-02" "10:01" true,
        LibraryRequest.giveBack "NGO-2025-01" "b1" "10:02" true].foldl libraryStep
          { books := [{ id := "b1", title := "Advanced Agriculture Vol. 1",
                        totalPages := .num (.fin 20), stock := .num (.fin 10) }],
            users := [{ id := "NGO-2025-01", name := "Ravi Kumar", password := "123",
                        totalFee := .num (.fin 10000), paidAmount := .num (.fin 5000) }] }).books.map
        Book.stock = [.num (.fin 9)] ∧
      outstanding ([LibraryRequest.issue "NGO-2025-01" "b1" "2025-06-01" "10:00" true,
        LibraryRequest.issue "NGO-2025-01" "b1" "2025-06-02" "10:01" true,
        LibraryRequest.giveBack "NGO-2025-01" "b1" "10:02" true].foldl libraryStep
          { books := [{ id := "b1", title := "Advanced Agriculture Vol. 1",
                        totalPages := .num (.fin 20), stock := .num (.fin 10) }],
            users := [{ id := "NGO-2025-01", name := "Ravi Kumar", password := "123",
                        totalFee := .num (.fin 10000), paidAmount := .num (.fin 5000) }] }).users
        "b1" = 0) := by
  decide!

/-! ## Book deletion -/

/-- C28 (counterexample): a confirmed `deleteBook` of `b1` whose `LibraryDB.deleteFile` promise
rejects writes nothing: the book is still in the list, the student still has it in `access`,
and `filteredBooks` still shows it. -/
theorem deleteBook_keeps_book_when_file_deletion_fails :
    deleteBook "10:00" true false
        { books := [{ id := "b1", title := "Advanced Agriculture Vol. 1" }],
          users := [{ id := "NGO-2025-01", access := ["b1"] }] }
        "b1" "Advanced Agriculture Vol. 1" =
      { books := [{ id := "b1", title := "Advanced Agriculture Vol. 1" }],
        users := [{ id := "NGO-2025-01", access := ["b1"] }] } ∧
    filteredBooks (fun _ _ => true) { id := "NGO-2025-01", access := ["b1"] }
        (deleteBook "10:00" true false
          { books := [{ id := "b1", title := "Advanced Agriculture Vol. 1" }],
            users := [{ id := "NGO-2025-01", access := ["b1"] }] }
          "b1" "Advanced Agriculture Vol. 1").books "" =
      [{ id := "b1", title := "Advanced Agriculture Vol. 1" }] := by
  decide

/-- C28 (amended): after a confirmed `deleteBook bookId` whose file deletion went through, no
book of the list has that id and no access list holds it; the book list is the old one without
the books of that id, in the old order; every user keeps all fields but `access`, which is the
old list without that id, in the old order; and `filteredBooks` shows no book of that id, for
whatever user record and search text the portal holds.  When the file deletion fails, the state
is left as it was. -/
theorem deleteBook_removes_book_everywhere (logTime : String) (app : AppState)
    (bookId title : String) :
    (∀ b ∈ (deleteBook logTime true true app bookId title).books, b.id ≠ bookId) ∧
    (∀ u ∈ (deleteBook logTime true true app bookId title).users, bookId ∉ u.access) ∧
    (deleteBook logTime true true app bookId title).books =
      app.books.filter (fun b => decide (b.id ≠ bookId)) ∧
    (deleteBook logTime true true app bookId title).users =
      app.users.map (fun u =>
        { u with access := u.access.filter fun aid => decide (aid ≠ bookId) }) ∧
    (∀ (titleMatches : String → String → Bool) (user : User) (searchTerm : String),
      ∀ b ∈ filteredBooks titleMatches user
          (deleteBook logTime true true app bookId title).books searchTerm, b.id ≠ bookId) ∧
    deleteBook logTime true false app bookId title = app := by
  have hb : (deleteBook logTime true true app bookId title).books =
      app.books.filter (fun b => decide (b.id ≠ bookId)) := rfl
  have hu : (deleteBook logTime true true app bookId title).users =
      app.users.map (fun u =>
        { u with access := u.access.filter fun aid => decide (aid ≠ bookId) }) := rfl
  have h1 : ∀ b ∈ (deleteBook logTime true true app bookId title).books, b.id ≠ bookId := by
    intro b hmem
    rw [hb] at hmem
    simpa using (List.mem_filter.mp hmem).2
  refine ⟨h1, ?_, hb, hu, ?_, rfl⟩
  · intro u hmem
    rw [hu] at hmem
    obtain ⟨a, -, rfl⟩ := List.mem_map.mp hmem
    intro hin
    simpa using (List.mem_filter.mp hin).2
  · intro titleMatches user searchTerm b hmem
    exact h1 b (List.mem_filter.mp hmem).1

/-! ## Full payment and no payment -/

theorem JSNum.div_self_fin {f : ℚ} (hf : 0 < f) : JSNum.div (.fin f) (.fin f) = .fin 1 := by
  rw [JSNum.div_fin_fin]
  simp only [decide_eq_true_eq, if_neg hf.ne', div_self hf.ne', Bool.xor_self]
  exact JSNum.ofRat_of_isDouble false JSNum.isDouble_one (Or.inr rfl)

theorem JSNum.div_zero_fin {f : ℚ} (hf : 0 < f) : JSNum.div (.fin 0) (.fin f) = .fin 0 := by
  rw [JSNum.div_fin_fin]
  have hneg : ¬ f < 0 := not_lt.mpr hf.le
  simp only [decide_eq_true_eq, if_neg hf.ne', zero_div, lt_irrefl, hneg, decide_False,
    Bool.xor_false]
  exact JSNum.ofRat_of_isDouble false isDouble_zero (Or.inr rfl)

theorem JSNum.mul_nat_one (n : ℕ) (hd : isDouble (n : ℚ)) :
    JSNum.mul (.fin (n : ℚ)) (.fin 1) = .fin (n : ℚ) := by
  rw [JSNum.mul_fin_fin]
  have h1 : ¬ (n : ℚ) < 0 := not_lt.mpr (Nat.cast_nonneg n)
  have h2 : ¬ (1 : ℚ) < 0 := by norm_num
  simp only [h1, h2, decide_False, Bool.xor_false, mul_one]
  exact JSNum.ofRat_of_isDouble false hd (Or.inr rfl)

theorem JSNum.mul_nat_zero (n : ℕ) : JSNum.mul (.fin (n : ℚ)) (.fin 0) = .fin 0 := by
  rw [JSNum.mul_fin_fin]
  have h1 : ¬ (n : ℚ) < 0 := not_lt.mpr (Nat.cast_nonneg n)
  simp only [h1, lt_irrefl, decide_False, Bool.xor_false, mul_zero]
  exact JSNum.ofRat_of_isDouble false isDouble_zero (Or.inr rfl)

/-- C26: for a whole page count `n >= 0` and a finite fee above zero, a paid amount equal to
the fee gives `maxPage = n`, so no page from 1 to `n` is locked; a paid amount of 0 gives
`maxPage = 0`, so every page from 1 on, the opening page included, is locked. -/
theorem full_payment_unlocks_whole_book (book : Book) (user : User) (n : ℕ) (f : ℚ)
    (hT : book.totalPages.toNumber = .fin (n : ℚ)) (hd : isDouble (n : ℚ))
    (hF : user.totalFee.toNumber = .fin f) (hf : 0 < f) :
    (user.paidAmount.toNumber = user.totalFee.toNumber →
      maxPage book user = book.totalPages.toNumber ∧
        ∀ pageNum : JSNum, JSNum.le (.fin 1) pageNum = true →
          JSNum.le pageNum book.totalPages.toNumber = true →
            isLocked book user pageNum = false) ∧
    (user.paidAmount.toNumber = .fin 0 →
      maxPage book user = .fin 0 ∧
        isLocked book user ReaderState.initial.pageNum = true ∧
        ∀ pageNum : JSNum, JSNum.le (.fin 1) pageNum = true →
          isLocked book user pageNum = true) := by
  constructor
  · intro hP
    have hmax : maxPage book user = book.totalPages.toNumber := by
      unfold maxPage accessRatio
      rw [hP, hF, hT, JSNum.div_self_fin hf, JSNum.mul_nat_one n hd]
      simp [JSNum.floor]
    refine ⟨hmax, ?_⟩
    intro pageNum _ h2
    unfold isLocked JSNum.gt
    rw [hmax]
    exact JSNum.lt_eq_false_of_le h2
  · intro hP
    have hmax : maxPage book user = .fin 0 := by
      unfold maxPage accessRatio
      rw [hP, hF, hT, JSNum.div_zero_fin hf, JSNum.mul_nat_zero n]
      simp [JSNum.floor]
    have hall : ∀ pageNum : JSNum, JSNum.le (.fin 1) pageNum = true →
        isLocked book user pageNum = true := by
      intro pageNum h1
      unfold isLocked JSNum.gt
      rw [hmax]
      rcases JSNum.le_fin_left_cases h1 with rfl | ⟨rfl, h0⟩ | ⟨x, rfl, hx⟩
      · rfl
      · norm_num at h0
      · have : (0 : ℚ) < x := by linarith
        simp [JSNum.lt, JSNum.toRat, this]
    exact ⟨hmax, hall _ (by decide!), hall⟩

/-- A 20-page book and a fee of 10000: paid in full, and not paid at all. -/
theorem full_payment_unlocks_whole_book_witness :
    (maxPage { totalPages := .num (.fin 20) }
        { totalFee := .num (.fin 10000), paidAmount := .num (.fin 10000) } = .fin 20 ∧
      ∀ pageNum : JSNum, JSNum.le (.fin 1) pageNum = true →
        JSNum.le pageNum (.fin 20) = true →
          isLocked { totalPages := .num (.fin 20) }
            { totalFee := .num (.fin 10000), paidAmount := .num (.fin 10000) } pageNum =
              false) ∧
    (maxPage { totalPages := .num (.fin 20) }
        { totalFee := .num (.fin 10000), paidAmount := .num (.fin 0) } = .fin 0 ∧
      isLocked { totalPages := .num (.fin 20) }
        { totalFee := .num (.fin 10000), paidAmount := .num (.fin 0) } (.fin 1) = true) :=
  ⟨(full_payment_unlocks_whole_book { totalPages := .num (.fin 20) }
      { totalFee := .num (.fin 10000), paidAmount := .num (.fin 10000) } 20 10000
      (by decide!) (by decide!) (by decide!) (by norm_num)).1 rfl,
    ((full_payment_unlocks_whole_book { totalPages := .num (.fin 20) }
      { totalFee := .num (.fin 10000), paidAmount := .num (.fin 0) } 20 10000
      (by decide!) (by decide!) (by decide!) (by norm_num)).2 rfl).1,
    ((full_payment_unlocks_whole_book { totalPages := .num (.fin 20) }
      { totalFee := .num (.fin 10000), paidAmount := .num (.fin 0) } 20 10000
      (by decide!) (by decide!) (by decide!) (by norm_num)).2 rfl).2.1⟩

/-! ## Paying more -/

namespace JSNum

theorem ofRat_mono (z1 z2 : Bool) {q1 q2 : ℚ} (h : q1 ≤ q2) :
    le (ofRat z1 q1) (ofRat z2 q2) = true := by
  have hr := round64_mono h
  have hm : (0 : ℚ) ≤ maxFinite := by unfold maxFinite; norm_num
  unfold ofRat
  simp only
  by_cases h1 : maxFinite < |round64 q1|
  · rw [if_pos h1]
    by_cases hq1 : q1 < 0
    · have hne := ofRat_ne_nan z2 q2
      unfold ofRat at hne
      simp only at hne
      generalize (if maxFinite < |round64 q2| then inf (decide (q2 < 0))
        else if round64 q2 = 0 then (if q2 < 0 ∨ (q2 = 0 ∧ z2 = true) then negZero else fin 0)
        else fin (round64 q2)) = b at hne ⊢
      rcases b with _ | (_ | _) | _ | _ <;> simp_all [le]
    · have h0 := round64_nonneg (not_lt.mp hq1)
      rw [abs_of_nonneg h0] at h1
      have h2 : maxFinite < |round64 q2| := by
        rw [abs_of_nonneg (by linarith)]; linarith
      have hq2 : ¬ q2 < 0 := by linarith
      rw [if_pos h2]
      simp [le, hq1, hq2]
  · rw [if_neg h1]
    have hb := abs_le.mp (not_lt.mp h1)
    by_cases h2 : maxFinite < |round64 q2|
    · rw [if_pos h2]
      have hq2 : ¬ q2 < 0 := by
        intro hq2
        have := round64_nonpos hq2.le
        rw [abs_of_nonpos this] at h2
        linarith
      split_ifs <;> simp [le, hq2]
    · rw [if_neg h2]
      split_ifs <;> simp [le, toRat] <;> linarith

theorem ofRat_ne_inf_true {q : ℚ} (z : Bool) (h : 0 ≤ q) : ofRat z q ≠ inf true := by
  unfold ofRat
  simp only
  have hq : ¬ q < 0 := not_lt.mpr h
  split_ifs <;> simp [hq]

theorem floor_mono {a b : JSNum} (h : le a b = true) : le (floor a) (floor b) = true := by
  rcases a with _ | (_ | _) | _ | x <;> rcases b with _ | (_ | _) | _ | y <;>
    simp_all [le, floor, toRat]
  all_goals first | exact Int.floor_nonneg.mpr h | exact Int.floor_le_floor h

theorem lt_false_of_le {a b p : JSNum} (h : le a b = true) (hp : lt a p = false) :
    lt b p = false := by
  rcases a with _ | (_ | _) | _ | _ <;> rcases b with _ | (_ | _) | _ | _ <;>
    rcases p with _ | (_ | _) | _ | _ <;> simp_all [le, lt, toRat] <;> linarith

theorem le_inf_true_left {a : JSNum} (h : a ≠ nan) : le (inf true) a = true := by
  rcases a with _ | (_ | _) | _ | _ <;> simp_all [le]

theorem mul_fin_negZero (x : ℚ) :
    mul (fin x) negZero = ofRat (xor (decide (x < 0)) true) (x * 0) := rfl

theorem mul_fin_ne_nan {t : ℚ} (ht : t ≠ 0) (r : JSNum) (hr : r ≠ nan) :
    mul (fin t) r ≠ nan := by
  rcases r with _ | s | _ | x
  · exact absurd rfl hr
  · rw [mul_fin_inf]; simp [ht]
  · rw [mul_fin_negZero]; exact ofRat_ne_nan _ _
  · rw [mul_fin_fin]; exact ofRat_ne_nan _ _

theorem mul_fin_mono {t : ℚ} (ht : 0 ≤ t) {r1 r2 : JSNum} (h : le r1 r2 = true)
    (hc : 0 < t ∨ r1 ≠ inf true) :
    le (mul (fin t) r1) (mul (fin t) r2) = true ∨ mul (fin t) r2 = nan := by
  have hneg : ¬ t < 0 := not_lt.mpr ht
  have h1 : r1 ≠ nan := by rintro rfl; simp [le] at h
  by_cases ht0 : t = 0
  · have hr1 : r1 ≠ inf true := by
      rcases hc with hc | hc
      · exact absurd ht0 hc.ne'
      · exact hc
    subst ht0
    rcases r2 with _ | s | _ | x2
    · simp [le] at h
    · right; rw [mul_fin_inf]; simp
    · left
      rcases r1 with _ | (_ | _) | _ | x1
      · exact absurd rfl h1
      · simp [le] at h
      · exact absurd rfl hr1
      · rw [mul_fin_negZero]; exact ofRat_mono _ _ (by simp)
      · rw [mul_fin_fin, mul_fin_negZero]; exact ofRat_mono _ _ (by simp)
    · left
      rcases r1 with _ | (_ | _) | _ | x1
      · exact absurd rfl h1
      · simp [le] at h
      · exact absurd rfl hr1
      · rw [mul_fin_fin, mul_fin_negZero]; exact ofRat_mono _ _ (by simp)
      · rw [mul_fin_fin, mul_fin_fin]; exact ofRat_mono _ _ (by simp)
  · left
    have htp : 0 < t := lt_of_le_of_ne ht (Ne.symm ht0)
    have hm1 := mul_fin_ne_nan ht0 r1 h1
    have hM : mul (fin t) (inf true) = inf true := by
      rw [mul_fin_inf]; simp [ht0, hneg]
    rcases r2 with _ | (_ | _) | _ | x2
    · simp [le] at h
    · rw [mul_fin_inf t false]
      simp only [ht0, hneg, decide_False, Bool.xor_false]
      exact le_inf_false hm1
    · have : r1 = inf true := by
        rcases r1 with _ | (_ | _) | _ | x1 <;> simp_all [le]
      subst this
      rw [mul_fin_inf]
      simp [ht0, hneg, le]
    · rcases r1 with _ | (_ | _) | _ | x1
      · exact absurd rfl h1
      · simp [le] at h
      · rw [hM]; exact le_inf_true_left (mul_fin_ne_nan ht0 negZero (by simp))
      · exact ofRat_mono _ _ le_rfl
      · rw [mul_fin_fin, mul_fin_negZero]
        apply ofRat_mono
        have hx : x1 ≤ 0 := by simpa [le, toRat] using h
        nlinarith
    · rcases r1 with _ | (_ | _) | _ | x1
      · exact absurd rfl h1
      · simp [le] at h
      · rw [hM]; exact le_inf_true_left (mul_fin_ne_nan ht0 (fin x2) (by simp))
      · rw [mul_fin_fin, mul_fin_negZero]
        apply ofRat_mono
        have hx : 0 ≤ x2 := by simpa [le, toRat] using h
        nlinarith
      · rw [mul_fin_fin, mul_fin_fin]
        apply ofRat_mono
        have hx : x1 ≤ x2 := by simpa [le, toRat] using h
        nlinarith

end JSNum

/-- C25 (counterexample): for a book of 0 pages and a fee of `1e-300`, a paid amount of
`-1e300` gives the ratio `-Infinity` and `maxPage = floor(0 * -Infinity) = NaN`, so page 1 is not
locked, while the larger paid amount 0 gives `maxPage = 0` and page 1 is locked. -/
theorem page_locked_by_paying_more :
    JSNum.le (JSNum.lit (-(10 ^ 300))) (.fin 0) = true ∧
      JSNum.gt (JSNum.lit (1 / 10 ^ 300)) (.fin 0) = true ∧
      accessRatio { totalFee := .num (JSNum.lit (1 / 10 ^ 300)),
                    paidAmount := .num (JSNum.lit (-(10 ^ 300))) } = .inf true ∧
      maxPage { totalPages := .num (.fin 0) }
        { totalFee := .num (JSNum.lit (1 / 10 ^ 300)),
          paidAmount := .num (JSNum.lit (-(10 ^ 300))) } = .nan ∧
      isLocked { totalPages := .num (.fin 0) }
        { totalFee := .num (JSNum.lit (1 / 10 ^ 300)),
          paidAmount := .num (JSNum.lit (-(10 ^ 300))) } (.fin 1) = false ∧
      isLocked { totalPages := .num (.fin 0) }
        { totalFee := .num (JSNum.lit (1 / 10 ^ 300)), paidAmount := .num (.fin 0) }
        (.fin 1) = true := by
  decide!

/-- C25 (amended): paying more never locks a page.  For a finite page count `t >= 0`, a finite
fee `f > 0` and finite paid amounts `p1 <= p2`, where `t > 0` or `p1 >= 0`, every page that is
not locked with `p1` paid is not locked with `p2` paid, and for a book with pages `maxPage`
with `p1` is at most `maxPage` with `p2`. -/
theorem maxPage_monotone_in_paidAmount (book : Book) (user : User) (t f p1 p2 : ℚ)
    (hT : book.totalPages.toNumber = .fin t) (ht : 0 ≤ t)
    (hF : user.totalFee.toNumber = .fin f) (hf : 0 < f)
    (hp : p1 ≤ p2) (hc : 0 < t ∨ 0 ≤ p1) :
    (∀ pageNum : JSNum,
      isLocked book { user with paidAmount := .num (.fin p1) } pageNum = false →
        isLocked book { user with paidAmount := .num (.fin p2) } pageNum = false) ∧
    (0 < t →
      JSNum.le (maxPage book { user with paidAmount := .num (.fin p1) })
        (maxPage book { user with paidAmount := .num (.fin p2) }) = true) := by
  have hratio : ∀ p : ℚ, accessRatio { user with paidAmount := .num (.fin p) } =
      JSNum.ofRat (xor (decide (p < 0)) (decide (f < 0))) (p / f) := by
    intro p
    show JSNum.div (.fin p) user.totalFee.toNumber = _
    rw [hF, JSNum.div_fin_fin]
    simp only [decide_eq_true_eq, if_neg hf.ne']
  have hr : JSNum.le (accessRatio { user with paidAmount := .num (.fin p1) })
      (accessRatio { user with paidAmount := .num (.fin p2) }) = true := by
    rw [hratio, hratio]
    exact JSNum.ofRat_mono _ _ (div_le_div_of_nonneg_right hp hf.le)
  have hc2 : 0 < t ∨ accessRatio { user with paidAmount := .num (.fin p1) } ≠ .inf true := by
    rcases hc with hc | hc
    · exact Or.inl hc
    · right
      rw [hratio]
      exact JSNum.ofRat_ne_inf_true _ (div_nonneg hc hf.le)
  have hmul := JSNum.mul_fin_mono ht hr hc2
  have hmax : ∀ p : ℚ, maxPage book { user with paidAmount := .num (.fin p) } =
      JSNum.floor (JSNum.mul (.fin t)
        (accessRatio { user with paidAmount := .num (.fin p) })) := by
    intro p
    show JSNum.floor (JSNum.mul book.totalPages.toNumber _) = _
    rw [hT]
  constructor
  · intro pageNum h1
    unfold isLocked JSNum.gt at h1 ⊢
    rw [hmax] at h1 ⊢
    rcases hmul with h | h
    · exact JSNum.lt_false_of_le (JSNum.floor_mono h) h1
    · rw [h]; exact JSNum.lt_nan_left _
  · intro htp
    rw [hmax, hmax]
    rcases hmul with h | h
    · exact JSNum.floor_mono h
    · exact absurd h (JSNum.mul_fin_ne_nan htp.ne' _ (by
        rw [hratio]; exact JSNum.ofRat_ne_nan _ _))

/-- A 50-page book and a fee of 10000: page 25 is open with 5000 paid and stays open with
5800 paid. -/
theorem maxPage_monotone_in_paidAmount_witness :
    isLocked { totalPages := .num (.fin 50) }
        { totalFee := .num (.fin 10000), paidAmount := .num (.fin 5800) } (.fin 25) = false ∧
      JSNum.le
        (maxPage { totalPages := .num (.fin 50) }
          { totalFee := .num (.fin 10000), paidAmount := .num (.fin 5000) })
        (maxPage { totalPages := .num (.fin 50) }
          { totalFee := .num (.fin 10000), paidAmount := .num (.fin 5800) }) = true :=
  ⟨(maxPage_monotone_in_paidAmount { totalPages := .num (.fin 50) }
      { totalFee := .num (.fin 10000) } 50 10000 5000 5800 rfl (by norm_num) rfl
      (by norm_num) (by norm_num) (Or.inl (by norm_num))).1 (.fin 25) (by decide!),
    (maxPage_monotone_in_paidAmount { totalPages := .num (.fin 50) }
      { totalFee := .num (.fin 10000) } 50 10000 5000 5800 rfl (by norm_num) rfl
      (by norm_num) (by norm_num) (Or.inl (by norm_num))).2 (by norm_num)⟩

/-! ## The zoom grid -/

theorem zoomTable_closed :
    ∀ p ∈ zoomTable,
      (∃ r ∈ zoomTable, zoomOut (.fin p.2) = .fin r.2) ∧
        ∃ r ∈ zoomTable, zoomIn (.fin p.2) = .fin r.2 := by
  decide!

theorem zoomTable_foldl (reqs : List ZoomRequest) (s : ReaderState)
    (h : ∃ p ∈ zoomTable, s.zoom = .fin p.2) :
    ∃ p ∈ zoomTable, (reqs.foldl adjustZoom s).zoom = .fin p.2 := by
  induction reqs generalizing s with
  | nil => exact h
  | cons r rs ih =>
    apply ih
    obtain ⟨p, hp, hz⟩ := h
    cases r
    · show ∃ r ∈ zoomTable, zoomOut s.zoom = .fin r.2
      rw [hz]; exact (zoomTable_closed p hp).1
    · show ∃ r ∈ zoomTable, zoomIn s.zoom = .fin r.2
      rw [hz]; exact (zoomTable_closed p hp).2

/-- C22 (counterexample): three zoom-out clicks from 1.0 give 0.8, 0.6000000000000001 and then
the clamp value 0.5, which is at distance 0.1 or more from every `1.0 + 0.2 * k`; the next
zoom-in click gives 0.7, again between two values of that grid. -/
theorem zoom_half_off_step_grid :
    ((List.replicate 3 ZoomRequest.zoomOut).foldl adjustZoom ReaderState.initial).zoom =
        .fin (1 / 2) ∧
      (∀ k : ℤ, (1 : ℚ) / 10 ≤ |1 / 2 - (1 + 2 / 10 * (k : ℚ))|) ∧
      ([ZoomRequest.zoomOut, ZoomRequest.zoomOut, ZoomRequest.zoomOut,
          ZoomRequest.zoomIn].foldl adjustZoom ReaderState.initial).zoom =
        .fin (3152519739159347 / 4503599627370496) := by
  refine ⟨by decide!, ?_, by decide!⟩
  intro k
  have h : (1 : ℚ) / 2 - (1 + 2 / 10 * (k : ℚ)) = -(((2 * k + 5 : ℤ) : ℚ)) / 10 := by
    push_cast; ring
  rw [h, abs_div, abs_neg, abs_of_pos (by norm_num : (0 : ℚ) < 10)]
  have h1 : (1 : ℤ) ≤ |2 * k + 5| := by
    rcases abs_cases (2 * k + 5) with ⟨h3, _⟩ | ⟨h3, _⟩ <;> omega
  have h2 : (1 : ℚ) ≤ |((2 * k + 5 : ℤ) : ℚ)| := by
    rw [← Int.cast_abs]; exact_mod_cast h1
  exact div_le_div_of_nonneg_right h2 (by norm_num)

/-- C22 (amended): after every finite sequence of zoom-in and zoom-out clicks from 1.0 the
zoom is one of the 38 binary64 values of `zoomTable`, each of which is within `10^-15` of a
multiple of 0.1 from 0.5 to 3.0: next to `1.0 + 0.2 * k` (even tenths) or, as after the clamp
at 0.5, next to `0.5 + 0.2 * k` (odd tenths). -/
theorem zoom_on_tenth_grid :
    (∀ reqs : List ZoomRequest,
      ∃ p ∈ zoomTable, (reqs.foldl adjustZoom ReaderState.initial).zoom = .fin p.2) ∧
      ∀ p ∈ zoomTable, 5 ≤ p.1 ∧ p.1 ≤ 30 ∧ |p.2 - (p.1 : ℚ) / 10| ≤ 1 / 10 ^ 15 := by
  refine ⟨fun reqs => zoomTable_foldl reqs _ ⟨(10, 1), by decide!, by decide!⟩, by decide!⟩

/-! ## Termination of the watermark loops -/

namespace JSNum

theorem le_add_step (L : ℤ) {y step : JSNum} (hL : |L + 200| < 2 ^ 53)
    (hy : le (fin (L : ℚ)) y = true) (hs : le (fin 200) step = true) :
    le (fin ((L + 200 : ℤ) : ℚ)) (add y step) = true := by
  have hd := isDouble_intCast (L + 200) hL
  rcases le_fin_left_cases hs with rfl | ⟨_, h0⟩ | ⟨s, rfl, hs200⟩
  · rcases le_fin_left_cases hy with rfl | ⟨rfl, _⟩ | ⟨x, rfl, _⟩ <;> rfl
  · norm_num at h0
  · rcases le_fin_left_cases hy with rfl | ⟨rfl, h0⟩ | ⟨x, rfl, hx⟩
    · rfl
    · show le _ (ofRat _ (0 + s)) = true
      apply le_ofRat _ hd
      push_cast
      linarith
    · rw [add_fin_fin]
      apply le_ofRat _ hd
      push_cast
      linarith

theorem mul_nat_two_all (n : ℕ) (hn : n < 2 ^ 32) :
    mul (fin (n : ℚ)) (fin 2) = fin ((n : ℚ) * 2) := by
  rw [mul_fin_fin]
  have h1 : ¬ (n : ℚ) < 0 := not_lt.mpr (Nat.cast_nonneg n)
  have h2 : ¬ (2 : ℚ) < 0 := by norm_num
  simp only [h1, h2, decide_False, Bool.xor_false]
  apply ofRat_of_isDouble _ _ (Or.inr rfl)
  have := isDouble_intCast ((n : ℤ) * 2) (by rw [abs_of_nonneg (by positivity)]; omega)
  simpa using this

theorem le_neg_nat (n : ℕ) : le (fin ((-(n : ℤ) : ℤ) : ℚ)) (neg (fin (n : ℚ))) = true := by
  by_cases h : (n : ℚ) = 0
  · simp [neg, h, le, toRat]
  · rw [neg_fin_of_ne_zero h]
    exact le_fin_fin (by simp)

end JSNum

theorem watermarkColumn_terminates (watermarkText userId : String) (zoom x step : JSNum)
    (H : ℕ) (hs : JSNum.le (.fin 200) step = true) :
    ∀ (n fuel : ℕ) (L : ℤ) (y : JSNum), n < fuel → -(2 ^ 40) < L → L + 200 * n < 2 ^ 40 →
      JSNum.le (.fin (L : ℚ)) y = true → 2 * (H : ℤ) ≤ L + 200 * n →
      ∃ ops, watermarkColumn watermarkText userId zoom x (.fin ((H : ℚ) * 2)) step fuel y =
          some ops ∧ ops.length ≤ 2 * n := by
  intro n
  induction n with
  | zero =>
    intro fuel L y hf _ _ hy hend
    obtain ⟨f, rfl⟩ := Nat.exists_eq_succ_of_ne_zero (by omega : fuel ≠ 0)
    have hle : JSNum.le (.fin ((H : ℚ) * 2)) y = true := by
      refine JSNum.le_trans (JSNum.le_fin_fin ?_) hy
      have : ((2 * (H : ℤ) : ℤ) : ℚ) ≤ (L : ℚ) := by exact_mod_cast (by omega : 2 * (H : ℤ) ≤ L)
      push_cast at this
      linarith
    refine ⟨[], ?_, by simp⟩
    unfold watermarkColumn
    rw [JSNum.lt_eq_false_of_le hle]
    rfl
  | succ n ih =>
    intro fuel L y hf hlo hhi hy hend
    obtain ⟨f, rfl⟩ := Nat.exists_eq_succ_of_ne_zero (by omega : fuel ≠ 0)
    by_cases hlt : JSNum.lt y (.fin ((H : ℚ) * 2)) = true
    · have hstep := JSNum.le_add_step L
        (by rw [abs_lt]; constructor <;> push_cast at hhi ⊢ <;> omega) hy hs
      obtain ⟨ops, hops, hlen⟩ := ih f (L + 200) (JSNum.add y step) (by omega) (by omega)
        (by push_cast at hhi ⊢; omega) hstep (by push_cast at hend ⊢; omega)
      refine ⟨DrawOp.fillText watermarkText x y ::
        DrawOp.fillText userId x (JSNum.add y (JSNum.mul (JSNum.fin 50) zoom)) :: ops, ?_, ?_⟩
      · rw [watermarkColumn, if_pos hlt, hops]
        rfl
      · simp only [List.length_cons]
        omega
    · refine ⟨[], ?_, by simp⟩
      rw [watermarkColumn, if_neg hlt]

theorem watermarkGrid_terminates (watermarkText userId : String)
    (zoom stepX stepY yStart : JSNum) (W H rows : ℕ)
    (hsx : JSNum.le (.fin 200) stepX = true)
    (hcol : ∀ (fuel : ℕ) (x : JSNum), rows < fuel →
      ∃ ops, watermarkColumn watermarkText userId zoom x (.fin ((H : ℚ) * 2)) stepY fuel yStart =
          some ops ∧ ops.length ≤ 2 * rows) :
    ∀ (m fuel : ℕ) (L : ℤ) (x : JSNum), m + rows < fuel → -(2 ^ 40) < L →
      L + 200 * m < 2 ^ 40 → JSNum.le (.fin (L : ℚ)) x = true → 2 * (W : ℤ) ≤ L + 200 * m →
      ∃ ops, watermarkGrid watermarkText userId zoom (.fin ((W : ℚ) * 2)) yStart
          (.fin ((H : ℚ) * 2)) stepX stepY fuel x = some ops ∧ ops.length ≤ m * (2 * rows) := by
  intro m
  induction m with
  | zero =>
    intro fuel L x hf _ _ hx hend
    obtain ⟨f, rfl⟩ := Nat.exists_eq_succ_of_ne_zero (by omega : fuel ≠ 0)
    have hle : JSNum.le (.fin ((W : ℚ) * 2)) x = true := by
      refine JSNum.le_trans (JSNum.le_fin_fin ?_) hx
      have : ((2 * (W : ℤ) : ℤ) : ℚ) ≤ (L : ℚ) := by exact_mod_cast (by omega : 2 * (W : ℤ) ≤ L)
      push_cast at this
      linarith
    refine ⟨[], ?_, by simp⟩
    unfold watermarkGrid
    rw [JSNum.lt_eq_false_of_le hle]
    rfl
  | succ m ih =>
    intro fuel L x hf hlo hhi hx hend
    obtain ⟨f, rfl⟩ := Nat.exists_eq_succ_of_ne_zero (by omega : fuel ≠ 0)
    by_cases hlt : JSNum.lt x (.fin ((W : ℚ) * 2)) = true
    · have hstep := JSNum.le_add_step L
        (by rw [abs_lt]; constructor <;> push_cast at hhi ⊢ <;> omega) hx hsx
      obtain ⟨rest, hrest, hlen⟩ := ih f (L + 200) (JSNum.add x stepX) (by omega) (by omega)
        (by push_cast at hhi ⊢; omega) hstep (by push_cast at hend ⊢; omega)
      obtain ⟨column, hcolumn, hclen⟩ := hcol f x (by omega)
      refine ⟨column ++ rest, ?_, ?_⟩
      · rw [watermarkGrid, if_pos hlt, hcolumn, hrest]
      · rw [List.length_append, Nat.succ_mul]
        omega
    · refine ⟨[], ?_, by simp⟩
      rw [watermarkGrid, if_neg hlt]

theorem ceil_steps (n : ℕ) (hn : n < 2 ^ 32) :
    2 * (n : ℤ) ≤ -(n : ℤ) + 200 * (⌈3 * (n : ℚ) / 200⌉₊ : ℕ) ∧
      -(n : ℤ) + 200 * (⌈3 * (n : ℚ) / 200⌉₊ : ℕ) < 2 ^ 40 := by
  have h1 : 3 * (n : ℚ) / 200 ≤ (⌈3 * (n : ℚ) / 200⌉₊ : ℚ) := Nat.le_ceil _
  have h2 : (⌈3 * (n : ℚ) / 200⌉₊ : ℚ) < 3 * (n : ℚ) / 200 + 1 :=
    Nat.ceil_lt_add_one (by positivity)
  have h3 : 3 * ((n : ℤ) : ℚ) ≤ 200 * ((⌈3 * (n : ℚ) / 200⌉₊ : ℤ) : ℚ) := by
    push_cast; linarith
  have h4 : 200 * ((⌈3 * (n : ℚ) / 200⌉₊ : ℤ) : ℚ) < 3 * ((n : ℤ) : ℚ) + 200 := by
    push_cast; linarith
  have h5 : 3 * (n : ℤ) ≤ 200 * (⌈3 * (n : ℚ) / 200⌉₊ : ℤ) := by exact_mod_cast h3
  have h6 : 200 * (⌈3 * (n : ℚ) / 200⌉₊ : ℤ) < 3 * (n : ℤ) + 200 := by exact_mod_cast h4
  constructor <;> omega

/-- C30: on every canvas of whole width `W` and height `H` (0 included) and for every zoom of
at least 0.5, so for every zoom the buttons reach, the watermark loops end: with fuel above
`ceil(3W/200) + ceil(3H/200)` the block returns its drawing calls, two per iteration of the
inner body, and there are at most `ceil(3W/200) * ceil(3H/200)` iterations. -/
theorem watermark_loops_terminate (settings : Settings) (user : User) (z : ℚ) (W H fuel : ℕ)
    (hz : 1 / 2 ≤ z) (hW : W < 2 ^ 32) (hH : H < 2 ^ 32)
    (hfuel : ⌈3 * (W : ℚ) / 200⌉₊ + ⌈3 * (H : ℚ) / 200⌉₊ < fuel) :
    ∃ ops, drawWatermark fuel settings user (.fin z) W H = some ops ∧
      ops.length ≤ 2 * (⌈3 * (W : ℚ) / 200⌉₊ * ⌈3 * (H : ℚ) / 200⌉₊) := by
  have hstep : JSNum.le (.fin 200) (JSNum.mul (.fin 400) (.fin z)) = true := by
    rw [JSNum.mul_fin_fin]
    exact JSNum.le_ofRat _ (by simpa using isDouble_intCast 200 (by norm_num)) (by linarith)
  have hcol : ∀ (fuel : ℕ) (x : JSNum), ⌈3 * (H : ℚ) / 200⌉₊ < fuel →
      ∃ ops, watermarkColumn settings.watermarkText user.id (.fin z) x (.fin ((H : ℚ) * 2))
          (JSNum.mul (.fin 400) (.fin z)) fuel (JSNum.neg (.fin (H : ℚ))) = some ops ∧
        ops.length ≤ 2 * ⌈3 * (H : ℚ) / 200⌉₊ :=
    fun fuel x hf =>
      watermarkColumn_terminates settings.watermarkText user.id (.fin z) x _ H hstep _ fuel
        (-(H : ℤ)) _ hf (by omega) (ceil_steps H hH).2 (JSNum.le_neg_nat H) (ceil_steps H hH).1
  obtain ⟨ops, hops, hlen⟩ := watermarkGrid_terminates settings.watermarkText user.id (.fin z)
    (JSNum.mul (.fin 400) (.fin z)) (JSNum.mul (.fin 400) (.fin z)) (JSNum.neg (.fin (H : ℚ)))
    W H ⌈3 * (H : ℚ) / 200⌉₊ hstep hcol ⌈3 * (W : ℚ) / 200⌉₊ fuel (-(W : ℤ))
    (JSNum.neg (.fin (W : ℚ))) hfuel (by omega) (ceil_steps W hW).2 (JSNum.le_neg_nat W)
    (ceil_steps W hW).1
  refine ⟨ops, ?_, by rw [Nat.mul_left_comm]; exact hlen⟩
  unfold drawWatermark
  simp only
  rw [JSNum.mul_nat_two_all W hW, JSNum.mul_nat_two_all H hH]
  exact hops

/-- A 600 by 800 canvas at zoom 0.5, and an empty canvas. -/
theorem watermark_loops_terminate_witness :
    (∃ ops, drawWatermark 30 {} { id := "NGO-2025-01" } (.fin (1 / 2)) 600 800 = some ops ∧
      ops.length ≤ 2 * (⌈3 * ((600 : ℕ) : ℚ) / 200⌉₊ * ⌈3 * ((800 : ℕ) : ℚ) / 200⌉₊)) ∧
    ∃ ops, drawWatermark 1 {} { id := "NGO-2025-01" } (.fin 1) 0 0 = some ops ∧
      ops.length ≤ 2 * (⌈3 * ((0 : ℕ) : ℚ) / 200⌉₊ * ⌈3 * ((0 : ℕ) : ℚ) / 200⌉₊) :=
  ⟨watermark_loops_terminate {} { id := "NGO-2025-01" } (1 / 2) 600 800 30 (by norm_num)
      (by norm_num) (by norm_num) (by decide!),
    watermark_loops_terminate {} { id := "NGO-2025-01" } 1 0 0 1 (by norm_num)
      (by norm_num) (by norm_num) (by decide!)⟩

/-! ## Ranges and density of the watermark grid -/

theorem mem_specAnchors (W H : ℕ) (step x y : ℚ) (hstep : 0 < step) :
    (x, y) ∈ specAnchors W H step ↔
      ∃ i j : ℕ, x = -(W : ℚ) + (i : ℚ) * step ∧ y = -(H : ℚ) + (j : ℚ) * step ∧
        x < 2 * (W : ℚ) ∧ y < 2 * (H : ℚ) := by
  have key : ∀ (n k : ℕ), k < ⌈3 * (n : ℚ) / step⌉₊ ↔ -(n : ℚ) + (k : ℚ) * step < 2 * (n : ℚ) := by
    intro n k
    rw [Nat.lt_ceil, lt_div_iff₀ hstep]
    constructor <;> intro h <;> linarith
  unfold specAnchors
  simp only [List.mem_flatMap, List.mem_map, List.mem_range, Prod.mk.injEq]
  constructor
  · rintro ⟨i, hi, j, hj, hx, hy⟩
    refine ⟨i, j, hx.symm, hy.symm, ?_, ?_⟩
    · rw [← hx]; exact (key W i).mp hi
    · rw [← hy]; exact (key H j).mp hj
  · rintro ⟨i, j, hx, hy, hxl, hyl⟩
    refine ⟨i, (key W i).mpr (by rw [← hx]; exact hxl), j, (key H j).mpr (by rw [← hy]; exact hyl),
      hx.symm, hy.symm⟩

/-- C23 (counterexample): on a 400 by 400 canvas at zoom 1 the watermark text is drawn at the
nine anchors with `x` and `y` in -400, 0, 400 and nowhere else; the grid value
`800 = -400 + 3 * 400`, the end point `2 * H` of the range, is not among the `y`. -/
theorem watermark_end_point_not_drawn :
    (drawWatermark 10 {} { id := "NGO-2025-01" } (.fin 1) 400 400).map
        (fun ops => ops.filterMap fun op =>
          match op with
          | .fillText text x y =>
            if text = "CONFIDENTIAL - DO NOT SHARE" then some (x, y) else none) =
      some [(.fin (-400), .fin (-400)), (.fin (-400), .fin 0), (.fin (-400), .fin 400),
            (.fin 0, .fin (-400)), (.fin 0, .fin 0), (.fin 0, .fin 400),
            (.fin 400, .fin (-400)), (.fin 400, .fin 0), (.fin 400, .fin 400)] ∧
      (-400 : ℚ) + 3 * (400 * 1) = 800 ∧ (800 : ℚ) ≤ 2 * 400 := by
  decide!

/-- C23 (amended): when `400 * zoom` is a whole number `s`, the watermark block draws at
exactly the anchors `(x, y)` with `x = -W + i * s`, `y = -H + j * s` for naturals `i`, `j` and
`x < 2 * W`, `y < 2 * H`: the ranges `[-W, 2W)` and `[-H, 2H)` are covered with the end points
`2 * W` and `2 * H` left out. -/
theorem drawWatermark_half_open_ranges (settings : Settings) (user : User) (z : ℚ)
    (s W H fuel : ℕ) (hz : 400 * z = s) (hs1 : 1 ≤ s) (hs : s < 2 ^ 32)
    (hW1 : 1 ≤ W) (hW : W < 2 ^ 32) (hH1 : 1 ≤ H) (hH : H < 2 ^ 32)
    (hfuel : ⌈3 * (W : ℚ) / (400 * z)⌉₊ + ⌈3 * (H : ℚ) / (400 * z)⌉₊ < fuel) :
    drawWatermark fuel settings user (.fin z) W H =
        some (specWatermark settings.watermarkText user.id W H z) ∧
      ∀ x y : ℚ, (x, y) ∈ specAnchors W H (400 * z) ↔
        ∃ i j : ℕ, x = -(W : ℚ) + (i : ℚ) * (400 * z) ∧ y = -(H : ℚ) + (j : ℚ) * (400 * z) ∧
          x < 2 * (W : ℚ) ∧ y < 2 * (H : ℚ) := by
  refine ⟨drawWatermark_eq_specWatermark settings user z s W H fuel hz hs1 hs hW1 hW hH1 hH
    hfuel, fun x y => mem_specAnchors W H (400 * z) x y ?_⟩
  rw [hz]
  exact_mod_cast hs1

/-- Instance: zoom 1 on a 400 by 400 canvas; `(400, 400)` is an anchor. -/
theorem drawWatermark_half_open_ranges_witness :
    drawWatermark 10 {} { id := "NGO-2025-01" } (.fin 1) 400 400 =
        some (specWatermark (Settings.watermarkText {}) (User.id { id := "NGO-2025-01" })
          400 400 1) ∧
      ((400 : ℚ), (400 : ℚ)) ∈ specAnchors 400 400 (400 * 1) :=
  ⟨(drawWatermark_half_open_ranges {} { id := "NGO-2025-01" } 1 400 400 400 10 (by norm_num)
      (by norm_num) (by norm_num) (by norm_num) (by norm_num) (by norm_num) (by norm_num)
      (by decide!)).1,
    ((drawWatermark_half_open_ranges {} { id := "NGO-2025-01" } 1 400 400 400 10 (by norm_num)
      (by norm_num) (by norm_num) (by norm_num) (by norm_num) (by norm_num) (by norm_num)
      (by decide!)).2 400 400).mpr ⟨2, 2, by norm_num, by norm_num, by norm_num, by norm_num⟩⟩

/-- C29 (counterexample): at the zoom reached by three zoom-in clicks, a canvas of 1280 by 640
is exactly `1.5 * zoom * w` by `1.5 * zoom * h` for `w = 1280 / (1.5 * zoom)` and
`h = 640 / (1.5 * zoom)`; the loops visit 6 columns and 3 rows (18 anchors, 36 texts), while
`ceil(4.5 * w / 400) * ceil(4.5 * h / 400)` is 7 * 4 = 28. -/
theorem watermark_density_after_three_zoom_ins :
    ((List.replicate 3 ZoomRequest.zoomIn).foldl adjustZoom ReaderState.initial).zoom =
        .fin (7205759403792793 / 4503599627370496) ∧
      ((1280 : ℕ) : ℚ) = 3 / 2 * (7205759403792793 / 4503599627370496) *
        (1280 / (3 / 2 * (7205759403792793 / 4503599627370496))) ∧
      ((640 : ℕ) : ℚ) = 3 / 2 * (7205759403792793 / 4503599627370496) *
        (640 / (3 / 2 * (7205759403792793 / 4503599627370496))) ∧
      (drawWatermark 20 {} { id := "NGO-2025-01" }
        (.fin (7205759403792793 / 4503599627370496)) 1280 640).map List.length = some 36 ∧
      ⌈(9 / 2 : ℚ) * (1280 / (3 / 2 * (7205759403792793 / 4503599627370496))) / 400⌉₊ = 7 ∧
      ⌈(9 / 2 : ℚ) * (640 / (3 / 2 * (7205759403792793 / 4503599627370496))) / 400⌉₊ = 4 := by
  decide!

/-- C29 (amended): for a page of intrinsic size `w` by `h`, a zoom for which `400 * zoom` is a
whole number `s`, and whole canvas sizes `1.5 * zoom * w` by `1.5 * zoom * h` at that zoom and
`1.5 * w` by `1.5 * h` at zoom 1, the watermark block draws at
`ceil(4.5 * w / 400) * ceil(4.5 * h / 400)` anchors at either zoom, and the anchors at `zoom`
are `zoom` times the anchors at zoom 1, in the same order. -/
theorem watermark_density_exact_step (settings : Settings) (user : User) (z w h : ℚ)
    (s W H W1 H1 fuel : ℕ) (hz : 400 * z = s) (hs1 : 1 ≤ s) (hs : s < 2 ^ 32)
    (hWw : (W : ℚ) = 3 / 2 * z * w) (hHh : (H : ℚ) = 3 / 2 * z * h)
    (hW1w : (W1 : ℚ) = 3 / 2 * w) (hH1h : (H1 : ℚ) = 3 / 2 * h)
    (hW0 : 1 ≤ W) (hW : W < 2 ^ 32) (hH0 : 1 ≤ H) (hH : H < 2 ^ 32)
    (hW10 : 1 ≤ W1) (hW1 : W1 < 2 ^ 32) (hH10 : 1 ≤ H1) (hH1 : H1 < 2 ^ 32)
    (hfuel : ⌈9 / 2 * w / 400⌉₊ + ⌈9 / 2 * h / 400⌉₊ < fuel) :
    drawWatermark fuel settings user (.fin z) W H =
        some (specWatermark settings.watermarkText user.id W H z) ∧
      drawWatermark fuel settings user (.fin 1) W1 H1 =
        some (specWatermark settings.watermarkText user.id W1 H1 1) ∧
      (specAnchors W H (400 * z)).length = ⌈9 / 2 * w / 400⌉₊ * ⌈9 / 2 * h / 400⌉₊ ∧
      (specAnchors W1 H1 (400 * 1)).length = ⌈9 / 2 * w / 400⌉₊ * ⌈9 / 2 * h / 400⌉₊ ∧
      specAnchors W H (400 * z) =
        (specAnchors W1 H1 (400 * 1)).map fun a => (z * a.1, z * a.2) := by
  have hzpos : 0 < z := by
    have : (0 : ℚ) < (s : ℚ) := by exact_mod_cast hs1
    linarith
  have e1 : 3 * (W : ℚ) / (400 * z) = 9 / 2 * w / 400 := by
    rw [hWw]; field_simp; ring
  have e2 : 3 * (H : ℚ) / (400 * z) = 9 / 2 * h / 400 := by
    rw [hHh]; field_simp; ring
  have e3 : 3 * (W1 : ℚ) / (400 * 1) = 9 / 2 * w / 400 := by
    rw [hW1w]; ring
  have e4 : 3 * (H1 : ℚ) / (400 * 1) = 9 / 2 * h / 400 := by
    rw [hH1h]; ring
  have hlen : ∀ (a b : ℕ) (step : ℚ), (specAnchors a b step).length =
      ⌈3 * (a : ℚ) / step⌉₊ * ⌈3 * (b : ℚ) / step⌉₊ := by
    intro a b step
    unfold specAnchors
    simp [List.length_flatMap, Function.comp_def]
  refine ⟨?_, ?_, ?_, ?_, ?_⟩
  · exact drawWatermark_eq_specWatermark settings user z s W H fuel hz hs1 hs hW0 hW hH0 hH
      (by rw [e1, e2]; exact hfuel)
  · exact drawWatermark_eq_specWatermark settings user 1 400 W1 H1 fuel (by norm_num)
      (by norm_num) (by norm_num) hW10 hW1 hH10 hH1 (by rw [e3, e4]; exact hfuel)
  · rw [hlen, e1, e2]
  · rw [hlen, e3, e4]
  · unfold specAnchors
    rw [e1, e2, e3, e4, List.map_flatMap]
    congr 1
    funext i
    rw [List.map_map]
    congr 1
    funext j
    simp only [Function.comp]
    rw [hWw, hHh, hW1w, hH1h]
    congr 1 <;> ring

/-- Instance: a page of 400 by 400 at zoom 2.5 and at zoom 1; 25 anchors either way. -/
theorem watermark_density_exact_step_witness :
    drawWatermark 12 {} { id := "NGO-2025-01" } (.fin (5 / 2)) 1500 1500 =
        some (specWatermark (Settings.watermarkText {}) (User.id { id := "NGO-2025-01" })
          1500 1500 (5 / 2)) ∧
      drawWatermark 12 {} { id := "NGO-2025-01" } (.fin 1) 600 600 =
        some (specWatermark (Settings.watermarkText {}) (User.id { id := "NGO-2025-01" })
          600 600 1) ∧
      (specAnchors 1500 1500 (400 * (5 / 2))).length =
        ⌈(9 / 2 : ℚ) * 400 / 400⌉₊ * ⌈(9 / 2 : ℚ) * 400 / 400⌉₊ ∧
      (specAnchors 600 600 (400 * 1)).length =
        ⌈(9 / 2 : ℚ) * 400 / 400⌉₊ * ⌈(9 / 2 : ℚ) * 400 / 400⌉₊ ∧
      specAnchors 1500 1500 (400 * (5 / 2)) =
        (specAnchors 600 600 (400 * 1)).map fun a => ((5 / 2 : ℚ) * a.1, (5 / 2 : ℚ) * a.2) :=
  watermark_density_exact_step {} { id := "NGO-2025-01" } (5 / 2) 400 400 1000 1500 1500 600 600
    12 (by norm_num) (by norm_num) (by norm_num) (by norm_num) (by norm_num) (by norm_num)
    (by norm_num) (by norm_num) (by norm_num) (by norm_num) (by norm_num) (by norm_num)
    (by norm_num) (by norm_num) (by norm_num) (by decide!)

end RI2
